import Mathlib

/-!
# Sprout AS chains: a shallow embedding of `aschain.h` / `aschain.cpp`

The development embeds the AS chain (`AsChain`), the chain link or cursor
(`AsChainLink`) and the token table (`AsChainTable`) of sprout as pure
functions over an explicit program state, and proves properties of the step
evaluation `on_initial_request` and of the table operations `register_`,
`unregister` and `lookup`.

Modelling conventions
* A pointer to an `AsChain` is a natural number; `NULL` is `none`.  The heap
  maps the addresses of the live chains to their contents: `delete` removes
  the address, and following a pointer that is not live is a fault.
* `std::map` is an association list read through `find`, `assign`, `erase`.
* A data member that a constructor leaves uninitialised holds `none`.
* Undefined behaviour and failed assertions are explicit faults.
* Log statements are not modelled.
* The reference count (`std::atomic<int>`) is an integer on which increment and
  decrement wrap at the ends of the range of `int`.
-/

namespace Sprout

/-! ## `std::map` as an association list -/

namespace Map

variable {κ α : Type} [DecidableEq κ]

/-- The value stored under `k` (`std::map::find`), `none` for `end()`. -/
def find (k : κ) : List (κ × α) → Option α
  | [] => none
  | (k', v) :: m => if k' = k then some v else find k m

/-- Assignment through the subscript operator, `m[k] = v`: overwrites the value of
an existing key, inserts the key otherwise. -/
def assign (k : κ) (v : α) : List (κ × α) → List (κ × α)
  | [] => [(k, v)]
  | (k', v') :: m => if k' = k then (k, v) :: m else (k', v') :: assign k v m

/-- Removal by key, `m.erase(k)`: nothing happens when the key is absent. -/
def erase (k : κ) : List (κ × α) → List (κ × α)
  | [] => []
  | (k', v') :: m => if k' = k then erase k m else (k', v') :: erase k m

end Map

/-! ## Data model -/

/-- The three session cases (`sessioncase.h`); a chain refers to one of the three
static instances. -/
inductive SessionCase where
  | Originating
  | Terminating
  | OriginatingCdiv
  deriving DecidableEq, Repr

/-- Result of `Ifc::as_invocation()`: the AS to invoke and its default handling
(`true`: continue on failure, `false`: terminate on failure). -/
structure AsInvocation where
  server_name : String
  default_handling : Bool
  deriving DecidableEq, Repr

/-- One initial filter criterion.  The trigger is a handle that only the external
filter evaluation `filter_matches` interprets. -/
structure Ifc where
  trigger : Nat
  as_invocation : AsInvocation
  deriving DecidableEq, Repr

/-- A SIP URI (`pjsip_sip_uri`), reduced to the members the chain reads or writes. -/
structure SipUri where
  secure : Bool
  user : String
  host : String
  port : Nat
  transport_param : String
  lr_param : Int
  deriving DecidableEq, Repr

/-- A generic URI (`pjsip_uri`): a SIP URI or any other scheme kept as text. -/
inductive PjsipUri where
  | sip (u : SipUri)
  | other (text : String)
  deriving DecidableEq, Repr

/-- The message carried by a `pjsip_tx_data`: request URI and headers as
name/value pairs in order. -/
structure Msg where
  req_uri : PjsipUri
  hdrs : List (String × String)
  deriving DecidableEq, Repr

/-- Short-lived data structure holding the details of a calculated target. -/
structure target where
  from_store : Bool
  upstream_route : Bool
  aor : String
  binding_id : String
  uri : Option PjsipUri
  paths : List PjsipUri
  transport : Option Nat
  liveness_timeout : Int
  deriving DecidableEq, Repr

/-- Default constructor of `target`. -/
def target.default : target :=
  { from_store := false, upstream_route := false, aor := "", binding_id := "",
    uri := none, paths := [], transport := none, liveness_timeout := 0 }

/-- The AS chain object. -/
structure AsChain where
  _refs : Int
  _odi_tokens : List String
  _session_case : SessionCase
  _served_user : String
  _is_registered : Bool
  _trail : Nat
  _ifcs : List Ifc
  deriving DecidableEq, Repr

/-- A single link in the AsChain.  `_default_handling` is `none` while the member
is uninitialised: neither constructor writes it. -/
structure AsChainLink where
  _as_chain : Option Nat
  _index : Nat
  _default_handling : Option Bool
  deriving DecidableEq, Repr

/-- Program state: the heap of live `AsChain` objects and the token map of the one
`AsChainTable` all chains are registered in. -/
structure State where
  heap : List (Nat × AsChain)
  _t2c_map : List (String × AsChainLink)
  deriving DecidableEq, Repr

/-- Ways in which an operation can go wrong instead of returning. -/
inductive Fault where
  | null_deref
  | dangling
  | out_of_bounds
  | assertion
  deriving DecidableEq, Repr

/-- Disposition of a request. Suggests what to do next. -/
inductive Disposition where
  | Stop
  | Skip
  | Complete
  | Next
  deriving DecidableEq, Repr

/-- Application server timeouts (in seconds). -/
def AS_TIMEOUT_CONTINUE : Int := 2

/-- Application server timeouts (in seconds). -/
def AS_TIMEOUT_TERMINATE : Int := 4

/-- Length of an ODI token. -/
def TOKEN_LENGTH : Nat := 10

/-! ## External collaborators

Everything below is declared outside `aschain.h` / `aschain.cpp` and enters the
embedding as a parameter. -/

/-- State of the UAS transaction the request belongs to; only the collaborators
interpret it. -/
structure UASTransaction where
  state : Nat
  deriving DecidableEq, Repr

/-- The internal call services (`CallServices`): the MMTEL test and the two
flavours of internal processing.  Each flavour receives the transaction, the
message and the served user and returns its proceed flag together with the
message and the transaction as it leaves them. -/
structure CallServices where
  is_mmtel : String → Bool
  originating_on_initial_invite :
    UASTransaction → Msg → String → Bool × Msg × UASTransaction
  terminating_on_initial_invite :
    UASTransaction → Msg → String → Bool × Msg × UASTransaction

/-- Utilities and constants from `ifchandler.h`, `sessioncase.h`, `pjutils.h`,
`constants.h` and the stack data.  The result of `uri_from_string` is the URI
the chain goes on to use as a SIP URI, `none` standing for a null result; the
header setter works on the headers of the message only. -/
structure Env where
  filter_matches : Ifc → SessionCase → Bool → Msg → Bool
  session_case_to_string : SessionCase → String
  is_originating : SessionCase → Bool
  uri_from_string : String → Option SipUri
  set_generic_header : List (String × String) → String → String → List (String × String)
  register_proxy : UASTransaction → UASTransaction
  STR_ODI_PREFIX : String
  STR_P_SERVED_USER : String
  local_host : String
  trusted_port : Nat

/-! ## `AsChain` -/

namespace AsChain

/-- Number of elements in this chain: `_ifcs->size()`. -/
def size (c : AsChain) : Nat := c._ifcs.length

/-- Largest value of an `int`. -/
def INT_MAX : Int := 2147483647

/-- Smallest value of an `int`. -/
def INT_MIN : Int := -2147483648

/-- The value `++_refs` leaves in a `std::atomic<int>`: one more, and INT_MIN after
INT_MAX, which is the increment modulo 2^32 on the values an `int` holds. -/
def pre_increment (r : Int) : Int := if r = INT_MAX then INT_MIN else r + 1

/-- The value `--_refs` leaves in a `std::atomic<int>`: one less, and INT_MAX after
INT_MIN, which is the decrement modulo 2^32 on the values an `int` holds. -/
def pre_decrement (r : Int) : Int := if r = INT_MIN then INT_MAX else r - 1

/-- Increment of the reference count of the chain at address `p`. -/
def inc_ref (s : State) (p : Nat) : Except Fault State :=
  match Map.find p s.heap with
  | none => .error .dangling
  | some c =>
    .ok { s with heap := Map.assign p { c with _refs := pre_increment c._refs } s.heap }

/-- Decrement of the reference count of the chain at address `p`; the chain is
deleted when the count reaches zero, and a negative count fails the assertion. -/
def dec_ref (s : State) (p : Nat) : Except Fault State :=
  match Map.find p s.heap with
  | none => .error .dangling
  | some c =>
    let count := pre_decrement c._refs
    if count < 0 then .error .assertion
    else if count = 0 then .ok { s with heap := Map.erase p s.heap }
    else .ok { s with heap := Map.assign p { c with _refs := count } s.heap }

end AsChain

/-! ## `AsChainTable` -/

namespace AsChainTable

/-- One iteration of the loop of `register_`: draw a token, append it to the
token vector and point it at step `i + 1` of the chain. -/
def register_step (create_random_token : Nat → Nat → String) (as_chain : Nat)
    (acc : List String × List (String × AsChainLink)) (i : Nat) :
    List String × List (String × AsChainLink) :=
  let token := create_random_token TOKEN_LENGTH i
  (acc.1 ++ [token],
   Map.assign token { _as_chain := some as_chain, _index := i + 1, _default_handling := none }
     acc.2)

/-- Create the tokens for the given AsChain, and register them to point at the
next step in each case.  `create_random_token len i` is the token the `i`-th call
of the random generator made here returns; `tokens` is the vector passed by
reference, returned as the first component. -/
def register_ (create_random_token : Nat → Nat → String) (s : State) (as_chain : Nat)
    (tokens : List String) : Except Fault (List String × State) :=
  match Map.find as_chain s.heap with
  | none => .error .dangling
  | some c =>
    let len := c.size
    let r := (List.range len).foldl (register_step create_random_token as_chain)
      (tokens, s._t2c_map)
    .ok (r.1, { s with _t2c_map := r.2 })

/-- Erase every token of the vector from the map. -/
def unregister (s : State) (tokens : List String) : State :=
  { s with _t2c_map := tokens.foldl (fun m tok => Map.erase tok m) s._t2c_map }

/-- Retrieve an existing AsChainLink based on ODI token. -/
def lookup (s : State) (token : String) : Except Fault (AsChainLink × State) :=
  match Map.find token s._t2c_map with
  | none => .ok ({ _as_chain := none, _index := 0, _default_handling := none }, s)
  | some link =>
    match link._as_chain with
    | none => .error .null_deref
    | some p =>
      match AsChain.inc_ref s p with
      | .error f => .error f
      | .ok s' => .ok (link, s')

end AsChainTable

namespace AsChain

/-- Constructor of `AsChain`, for the object that `new` places at address `addr`:
two references, no tokens, then registration in the table. -/
def ctor (create_random_token : Nat → Nat → String) (s : State) (addr : Nat)
    (session_case : SessionCase) (served_user : String) (is_registered : Bool)
    (trail : Nat) (ifcs : List Ifc) : Except Fault State :=
  let c : AsChain :=
    { _refs := 2, _odi_tokens := [], _session_case := session_case,
      _served_user := served_user, _is_registered := is_registered,
      _trail := trail, _ifcs := ifcs }
  let s0 : State := { s with heap := Map.assign addr c s.heap }
  match AsChainTable.register_ create_random_token s0 addr c._odi_tokens with
  | .error f => .error f
  | .ok (tokens, s1) =>
    .ok { s1 with heap := Map.assign addr { c with _odi_tokens := tokens } s1.heap }

/-- Remove AsChain from the AsChainTable, as soon as practical. -/
def request_destroy (s : State) (p : Nat) : Except Fault State :=
  match Map.find p s.heap with
  | none => .error .dangling
  | some c => dec_ref (AsChainTable.unregister s c._odi_tokens) p

end AsChain

/-! ## `AsChainLink` -/

/-- What `on_initial_request` hands back when it returns: the disposition, the
target written through `pre_target` (`none` when the out parameter is not
written), the link itself, the message and the transaction as the call leaves
them, and the program state. -/
structure StepResult where
  disposition : Disposition
  pre_target : Option target
  link : AsChainLink
  msg : Msg
  uas_data : UASTransaction
  state : State

/-- Machine state at the point where `on_initial_request` goes wrong: the fault,
the link and the message as modified so far and the target under construction,
if one has been allocated. -/
structure Crash where
  fault : Fault
  link : AsChainLink
  msg : Msg
  as_target : Option target

namespace AsChainLink

/-- Default constructor `AsChainLink()`. -/
def empty : AsChainLink :=
  { _as_chain := none, _index := 0, _default_handling := none }

/-- Private constructor `AsChainLink(as_chain, index)`. -/
def mk2 (as_chain : Option Nat) (index : Nat) : AsChainLink :=
  { _as_chain := as_chain, _index := index, _default_handling := none }

/-- Whether the link refers to a chain: `_as_chain != NULL`. -/
def is_set (l : AsChainLink) : Bool := l._as_chain.isSome

/-- Whether no step is left:
`(_as_chain == NULL) || (_index == _as_chain->size())`. -/
def complete (s : State) (l : AsChainLink) : Except Fault Bool :=
  match l._as_chain with
  | none => .ok true
  | some p =>
    match Map.find p s.heap with
    | none => .error .dangling
    | some c => .ok (decide (l._index = c.size))

/-- Get the next link in the chain. -/
def next (s : State) (l : AsChainLink) : Except Fault AsChainLink :=
  match complete s l with
  | .error f => .error f
  | .ok true => .error .assertion
  | .ok false => .ok (mk2 l._as_chain (l._index + 1))

/-- Create a new reference to the underlying AsChain object. -/
def duplicate (s : State) (l : AsChainLink) : Except Fault (AsChainLink × State) :=
  match l._as_chain with
  | none => .ok (l, s)
  | some p =>
    match AsChain.inc_ref s p with
    | .error f => .error f
    | .ok s' => .ok (l, s')

/-- Caller has finished using this link. -/
def release (s : State) (l : AsChainLink) : Except Fault State :=
  match l._as_chain with
  | none => .ok s
  | some p => AsChain.dec_ref s p

/-- Returns default handling for this chain link; `none` when the member has
never been written. -/
def default_handling (l : AsChainLink) : Option Bool := l._default_handling

/-- Resets the default handling. -/
def reset_default_handling (l : AsChainLink) : AsChainLink :=
  { l with _default_handling := some false }

/-- Create a new AsChain and return a link pointing at the start of it. -/
def create_as_chain (create_random_token : Nat → Nat → String) (s : State) (addr : Nat)
    (session_case : SessionCase) (served_user : String) (is_registered : Bool)
    (trail : Nat) (ifcs : List Ifc) : Except Fault (AsChainLink × State) :=
  match AsChain.ctor create_random_token s addr session_case served_user is_registered
      trail ifcs with
  | .error f => .error f
  | .ok s' => .ok (mk2 (some addr) 0, s')

/-- The C string of a `std::string` as a callee that copies it reads it
(`pj_strdup3(pool, str.c_str())`): the characters before the first NUL. -/
def c_str (str : String) : String :=
  String.mk (str.data.takeWhile (fun ch => ch != Char.ofNat 0))

/-- The value of the P-Served-User header built by `on_initial_request`
(`psu_string`). -/
def psu_string (env : Env) (c : AsChain) : String :=
  let psu := "<" ++ c._served_user ++ ">;sescase=" ++ env.session_case_to_string c._session_case
  if c._session_case ≠ SessionCase.OriginatingCdiv then
    (psu ++ ";regstate=") ++ (if c._is_registered then "reg" else "unreg")
  else psu

/-- The `else` branch of `on_initial_request`: the request goes to the external
application server `application_server` with ODI value `odi_value`. -/
def invoke_external_as (env : Env) (s : State) (self : AsChainLink) (c : AsChain)
    (application_server : AsInvocation) (odi_value : String)
    (uas_data : UASTransaction) (tdata : Msg) : Except Crash StepResult :=
  let as_uri_str := application_server.server_name
  -- Store the default handling as we may need it later.
  let self1 := { self with _default_handling := some application_server.default_handling }
  let as_uri := env.uri_from_string as_uri_str
  -- Set P-Served-User, including session case and registration state.
  let psu_str := c_str (psu_string env c)
  let tdata1 : Msg :=
    { tdata with hdrs := env.set_generic_header tdata.hdrs env.STR_P_SERVED_USER psu_str }
  -- Start defining the new target.
  let as_target := target.default
  let as_target :=
    if application_server.default_handling then
      { as_target with liveness_timeout := AS_TIMEOUT_CONTINUE }
    else
      { as_target with liveness_timeout := AS_TIMEOUT_TERMINATE }
  -- Request-URI should remain unchanged
  let as_target := { as_target with uri := some tdata1.req_uri }
  -- Set the AS URI as the topmost route header.  Set loose-route.
  match as_uri with
  | none =>
    .error { fault := .null_deref, link := self1, msg := tdata1, as_target := some as_target }
  | some as_uri =>
    let as_uri := { as_uri with lr_param := 1 }
    let as_target := { as_target with paths := as_target.paths ++ [PjsipUri.sip as_uri] }
    -- Insert route header below it with an ODI in it.  The ODI value is the prefix
    -- constant followed by a generated token, text without a NUL, so its C string
    -- is the value itself.
    let self_uri : SipUri :=
      { secure := false, user := odi_value, host := env.local_host,
        port := env.trusted_port, transport_param := as_uri.transport_param, lr_param := 1 }
    let as_target := { as_target with paths := as_target.paths ++ [PjsipUri.sip self_uri] }
    -- Stop processing the chain and send the request out to the AS.
    .ok { disposition := .Skip, pre_target := some as_target, link := self1, msg := tdata1,
          uas_data := uas_data, state := s }

/-- Apply first AS (if any) to initial request.  `call_services` is `none` for a
null pointer. -/
def on_initial_request (env : Env) (s : State) (self : AsChainLink)
    (call_services : Option CallServices) (uas_data : UASTransaction) (tdata : Msg) :
    Except Crash StepResult :=
  let crash (f : Fault) : Except Crash StepResult :=
    .error { fault := f, link := self, msg := tdata, as_target := none }
  let done (d : Disposition) (tdata1 : Msg) (uas1 : UASTransaction) :
      Except Crash StepResult :=
    .ok { disposition := d, pre_target := none, link := self, msg := tdata1,
          uas_data := uas1, state := s }
  match self._as_chain with
  | none => done .Complete tdata uas_data
  | some p =>
    match Map.find p s.heap with
    | none => crash .dangling
    | some c =>
      if self._index = c.size then done .Complete tdata uas_data
      else
        match c._ifcs[self._index]? with
        | none => crash .out_of_bounds
        | some ifc =>
          if ! env.filter_matches ifc c._session_case c._is_registered tdata then
            done .Next tdata uas_data
          else
            let application_server := ifc.as_invocation
            match c._odi_tokens[self._index]? with
            | none => crash .out_of_bounds
            | some token =>
              let odi_value := env.STR_ODI_PREFIX ++ token
              match call_services.filter (fun cs => cs.is_mmtel application_server.server_name) with
              | some cs =>
                if env.is_originating c._session_case then
                  let r := cs.originating_on_initial_invite uas_data tdata c._served_user
                  done (if r.1 then .Next else .Stop) r.2.1 r.2.2
                else
                  let r := cs.terminating_on_initial_invite (env.register_proxy uas_data)
                    tdata c._served_user
                  done (if r.1 then .Next else .Stop) r.2.1 r.2.2
              | none =>
                invoke_external_as env s self c application_server odi_value uas_data tdata

end AsChainLink

/-! ## Registration of a chain and the operations that leave it alone -/

/-- The chain at address `addr` is live, holds the token list `tokens`, one per
step, and the token of every step `i` maps to the link at index `i + 1` of this
chain. -/
def Registered (addr : Nat) (tokens : List String) (s : State) : Prop :=
  (∃ c, Map.find addr s.heap = some c ∧ c._odi_tokens = tokens ∧ c.size = tokens.length) ∧
  ∀ i token, tokens[i]? = some token →
    Map.find token s._t2c_map = some (AsChainLink.mk2 (some addr) (i + 1))

/-- States reached from `s0` by operations that neither unregister nor free the
chain at `addr` and that do not touch its tokens: lookups, duplicates, releases
that leave the chain at `addr` with a positive count, creation of other chains
whose tokens differ from `tokens`, and `request_destroy` of other chains whose
tokens differ from `tokens`. -/
inductive Undisturbed (addr : Nat) (tokens : List String) (s0 : State) : State → Prop where
  | start : Undisturbed addr tokens s0 s0
  | lookup {s s' : State} {token : String} {l : AsChainLink} :
      Undisturbed addr tokens s0 s → AsChainTable.lookup s token = .ok (l, s') →
      Undisturbed addr tokens s0 s'
  | duplicate {s s' : State} {l l' : AsChainLink} :
      Undisturbed addr tokens s0 s → AsChainLink.duplicate s l = .ok (l', s') →
      Undisturbed addr tokens s0 s'
  | release {s s' : State} {l : AsChainLink} :
      Undisturbed addr tokens s0 s →
      (∀ c, l._as_chain = some addr → Map.find addr s.heap = some c → 1 < c._refs) →
      AsChainLink.release s l = .ok s' →
      Undisturbed addr tokens s0 s'
  | create {s s' : State} {crt : Nat → Nat → String} {addr' : Nat} {sc : SessionCase}
      {su : String} {reg : Bool} {trail : Nat} {ifcs : List Ifc} {l : AsChainLink} :
      Undisturbed addr tokens s0 s → addr' ≠ addr →
      (∀ i, i < ifcs.length → crt TOKEN_LENGTH i ∉ tokens) →
      AsChainLink.create_as_chain crt s addr' sc su reg trail ifcs = .ok (l, s') →
      Undisturbed addr tokens s0 s'
  | request_destroy {s s' : State} {p : Nat} {c : AsChain} :
      Undisturbed addr tokens s0 s → p ≠ addr → Map.find p s.heap = some c →
      (∀ t, t ∈ c._odi_tokens → t ∉ tokens) →
      AsChain.request_destroy s p = .ok s' →
      Undisturbed addr tokens s0 s'

/-- States the program can reach from the empty heap and table: chains are created
at addresses that are not live, and links are looked up, duplicated and released
and chains destroyed whenever the operation returns. -/
inductive Reachable : State → Prop where
  | init : Reachable { heap := [], _t2c_map := [] }
  | create {s s' : State} {crt : Nat → Nat → String} {addr : Nat} {sc : SessionCase}
      {su : String} {reg : Bool} {trail : Nat} {ifcs : List Ifc} {l : AsChainLink} :
      Reachable s → Map.find addr s.heap = none →
      AsChainLink.create_as_chain crt s addr sc su reg trail ifcs = .ok (l, s') →
      Reachable s'
  | lookup {s s' : State} {token : String} {l : AsChainLink} :
      Reachable s → AsChainTable.lookup s token = .ok (l, s') → Reachable s'
  | duplicate {s s' : State} {l l' : AsChainLink} :
      Reachable s → AsChainLink.duplicate s l = .ok (l', s') → Reachable s'
  | release {s s' : State} {l : AsChainLink} :
      Reachable s → AsChainLink.release s l = .ok s' → Reachable s'
  | request_destroy {s s' : State} {p : Nat} :
      Reachable s → AsChain.request_destroy s p = .ok s' → Reachable s'

/-! ## Sequences of operations on one chain -/

/-- The operations a client performs on a chain through its links: duplicate or
release a link it holds, look a token up in the table, or ask for the
destruction of the chain. -/
inductive ChainOp where
  | duplicate (l : AsChainLink)
  | lookup (token : String)
  | release (l : AsChainLink)
  | request_destroy
  deriving DecidableEq, Repr

/-- Bookkeeping of the ownership rules for one chain: the number of owned links
that are outstanding (handed out by creation, duplication or a successful lookup
and not yet released), whether `request_destroy` has been called, and how many
operations so far have freed the chain. -/
structure Ownership where
  owned : Nat
  destroy_requested : Bool
  frees : Nat
  deriving DecidableEq, Repr

/-- The number of references the rules account for: the outstanding owned links,
plus one for the table until `request_destroy` is called. -/
def Ownership.count (o : Ownership) : Int :=
  (o.owned : Int) + (if o.destroy_requested then 0 else 1)

/-- The ownership rules for the chain at `addr` with token list `tokens`: a link
that is duplicated or released is a link to this chain and stands for an
outstanding owned link, a token that is looked up is one of the chain's tokens,
and `request_destroy` is called at most once. -/
def Ownership.allows (addr : Nat) (tokens : List String) (o : Ownership) : ChainOp → Bool
  | .duplicate l => decide (l._as_chain = some addr) && decide (0 < o.owned)
  | .lookup token => decide (token ∈ tokens)
  | .release l => decide (l._as_chain = some addr) && decide (0 < o.owned)
  | .request_destroy => ! o.destroy_requested

/-- Whether the step from `s` to `s'` freed the chain at `addr`: 1 when it was live
before and is not after, 0 otherwise. -/
def freed_by (addr : Nat) (s s' : State) : Nat :=
  if (Map.find addr s.heap).isSome && (Map.find addr s'.heap).isNone then 1 else 0

/-- One operation on the chain at `addr`: the code runs on the state, and the
bookkeeping records the link handed out or given back and a freeing of the
chain. -/
def step (addr : Nat) (o : Ownership) (s : State) : ChainOp → Except Fault (Ownership × State)
  | .duplicate l =>
    match AsChainLink.duplicate s l with
    | .error f => .error f
    | .ok (_, s') =>
      .ok ({ o with owned := o.owned + 1, frees := o.frees + freed_by addr s s' }, s')
  | .lookup token =>
    match AsChainTable.lookup s token with
    | .error f => .error f
    | .ok (l, s') =>
      .ok ({ o with owned := if l.is_set then o.owned + 1 else o.owned,
                    frees := o.frees + freed_by addr s s' }, s')
  | .release l =>
    match AsChainLink.release s l with
    | .error f => .error f
    | .ok s' =>
      .ok ({ o with owned := o.owned - 1, frees := o.frees + freed_by addr s s' }, s')
  | .request_destroy =>
    match AsChain.request_destroy s addr with
    | .error f => .error f
    | .ok s' =>
      .ok ({ o with destroy_requested := true, frees := o.frees + freed_by addr s s' }, s')

/-- A sequence of operations on the chain at `addr`, run from left to right. -/
def run (addr : Nat) : Ownership → State → List ChainOp → Except Fault (Ownership × State)
  | o, s, [] => .ok (o, s)
  | o, s, op :: ops =>
    match step addr o s op with
    | .error f => .error f
    | .ok (o', s') => run addr o' s' ops

/-- Whether the sequence follows the ownership rules: every operation is allowed by
the bookkeeping at the point where it is run.  Nothing is asked of operations
after one that does not return. -/
def follows (addr : Nat) (tokens : List String) : Ownership → State → List ChainOp → Bool
  | _, _, [] => true
  | o, s, op :: ops =>
    o.allows addr tokens op &&
    match step addr o s op with
    | .error _ => true
    | .ok (o', s') => follows addr tokens o' s' ops

/-- Whether the number of references the rules account for fits an `int` before
every operation of the sequence and after the last one. -/
def within_int (addr : Nat) : Ownership → State → List ChainOp → Bool
  | o, _, [] => decide (o.count ≤ AsChain.INT_MAX)
  | o, s, op :: ops =>
    decide (o.count ≤ AsChain.INT_MAX) &&
    match step addr o s op with
    | .error _ => true
    | .ok (o', s') => within_int addr o' s' ops

/-- The state agrees with the bookkeeping: the chain at `addr` is freed when the
rules account for no reference and is live with exactly that many references
otherwise, each of its tokens maps to a link over it until `request_destroy` is
called and is absent afterwards, and it has been freed once if it is freed and
never if it is live. -/
def Accounted (addr : Nat) (tokens : List String) (o : Ownership) (s : State) : Prop :=
  (o.count = 0 → Map.find addr s.heap = none) ∧
  (o.count ≠ 0 →
    ∃ c, Map.find addr s.heap = some c ∧ c._refs = o.count ∧ c._odi_tokens = tokens) ∧
  (o.destroy_requested = false →
    ∀ token, token ∈ tokens →
      ∃ l, Map.find token s._t2c_map = some l ∧ l._as_chain = some addr) ∧
  (o.destroy_requested = true →
    ∀ token, token ∈ tokens → Map.find token s._t2c_map = none) ∧
  o.frees = (if o.count = 0 then 1 else 0)

/-! ## Links derived from the link of the creator -/

/-- The links a client can hold on the chain at `addr` that was created in state
`s1` with token list `tokens`: the link `create_as_chain` returned, and every link
that `next`, `duplicate` or a `lookup` of one of the chain's tokens returns, in a
state in which the chain is still registered. -/
inductive Derived (addr : Nat) (tokens : List String) (s1 : State) : AsChainLink → Prop where
  | created : Derived addr tokens s1 (AsChainLink.mk2 (some addr) 0)
  | next {s : State} {l l' : AsChainLink} :
      Undisturbed addr tokens s1 s → Derived addr tokens s1 l →
      AsChainLink.next s l = .ok l' → Derived addr tokens s1 l'
  | duplicate {s s' : State} {l l' : AsChainLink} :
      Undisturbed addr tokens s1 s → Derived addr tokens s1 l →
      AsChainLink.duplicate s l = .ok (l', s') → Derived addr tokens s1 l'
  | lookup {s s' : State} {token : String} {l : AsChainLink} :
      Undisturbed addr tokens s1 s → token ∈ tokens →
      AsChainTable.lookup s token = .ok (l, s') → Derived addr tokens s1 l

/-! ## Interleaving of `lookup` with `request_destroy`

The two functions once more, statement by statement, for two threads that share
the state and the lock of the table.  A thread that waits for the lock does not
move.  The iterator of `lookup` stands for the map node of its token: reading
through it when the node has been erased is a fault. -/

/-- The shared state of the threads: the program state and whether the lock of
the table is held. -/
structure Shared where
  state : State
  locked : Bool
  deriving DecidableEq, Repr

/-- Where a thread is in `AsChainTable::lookup`: before `pthread_mutex_lock`,
before `find`, before the `inc_ref` through the iterator, before the unlock of
the branch that found the token, before `return it->second`, before the unlock
of the branch that did not find it, or returned. -/
inductive LookupPc where
  | lock
  | find
  | inc_ref
  | unlock_hit
  | return_second
  | unlock_miss
  | done (result : AsChainLink)
  deriving DecidableEq, Repr

/-- Where a thread is in `AsChain::request_destroy`: before the lock, the erase
loop and the unlock of `unregister`, before `dec_ref`, or returned. -/
inductive DestroyPc where
  | lock
  | erase
  | unlock
  | dec_ref
  | done
  deriving DecidableEq, Repr

/-- One statement of `lookup(token)`. -/
def lookup_stmt (token : String) (sh : Shared) : LookupPc → Except Fault (Shared × LookupPc)
  | .lock => if sh.locked then .ok (sh, .lock) else .ok ({ sh with locked := true }, .find)
  | .find =>
    match Map.find token sh.state._t2c_map with
    | none => .ok (sh, .unlock_miss)
    | some _ => .ok (sh, .inc_ref)
  | .inc_ref =>
    match Map.find token sh.state._t2c_map with
    | none => .error .dangling
    | some link =>
      match link._as_chain with
      | none => .error .null_deref
      | some p =>
        match AsChain.inc_ref sh.state p with
        | .error f => .error f
        | .ok s' => .ok ({ sh with state := s' }, .unlock_hit)
  | .unlock_hit => .ok ({ sh with locked := false }, .return_second)
  | .return_second =>
    match Map.find token sh.state._t2c_map with
    | none => .error .dangling
    | some link => .ok (sh, .done link)
  | .unlock_miss => .ok ({ sh with locked := false }, .done (AsChainLink.mk2 none 0))
  | .done r => .ok (sh, .done r)

/-- One statement of `request_destroy()` on the chain at `p`. -/
def destroy_stmt (p : Nat) (sh : Shared) : DestroyPc → Except Fault (Shared × DestroyPc)
  | .lock => if sh.locked then .ok (sh, .lock) else .ok ({ sh with locked := true }, .erase)
  | .erase =>
    match Map.find p sh.state.heap with
    | none => .error .dangling
    | some c => .ok ({ sh with state := AsChainTable.unregister sh.state c._odi_tokens }, .unlock)
  | .unlock => .ok ({ sh with locked := false }, .dec_ref)
  | .dec_ref =>
    match AsChain.dec_ref sh.state p with
    | .error f => .error f
    | .ok s' => .ok ({ sh with state := s' }, .done)
  | .done => .ok (sh, .done)

/-- The two threads. -/
inductive Thread where
  | looker
  | destroyer
  deriving DecidableEq, Repr

/-- The threads and what they share. -/
structure Config where
  shared : Shared
  lpc : LookupPc
  dpc : DestroyPc
  deriving DecidableEq, Repr

/-- The scheduled thread executes its next statement. -/
def sched_step (token : String) (p : Nat) (cfg : Config) : Thread → Except Fault Config
  | .looker =>
    match lookup_stmt token cfg.shared cfg.lpc with
    | .error f => .error f
    | .ok (sh, pc) => .ok { cfg with shared := sh, lpc := pc }
  | .destroyer =>
    match destroy_stmt p cfg.shared cfg.dpc with
    | .error f => .error f
    | .ok (sh, pc) => .ok { cfg with shared := sh, dpc := pc }

/-- A schedule, run from left to right. -/
def run_schedule (token : String) (p : Nat) : Config → List Thread → Except Fault Config
  | cfg, [] => .ok cfg
  | cfg, t :: ts =>
    match sched_step token p cfg t with
    | .error f => .error f
    | .ok cfg' => run_schedule token p cfg' ts

/-! ## Target matching: `AsChain::matches_target` -/

/-- Whether the given message has the same target as the chain.  Only valid for
terminating chains: the assertion fails on any other.  `served_user_from_msg` is
`IfcHandler::served_user_from_msg`, which extracts and canonicalises the served
user of the message for a session case. -/
def AsChain.matches_target (served_user_from_msg : SessionCase → Msg → String)
    (c : AsChain) (tdata : Msg) : Except Fault Bool :=
  if c._session_case = SessionCase.Terminating then
    let orig_uri := c._served_user
    let msg_uri := served_user_from_msg SessionCase.Terminating tdata
    .ok (decide (orig_uri = msg_uri))
  else .error .assertion

/-- The link forwards `matches_target` to its chain. -/
def AsChainLink.matches_target (served_user_from_msg : SessionCase → Msg → String)
    (s : State) (l : AsChainLink) (tdata : Msg) : Except Fault Bool :=
  match l._as_chain with
  | none => .error .null_deref
  | some p =>
    match Map.find p s.heap with
    | none => .error .dangling
    | some c => c.matches_target served_user_from_msg tdata

/-! ## Trust boundaries: `trustboundary.cpp` -/

/-- What `trustboundary.cpp` takes from `pjutils.h` and `constants.h`: the removal
of a header by name and the names of the two trusted headers. -/
structure StripEnv where
  delete_header : Msg → String → Msg
  STR_P_A_N_I : String
  STR_P_SERVED_USER : String

/-- Modelled from the spec: `PJUtils::delete_header`, which is not among the
sources.  The trust boundary "removes a fixed, named set of trust-sensitive
headers from a message": deleting a header by name removes the headers of the
message that carry this name and leaves the rest of the message as it is. -/
def delete_header (msg : Msg) (name : String) : Msg :=
  { msg with hdrs := msg.hdrs.filter (fun h => h.1 ≠ name) }

/-- Strip headers as appropriate when crossing a trust boundary. -/
def proxy_strip_trusted (env : StripEnv) (tdata : Msg) : Msg :=
  env.delete_header (env.delete_header tdata env.STR_P_A_N_I) env.STR_P_SERVED_USER

/-- A trust boundary: what to strip from requests and from responses, and a
description. -/
structure TrustBoundary where
  _strip_request : Bool
  _strip_response : Bool
  _description : String
  deriving DecidableEq, Repr

namespace TrustBoundary

/-- Constructor `TrustBoundary(description, strip_request, strip_response)`. -/
def ctor (description : String) (strip_request strip_response : Bool) : TrustBoundary :=
  { _strip_request := strip_request, _strip_response := strip_response,
    _description := description }

/-- Process a request crossing the boundary. -/
def process_request (tb : TrustBoundary) (env : StripEnv) (tdata : Msg) : Msg :=
  if tb._strip_request then proxy_strip_trusted env tdata else tdata

/-- Process a response crossing the boundary. -/
def process_response (tb : TrustBoundary) (env : StripEnv) (tdata : Msg) : Msg :=
  if tb._strip_response then proxy_strip_trusted env tdata else tdata

/-- Process a message that is handled statelessly: always stripped. -/
def process_stateless_message (_tb : TrustBoundary) (env : StripEnv) (tdata : Msg) : Msg :=
  proxy_strip_trusted env tdata

/-- Description followed by the directions that are stripped. -/
def to_string (tb : TrustBoundary) : String :=
  tb._description ++ "(" ++ (if tb._strip_request then "-req" else "") ++
    "," ++ (if tb._strip_response then "-rsp" else "") ++ ")"

/-- Trust boundary instance: no boundary. -/
def TRUSTED : TrustBoundary := ctor "TRUSTED" false false

/-- Trust boundary instance: from client to core; strip from responses. -/
def INBOUND_EDGE_CLIENT : TrustBoundary := ctor "INBOUND_EDGE_CLIENT" false true

/-- Trust boundary instance: from core to client; strip from requests. -/
def OUTBOUND_EDGE_CLIENT : TrustBoundary := ctor "OUTBOUND_EDGE_CLIENT" true false

/-- Trust boundary instance: edge processing, direction unknown; strip both ways. -/
def UNKNOWN_EDGE_CLIENT : TrustBoundary := ctor "UNKNOWN_EDGE_CLIENT" true true

/-- Trust boundary instance: from trunk to core; strip both ways. -/
def INBOUND_TRUNK : TrustBoundary := ctor "INBOUND_TRUNK" true true

/-- Trust boundary instance: from core to trunk; strip both ways. -/
def OUTBOUND_TRUNK : TrustBoundary := ctor "OUTBOUND_TRUNK" true true

end TrustBoundary

/-! ## Formats stated by the interface description -/

/-- Value of the served-user header as the interface description spells it:
`<served-user>;sescase=<label>` followed by `;regstate=reg` or `;regstate=unreg`,
the `regstate` component being left out for the session case OriginatingCdiv. -/
def served_user_header_format (served_user label : String) (session_case : SessionCase)
    (is_registered : Bool) : String :=
  "<" ++ served_user ++ ">;sescase=" ++ label ++
    (match session_case with
     | .OriginatingCdiv => ""
     | _ => if is_registered then ";regstate=reg" else ";regstate=unreg")

/-! ## Concrete inputs

A small environment, chain and state on which the theorems below are exercised. -/

namespace Demo

/-- Call services that treat exactly the server name `mmtel` as internal; the
originating flavour proceeds, the terminating flavour does not. -/
def cs : CallServices :=
  { is_mmtel := fun name => name == "mmtel",
    originating_on_initial_invite := fun u m _ => (true, m, u),
    terminating_on_initial_invite := fun u m _ => (false, m, u) }

/-- Environment: a criterion matches when its trigger is `1`, only the name
`sip:as1.example.com` parses, and setting a header appends it. -/
def env : Env :=
  { filter_matches := fun ifc _ _ _ => ifc.trigger == 1,
    session_case_to_string := fun sc =>
      match sc with
      | .Originating => "orig"
      | .Terminating => "term"
      | .OriginatingCdiv => "orig-cdiv",
    is_originating := fun sc => sc != .Terminating,
    uri_from_string := fun str =>
      if str == "sip:as1.example.com" then
        some { secure := false, user := "", host := "as1.example.com", port := 0,
               transport_param := "TCP", lr_param := 0 }
      else none,
    set_generic_header := fun hdrs name value => hdrs ++ [(name, value)],
    register_proxy := fun u => { state := u.state + 1 },
    STR_ODI_PREFIX := "odi_",
    STR_P_SERVED_USER := "P-Served-User",
    local_host := "sprout.example.com",
    trusted_port := 5058 }

/-- Criterion that matches and names the external AS. -/
def ifc_ext : Ifc :=
  { trigger := 1, as_invocation := { server_name := "sip:as1.example.com", default_handling := true } }

/-- Criterion that does not match. -/
def ifc_skip : Ifc :=
  { trigger := 0, as_invocation := { server_name := "sip:as1.example.com", default_handling := false } }

/-- Criterion that matches and names the internal MMTEL service. -/
def ifc_mmtel : Ifc :=
  { trigger := 1, as_invocation := { server_name := "mmtel", default_handling := false } }

/-- Criterion that matches and names an AS whose address does not parse. -/
def ifc_bad : Ifc :=
  { trigger := 1, as_invocation := { server_name := "<bad>", default_handling := false } }

/-- An originating chain of four steps for an unregistered user. -/
def chain : AsChain :=
  { _refs := 2, _odi_tokens := ["AAAAAAAAAA", "BBBBBBBBBB", "CCCCCCCCCC", "DDDDDDDDDD"],
    _session_case := .Originating, _served_user := "sip:alice@example.com",
    _is_registered := false, _trail := 7,
    _ifcs := [ifc_ext, ifc_skip, ifc_mmtel, ifc_bad] }

/-- State with `chain` at address `1`, its four tokens registered. -/
def state : State :=
  { heap := [(1, chain)],
    _t2c_map := [("AAAAAAAAAA", AsChainLink.mk2 (some 1) 1), ("BBBBBBBBBB", AsChainLink.mk2 (some 1) 2),
                 ("CCCCCCCCCC", AsChainLink.mk2 (some 1) 3), ("DDDDDDDDDD", AsChainLink.mk2 (some 1) 4)] }

/-- The chain of alice with a NUL inside the served user. -/
def chain_nul : AsChain := { chain with _served_user := "sip:al\x00ice@example.com" }

/-- State with `chain_nul` at address `1`, its four tokens registered. -/
def state_nul : State := { state with heap := [(1, chain_nul)] }

/-- The chain of alice with the largest reference count an `int` holds. -/
def chain_max : AsChain := { chain with _refs := 2147483647 }

/-- State with `chain_max` at address `1`, its four tokens registered. -/
def state_max : State := { state with heap := [(1, chain_max)] }

/-- The chain of alice with the smallest reference count an `int` holds. -/
def chain_min : AsChain := { chain with _refs := -2147483648 }

/-- State with `chain_min` at address `1`, its four tokens registered. -/
def state_min : State := { state with heap := [(1, chain_min)] }

/-- An INVITE to bob carrying one header. -/
def msg : Msg :=
  { req_uri := .other "tel:+15551234", hdrs := [("Via", "SIP/2.0/TCP client.example.com")] }

/-- Some transaction. -/
def uas : UASTransaction := { state := 0 }

/-- A second chain of two steps, as its constructor has it before registration:
two references and no tokens yet. -/
def chain2 : AsChain :=
  { _refs := 2, _odi_tokens := [], _session_case := .Terminating,
    _served_user := "sip:bob@example.com", _is_registered := true, _trail := 8,
    _ifcs := [ifc_ext, ifc_skip] }

/-- The demo state with `chain2` allocated at address `2`, about to be registered. -/
def state2 : State :=
  { heap := [(1, chain), (2, chain2)], _t2c_map := state._t2c_map }

/-- The generator whose first four outputs are the tokens of `chain`. -/
def generator : Nat → Nat → String := fun _ i =>
  if i = 0 then "AAAAAAAAAA" else if i = 1 then "BBBBBBBBBB"
  else if i = 2 then "CCCCCCCCCC" else "DDDDDDDDDD"

/-- A generator that returns the same token on every call. -/
def stuck_generator : Nat → Nat → String := fun _ _ => "AAAAAAAAAA"

/-- A generator whose first two outputs are new and different. -/
def fair_generator : Nat → Nat → String := fun _ i => if i = 0 then "EEEEEEEEEE" else "FFFFFFFFFF"

/-- The link at the first step of `chain` after it has evaluated that step: the
default handling of the external AS, continue, is stored on it. -/
def link_continue : AsChainLink :=
  { _as_chain := some 1, _index := 0, _default_handling := some true }

/-- The same link after `reset_default_handling`. -/
def link_reset : AsChainLink :=
  { _as_chain := some 1, _index := 0, _default_handling := some false }

/-- The demo state after a two-step chain for bob has been created at address `2`
with the tokens of `fair_generator`. -/
def state3 : State :=
  { heap := [(1, chain),
             (2, { chain2 with _odi_tokens := ["EEEEEEEEEE", "FFFFFFFFFF"] })],
    _t2c_map := state._t2c_map ++
      [("EEEEEEEEEE", AsChainLink.mk2 (some 2) 1), ("FFFFFFFFFF", AsChainLink.mk2 (some 2) 2)] }

/-- The strip environment with the header names of the trust boundary and the
modelled `delete_header`. -/
def strip_env : StripEnv :=
  { delete_header := delete_header,
    STR_P_A_N_I := "P-Access-Network-Info",
    STR_P_SERVED_USER := "P-Served-User" }

/-- A message that carries both trusted headers among others. -/
def msg_trusted : Msg :=
  { req_uri := .other "tel:+15551234",
    hdrs := [("Via", "SIP/2.0/TCP client.example.com"),
             ("P-Access-Network-Info", "3GPP-UTRAN-TDD"),
             ("P-Served-User", "<sip:alice@example.com>;sescase=orig;regstate=unreg"),
             ("Contact", "<sip:alice@client.example.com>")] }

/-- A terminating chain for alice. -/
def chain_term : AsChain :=
  { _refs := 2, _odi_tokens := [], _session_case := .Terminating,
    _served_user := "sip:alice@example.com", _is_registered := true, _trail := 9, _ifcs := [] }

/-- A served-user extraction that canonicalises a SIP request URI by dropping its
parameters and keeps any other URI as it is written. -/
def served_user_from_msg : SessionCase → Msg → String := fun _ m =>
  match m.req_uri with
  | .sip u => "sip:" ++ u.user ++ "@" ++ u.host
  | .other text => text

/-- A request to `sip:alice@example.com;transport=TCP`. -/
def msg_alice : Msg :=
  { req_uri := .sip { secure := false, user := "alice", host := "example.com", port := 0,
                      transport_param := "TCP", lr_param := 0 },
    hdrs := [] }

/-- A request to `sip:bob@example.com`. -/
def msg_bob : Msg :=
  { req_uri := .sip { secure := false, user := "bob", host := "example.com", port := 0,
                      transport_param := "", lr_param := 0 },
    hdrs := [] }

/-- Both threads at the start of their functions, the lock free, in the demo state. -/
def config : Config :=
  { shared := { state := state, locked := false }, lpc := .lock, dpc := .lock }

/-- The lookup runs up to and including its unlock, then `request_destroy` runs
from start to end, then the lookup executes its return statement. -/
def racing_schedule : List Thread :=
  [.looker, .looker, .looker, .looker,
   .destroyer, .destroyer, .destroyer, .destroyer,
   .looker]

/-- A client session on a chain at address `2`: the creator duplicates its link,
a token is looked up, the three links are released with `request_destroy` called
before the last release, and the token is looked up once more. -/
def session : List ChainOp :=
  [.duplicate (AsChainLink.mk2 (some 2) 0), .lookup "EEEEEEEEEE",
   .release (AsChainLink.mk2 (some 2) 0), .release (AsChainLink.mk2 (some 2) 1),
   .request_destroy, .release (AsChainLink.mk2 (some 2) 0), .lookup "EEEEEEEEEE"]

end Demo

/-! ## Lemmas on association lists -/

namespace Map

variable {κ α : Type} [DecidableEq κ]

theorem find_assign_self (k : κ) (v : α) (m : List (κ × α)) :
    find k (assign k v m) = some v := by
  induction m with
  | nil => simp [assign, find]
  | cons kv m ih =>
    obtain ⟨k', v'⟩ := kv
    by_cases h : k' = k
    · simp [assign, find, h]
    · simp [assign, find, h, ih]

theorem find_assign_ne {k k' : κ} (v : α) (m : List (κ × α)) (h : k ≠ k') :
    find k' (assign k v m) = find k' m := by
  induction m with
  | nil => simp [assign, find, h]
  | cons kv m ih =>
    obtain ⟨k₁, v₁⟩ := kv
    by_cases h1 : k₁ = k
    · subst h1
      simp [assign, find, h]
    · by_cases h2 : k₁ = k'
      · subst h2
        simp [assign, find, h1]
      · simp [assign, find, h1, h2, ih]

theorem find_assign (k k' : κ) (v : α) (m : List (κ × α)) :
    find k' (assign k v m) = if k = k' then some v else find k' m := by
  by_cases h : k = k'
  · subst h
    simp [find_assign_self]
  · simp [h, find_assign_ne v m h]

theorem find_erase_self (k : κ) (m : List (κ × α)) : find k (erase k m) = none := by
  induction m with
  | nil => simp [erase, find]
  | cons kv m ih =>
    obtain ⟨k', v'⟩ := kv
    by_cases h : k' = k
    · simp [erase, h, ih]
    · simp [erase, find, h, ih]

theorem find_erase_ne {k k' : κ} (m : List (κ × α)) (h : k ≠ k') :
    find k' (erase k m) = find k' m := by
  induction m with
  | nil => simp [erase, find]
  | cons kv m ih =>
    obtain ⟨k₁, v₁⟩ := kv
    by_cases h1 : k₁ = k
    · subst h1
      simp [erase, find, h, ih]
    · by_cases h2 : k₁ = k'
      · subst h2
        simp [erase, find, h1]
      · simp [erase, find, h1, h2, ih]

theorem find_erase (k k' : κ) (m : List (κ × α)) :
    find k' (erase k m) = if k = k' then none else find k' m := by
  by_cases h : k = k'
  · subst h
    simp [find_erase_self]
  · simp [h, find_erase_ne m h]

/-- Erasing a list of keys one after the other: a listed key is absent afterwards,
any other key keeps its value. -/
theorem find_foldl_erase (ks : List κ) (k' : κ) (m : List (κ × α)) :
    find k' (ks.foldl (fun m k => erase k m) m) = if k' ∈ ks then none else find k' m := by
  induction ks generalizing m with
  | nil => simp
  | cons k ks ih =>
    simp only [List.foldl_cons, ih, find_erase, List.mem_cons]
    by_cases h1 : k' ∈ ks
    · simp [h1]
    · by_cases h2 : k = k'
      · simp [h2]
      · have h3 : ¬ k' = k := fun h => h2 h.symm
        simp [h1, h2, h3]

end Map

/-! ## Arithmetic of the reference count -/

namespace AsChain

/-- On a positive count `--_refs` does not wrap. -/
theorem pre_decrement_of_pos {r : Int} (h : 1 ≤ r) : pre_decrement r = r - 1 := by
  have hne : r ≠ INT_MIN := by unfold INT_MIN; omega
  simp [pre_decrement, hne]

/-- Below INT_MAX `++_refs` does not wrap. -/
theorem pre_increment_of_ne {r : Int} (h : r ≠ INT_MAX) : pre_increment r = r + 1 := by
  simp [pre_increment, h]

/-- At INT_MAX `++_refs` wraps to INT_MIN. -/
theorem pre_increment_max : pre_increment INT_MAX = INT_MIN := by
  simp [pre_increment]

/-- On the values of an `int`, `pre_increment` is the increment modulo 2^32. -/
theorem pre_increment_eq_mod {r : Int} (h1 : INT_MIN ≤ r) (h2 : r ≤ INT_MAX) :
    pre_increment r = (r + 1 + 2 ^ 31) % 2 ^ 32 - 2 ^ 31 := by
  unfold INT_MIN at h1
  unfold INT_MAX at h2
  unfold pre_increment INT_MAX INT_MIN
  split <;> omega

/-- On the values of an `int`, `pre_decrement` is the decrement modulo 2^32. -/
theorem pre_decrement_eq_mod {r : Int} (h1 : INT_MIN ≤ r) (h2 : r ≤ INT_MAX) :
    pre_decrement r = (r - 1 + 2 ^ 31) % 2 ^ 32 - 2 ^ 31 := by
  unfold INT_MIN at h1
  unfold INT_MAX at h2
  unfold pre_decrement INT_MAX INT_MIN
  split <;> omega

/-- A decrement undoes an increment of a positive count, also across the wrap. -/
theorem pre_decrement_pre_increment {r : Int} (h : 1 ≤ r) :
    pre_decrement (pre_increment r) = r := by
  unfold pre_decrement pre_increment INT_MAX INT_MIN
  split <;> split <;> omega

end AsChain

/-! ## Step evaluation: `on_initial_request` -/

namespace AsChainLink

/-- A bound link whose criterion exists is not complete. -/
theorem complete_false_of_ifc {s : State} {self : AsChainLink} {p : Nat} {c : AsChain}
    {ifc : Ifc} (h_chain : self._as_chain = some p) (h_live : Map.find p s.heap = some c)
    (h_ifc : c._ifcs[self._index]? = some ifc) : complete s self = .ok false := by
  have hlt : self._index < c._ifcs.length := (List.getElem?_eq_some_iff.mp h_ifc).1
  have hne : self._index ≠ c.size := by
    unfold AsChain.size; omega
  simp [complete, h_chain, h_live, hne]

/-- C1: a complete link (unbound, or bound with index equal to the size of its
chain) makes `on_initial_request` return `Complete` without writing a target, and
the link, the message, the transaction and the program state (heap with every
reference count, token map) come back as they went in, whatever the message,
the call services and the transaction are. -/
theorem on_initial_request_complete (env : Env) (s : State) (self : AsChainLink)
    (call_services : Option CallServices) (uas_data : UASTransaction) (tdata : Msg)
    (h : complete s self = .ok true) :
    on_initial_request env s self call_services uas_data tdata =
      .ok { disposition := .Complete, pre_target := none, link := self, msg := tdata,
            uas_data := uas_data, state := s } := by
  unfold complete at h
  unfold on_initial_request
  cases hc : self._as_chain with
  | none => simp
  | some p =>
    cases hl : Map.find p s.heap with
    | none => simp [hc, hl] at h
    | some c =>
      have hidx : self._index = c.size := by simpa [hc, hl] using h
      simp [hl, hidx]

/-- C1 exercised on an unbound link and on a link at the end of its chain. -/
theorem on_initial_request_complete_witness :
    (complete Demo.state AsChainLink.empty = .ok true ∧
      on_initial_request Demo.env Demo.state AsChainLink.empty (some Demo.cs) Demo.uas Demo.msg =
        .ok { disposition := .Complete, pre_target := none, link := AsChainLink.empty,
              msg := Demo.msg, uas_data := Demo.uas, state := Demo.state }) ∧
    (complete Demo.state (mk2 (some 1) 4) = .ok true ∧
      on_initial_request Demo.env Demo.state (mk2 (some 1) 4) none Demo.uas Demo.msg =
        .ok { disposition := .Complete, pre_target := none, link := mk2 (some 1) 4,
              msg := Demo.msg, uas_data := Demo.uas, state := Demo.state }) :=
  ⟨⟨rfl, on_initial_request_complete _ _ _ _ _ _ rfl⟩,
   ⟨rfl, on_initial_request_complete _ _ _ _ _ _ rfl⟩⟩

/-- C2: on a link bound to a live chain whose criterion at the link's index does
not match the message, `on_initial_request` returns `Next` without writing a
target; the link is not complete and comes back unchanged (chain, index and
default handling), as do the message, the transaction and the program state
(reference counts and token map). -/
theorem on_initial_request_no_match (env : Env) (s : State) (self : AsChainLink)
    (call_services : Option CallServices) (uas_data : UASTransaction) (tdata : Msg)
    (p : Nat) (c : AsChain) (ifc : Ifc)
    (h_chain : self._as_chain = some p) (h_live : Map.find p s.heap = some c)
    (h_ifc : c._ifcs[self._index]? = some ifc)
    (h_filter : env.filter_matches ifc c._session_case c._is_registered tdata = false) :
    complete s self = .ok false ∧
    on_initial_request env s self call_services uas_data tdata =
      .ok { disposition := .Next, pre_target := none, link := self, msg := tdata,
            uas_data := uas_data, state := s } := by
  refine ⟨complete_false_of_ifc h_chain h_live h_ifc, ?_⟩
  have hlt : self._index < c._ifcs.length := (List.getElem?_eq_some_iff.mp h_ifc).1
  have hne : self._index ≠ c.size := by
    unfold AsChain.size; omega
  simp [on_initial_request, h_chain, h_live, hne, h_ifc, h_filter]

/-- C2 exercised on the second step of the demo chain, whose criterion does not
match. -/
theorem on_initial_request_no_match_witness :
    ((mk2 (some 1) 1)._as_chain = some 1 ∧ Map.find 1 Demo.state.heap = some Demo.chain ∧
      Demo.chain._ifcs[(mk2 (some 1) 1)._index]? = some Demo.ifc_skip ∧
      Demo.env.filter_matches Demo.ifc_skip Demo.chain._session_case Demo.chain._is_registered
        Demo.msg = false) ∧
    (complete Demo.state (mk2 (some 1) 1) = .ok false ∧
      on_initial_request Demo.env Demo.state (mk2 (some 1) 1) (some Demo.cs) Demo.uas Demo.msg =
        .ok { disposition := .Next, pre_target := none, link := mk2 (some 1) 1, msg := Demo.msg,
              uas_data := Demo.uas, state := Demo.state }) :=
  ⟨⟨rfl, rfl, rfl, rfl⟩,
   on_initial_request_no_match Demo.env Demo.state (mk2 (some 1) 1) (some Demo.cs) Demo.uas
     Demo.msg 1 Demo.chain Demo.ifc_skip rfl rfl rfl rfl⟩

/-- A chain with one token per step has a token at every index that has a
criterion. -/
theorem token_of_ifc {c : AsChain} {i : Nat} {ifc : Ifc}
    (h_ifc : c._ifcs[i]? = some ifc) (h_tokens : c._odi_tokens.length = c.size) :
    ∃ token, c._odi_tokens[i]? = some token := by
  have hlt : i < c._ifcs.length := (List.getElem?_eq_some_iff.mp h_ifc).1
  have hlt2 : i < c._odi_tokens.length := by
    rw [h_tokens]; exact hlt
  exact ⟨c._odi_tokens[i], List.getElem?_eq_getElem hlt2⟩

/-- On a matching step that the call services handle internally,
`on_initial_request` reduces to the call of the collaborator. -/
theorem internal_branch_eq {env : Env} {s : State} {self : AsChainLink}
    {cs : CallServices} {uas_data : UASTransaction} {tdata : Msg}
    {p : Nat} {c : AsChain} {ifc : Ifc} {token : String}
    (h_chain : self._as_chain = some p) (h_live : Map.find p s.heap = some c)
    (h_ifc : c._ifcs[self._index]? = some ifc)
    (h_tok : c._odi_tokens[self._index]? = some token)
    (h_filter : env.filter_matches ifc c._session_case c._is_registered tdata = true)
    (h_mmtel : cs.is_mmtel ifc.as_invocation.server_name = true) :
    on_initial_request env s self (some cs) uas_data tdata =
      .ok { disposition :=
              if (if env.is_originating c._session_case then
                    cs.originating_on_initial_invite uas_data tdata c._served_user
                  else
                    cs.terminating_on_initial_invite (env.register_proxy uas_data) tdata
                      c._served_user).1
              then .Next else .Stop,
            pre_target := none, link := self,
            msg := (if env.is_originating c._session_case then
                      cs.originating_on_initial_invite uas_data tdata c._served_user
                    else
                      cs.terminating_on_initial_invite (env.register_proxy uas_data) tdata
                        c._served_user).2.1,
            uas_data := (if env.is_originating c._session_case then
                      cs.originating_on_initial_invite uas_data tdata c._served_user
                    else
                      cs.terminating_on_initial_invite (env.register_proxy uas_data) tdata
                        c._served_user).2.2,
            state := s } := by
  have hlt : self._index < c._ifcs.length := (List.getElem?_eq_some_iff.mp h_ifc).1
  have hne : self._index ≠ c.size := by
    unfold AsChain.size; omega
  by_cases ho : env.is_originating c._session_case = true <;>
    simp [on_initial_request, h_chain, h_live, hne, h_ifc, h_filter, h_tok, Option.filter,
      h_mmtel, ho]

/-- On a matching step that the call services do not handle (null call services,
or a server name that is not MMTEL), `on_initial_request` takes the branch for an
external application server. -/
theorem external_branch_eq {env : Env} {s : State} {self : AsChainLink}
    {call_services : Option CallServices} (uas_data : UASTransaction) {tdata : Msg}
    {p : Nat} {c : AsChain} {ifc : Ifc} {token : String}
    (h_chain : self._as_chain = some p) (h_live : Map.find p s.heap = some c)
    (h_ifc : c._ifcs[self._index]? = some ifc)
    (h_tok : c._odi_tokens[self._index]? = some token)
    (h_filter : env.filter_matches ifc c._session_case c._is_registered tdata = true)
    (h_ext : ∀ cs, call_services = some cs → cs.is_mmtel ifc.as_invocation.server_name = false) :
    on_initial_request env s self call_services uas_data tdata =
      invoke_external_as env s self c ifc.as_invocation (env.STR_ODI_PREFIX ++ token)
        uas_data tdata := by
  have hlt : self._index < c._ifcs.length := (List.getElem?_eq_some_iff.mp h_ifc).1
  have hne : self._index ≠ c.size := by
    unfold AsChain.size; omega
  have hf : call_services.filter (fun cs => cs.is_mmtel ifc.as_invocation.server_name) = none := by
    cases hcs : call_services with
    | none => rfl
    | some cs => simp [Option.filter, h_ext cs hcs]
  simp [on_initial_request, h_chain, h_live, hne, h_ifc, h_filter, h_tok, hf]

/-- C3: on a link bound to a live chain (one token per step) whose criterion at
the link's index matches and whose server name the non-null call services report
as MMTEL, `on_initial_request` runs the originating collaborator when the session
case is originating and the terminating collaborator (after registering it with
the transaction) otherwise; it returns `Next` exactly when the collaborator's
proceed flag is true and `Stop` exactly when it is false, writes no target, and
returns the message exactly as the collaborator left it: the header setter is not
applied. -/
theorem on_initial_request_internal (env : Env) (s : State) (self : AsChainLink)
    (cs : CallServices) (uas_data : UASTransaction) (tdata : Msg)
    (p : Nat) (c : AsChain) (ifc : Ifc)
    (h_chain : self._as_chain = some p) (h_live : Map.find p s.heap = some c)
    (h_ifc : c._ifcs[self._index]? = some ifc)
    (h_tokens : c._odi_tokens.length = c.size)
    (h_filter : env.filter_matches ifc c._session_case c._is_registered tdata = true)
    (h_mmtel : cs.is_mmtel ifc.as_invocation.server_name = true) :
    ∃ r : StepResult,
      on_initial_request env s self (some cs) uas_data tdata = .ok r ∧
      (env.is_originating c._session_case = true →
        (r.disposition = .Next ↔
          (cs.originating_on_initial_invite uas_data tdata c._served_user).1 = true) ∧
        (r.disposition = .Stop ↔
          (cs.originating_on_initial_invite uas_data tdata c._served_user).1 = false) ∧
        r.msg = (cs.originating_on_initial_invite uas_data tdata c._served_user).2.1 ∧
        r.uas_data = (cs.originating_on_initial_invite uas_data tdata c._served_user).2.2) ∧
      (env.is_originating c._session_case = false →
        (r.disposition = .Next ↔
          (cs.terminating_on_initial_invite (env.register_proxy uas_data) tdata
            c._served_user).1 = true) ∧
        (r.disposition = .Stop ↔
          (cs.terminating_on_initial_invite (env.register_proxy uas_data) tdata
            c._served_user).1 = false) ∧
        r.msg = (cs.terminating_on_initial_invite (env.register_proxy uas_data) tdata
            c._served_user).2.1 ∧
        r.uas_data = (cs.terminating_on_initial_invite (env.register_proxy uas_data) tdata
            c._served_user).2.2) ∧
      r.pre_target = none ∧ r.link = self := by
  obtain ⟨token, h_tok⟩ := token_of_ifc h_ifc h_tokens
  refine ⟨_, internal_branch_eq h_chain h_live h_ifc h_tok h_filter h_mmtel, ?_, ?_,
    rfl, rfl⟩
  · intro ho
    simp only [ho, if_true]
    generalize cs.originating_on_initial_invite uas_data tdata c._served_user = res
    obtain ⟨b, m, u⟩ := res
    cases b <;> simp
  · intro ho
    simp only [ho]
    generalize cs.terminating_on_initial_invite (env.register_proxy uas_data) tdata
      c._served_user = res
    obtain ⟨b, m, u⟩ := res
    cases b <;> simp

/-- C3 exercised on the third step of the demo chain (originating, MMTEL): the
originating collaborator proceeds, so the disposition is `Next`. -/
theorem on_initial_request_internal_witness :
    ((mk2 (some 1) 2)._as_chain = some 1 ∧ Map.find 1 Demo.state.heap = some Demo.chain ∧
      Demo.chain._ifcs[(mk2 (some 1) 2)._index]? = some Demo.ifc_mmtel ∧
      Demo.chain._odi_tokens.length = Demo.chain.size ∧
      Demo.env.filter_matches Demo.ifc_mmtel Demo.chain._session_case Demo.chain._is_registered
        Demo.msg = true ∧
      Demo.cs.is_mmtel Demo.ifc_mmtel.as_invocation.server_name = true) ∧
    ∃ r : StepResult,
      on_initial_request Demo.env Demo.state (mk2 (some 1) 2) (some Demo.cs) Demo.uas Demo.msg
        = .ok r ∧ r.disposition = .Next ∧ r.pre_target = none :=
  ⟨⟨rfl, rfl, rfl, rfl, rfl, rfl⟩,
   match on_initial_request_internal Demo.env Demo.state (mk2 (some 1) 2) Demo.cs Demo.uas
       Demo.msg 1 Demo.chain Demo.ifc_mmtel rfl rfl rfl rfl rfl rfl with
   | ⟨r, hr, ho, _, ht, _⟩ => ⟨r, hr, ((ho rfl).1).mpr rfl, ht⟩⟩

/-- C4: on every matching step for an external application server (link bound to
a live chain with one token per step, criterion at the index matches, call
services null or not MMTEL for the server name) the target that
`on_initial_request` builds has `liveness_timeout` `AS_TIMEOUT_CONTINUE` = 2 when
the criterion's default handling is true (continue) and `AS_TIMEOUT_TERMINATE` = 4
when it is false (terminate).  When the AS address parses the call returns `Skip`
and hands this target out; when it does not, the call stops at the null URI with
this target under construction.  The terminate timeout is strictly longer than
the continue timeout, so the two differ. -/
theorem on_initial_request_liveness_timeout (env : Env) (s : State) (self : AsChainLink)
    (call_services : Option CallServices) (uas_data : UASTransaction) (tdata : Msg)
    (p : Nat) (c : AsChain) (ifc : Ifc)
    (h_chain : self._as_chain = some p) (h_live : Map.find p s.heap = some c)
    (h_ifc : c._ifcs[self._index]? = some ifc)
    (h_tokens : c._odi_tokens.length = c.size)
    (h_filter : env.filter_matches ifc c._session_case c._is_registered tdata = true)
    (h_ext : ∀ cs, call_services = some cs → cs.is_mmtel ifc.as_invocation.server_name = false) :
    (AS_TIMEOUT_CONTINUE = 2 ∧ AS_TIMEOUT_TERMINATE = 4 ∧
      AS_TIMEOUT_CONTINUE < AS_TIMEOUT_TERMINATE ∧ AS_TIMEOUT_CONTINUE ≠ AS_TIMEOUT_TERMINATE) ∧
    (∀ as_uri, env.uri_from_string ifc.as_invocation.server_name = some as_uri →
      ∃ (r : StepResult) (t : target),
        on_initial_request env s self call_services uas_data tdata = .ok r ∧
        r.disposition = .Skip ∧ r.pre_target = some t ∧
        t.liveness_timeout =
          if ifc.as_invocation.default_handling = true then AS_TIMEOUT_CONTINUE
          else AS_TIMEOUT_TERMINATE) ∧
    (env.uri_from_string ifc.as_invocation.server_name = none →
      ∃ (cr : Crash) (t : target),
        on_initial_request env s self call_services uas_data tdata = .error cr ∧
        cr.fault = .null_deref ∧ cr.as_target = some t ∧
        t.liveness_timeout =
          if ifc.as_invocation.default_handling = true then AS_TIMEOUT_CONTINUE
          else AS_TIMEOUT_TERMINATE) := by
  obtain ⟨token, h_tok⟩ := token_of_ifc h_ifc h_tokens
  have heq := external_branch_eq uas_data h_chain h_live h_ifc h_tok
    h_filter h_ext
  refine ⟨⟨rfl, rfl, by decide, by decide⟩, ?_, ?_⟩
  · intro as_uri hu
    rw [heq]
    cases hd : ifc.as_invocation.default_handling <;>
      simp [invoke_external_as, hu, hd]
  · intro hu
    rw [heq]
    cases hd : ifc.as_invocation.default_handling <;>
      simp [invoke_external_as, hu, hd]

/-- C4 exercised on the first step of the demo chain: default handling continue,
address parses, timeout 2. -/
theorem on_initial_request_liveness_timeout_witness :
    ((mk2 (some 1) 0)._as_chain = some 1 ∧ Map.find 1 Demo.state.heap = some Demo.chain ∧
      Demo.chain._ifcs[(mk2 (some 1) 0)._index]? = some Demo.ifc_ext ∧
      Demo.chain._odi_tokens.length = Demo.chain.size ∧
      Demo.env.filter_matches Demo.ifc_ext Demo.chain._session_case Demo.chain._is_registered
        Demo.msg = true ∧
      (∀ cs, some Demo.cs = some cs → cs.is_mmtel Demo.ifc_ext.as_invocation.server_name = false)) ∧
    ∃ (r : StepResult) (t : target),
      on_initial_request Demo.env Demo.state (mk2 (some 1) 0) (some Demo.cs) Demo.uas Demo.msg
        = .ok r ∧ r.disposition = .Skip ∧ r.pre_target = some t ∧ t.liveness_timeout = 2 :=
  have h_ext : ∀ cs, some Demo.cs = some cs →
      cs.is_mmtel Demo.ifc_ext.as_invocation.server_name = false :=
    fun _ h => Option.some.inj h ▸ rfl
  ⟨⟨rfl, rfl, rfl, rfl, rfl, h_ext⟩,
   (on_initial_request_liveness_timeout Demo.env Demo.state (mk2 (some 1) 0) (some Demo.cs)
      Demo.uas Demo.msg 1 Demo.chain Demo.ifc_ext rfl rfl rfl rfl rfl h_ext).2.1 _ rfl⟩

/-- C5: on a matching step for an external application server whose address
parses, `on_initial_request` returns `Skip` with a target whose URI is the
request URI of the message, which the call leaves unchanged, and whose paths are
exactly two entries: first the AS URI with `lr_param` set, then a plain `sip:`
URI for this node (local host, trusted port) with `lr_param` set, whose user part
is the ODI prefix followed by the token at the link's own index and whose
transport parameter is that of the AS URI. -/
theorem on_initial_request_route_path (env : Env) (s : State) (self : AsChainLink)
    (call_services : Option CallServices) (uas_data : UASTransaction) (tdata : Msg)
    (p : Nat) (c : AsChain) (ifc : Ifc) (as_uri : SipUri)
    (h_chain : self._as_chain = some p) (h_live : Map.find p s.heap = some c)
    (h_ifc : c._ifcs[self._index]? = some ifc)
    (h_tokens : c._odi_tokens.length = c.size)
    (h_filter : env.filter_matches ifc c._session_case c._is_registered tdata = true)
    (h_ext : ∀ cs, call_services = some cs → cs.is_mmtel ifc.as_invocation.server_name = false)
    (h_parse : env.uri_from_string ifc.as_invocation.server_name = some as_uri) :
    ∃ (token : String) (r : StepResult) (t : target),
      c._odi_tokens[self._index]? = some token ∧
      on_initial_request env s self call_services uas_data tdata = .ok r ∧
      r.disposition = .Skip ∧ r.pre_target = some t ∧
      t.uri = some tdata.req_uri ∧ r.msg.req_uri = tdata.req_uri ∧
      t.paths =
        [PjsipUri.sip { as_uri with lr_param := 1 },
         PjsipUri.sip { secure := false, user := env.STR_ODI_PREFIX ++ token,
                        host := env.local_host, port := env.trusted_port,
                        transport_param := as_uri.transport_param, lr_param := 1 }] := by
  obtain ⟨token, h_tok⟩ := token_of_ifc h_ifc h_tokens
  have heq := external_branch_eq uas_data h_chain h_live h_ifc h_tok
    h_filter h_ext
  refine ⟨token, ?_⟩
  rw [heq]
  cases hd : ifc.as_invocation.default_handling <;>
    simp [invoke_external_as, h_parse, hd, h_tok, target.default]

/-- C5 exercised on the first step of the demo chain: the route is the AS over
TCP followed by `odi_AAAAAAAAAA` at this node over TCP. -/
theorem on_initial_request_route_path_witness :
    ((mk2 (some 1) 0)._as_chain = some 1 ∧ Map.find 1 Demo.state.heap = some Demo.chain ∧
      Demo.chain._ifcs[(mk2 (some 1) 0)._index]? = some Demo.ifc_ext ∧
      Demo.chain._odi_tokens.length = Demo.chain.size ∧
      Demo.env.filter_matches Demo.ifc_ext Demo.chain._session_case Demo.chain._is_registered
        Demo.msg = true ∧
      (∀ cs, (none : Option CallServices) = some cs →
        cs.is_mmtel Demo.ifc_ext.as_invocation.server_name = false) ∧
      Demo.env.uri_from_string Demo.ifc_ext.as_invocation.server_name =
        some { secure := false, user := "", host := "as1.example.com", port := 0,
               transport_param := "TCP", lr_param := 0 }) ∧
    ∃ (r : StepResult) (t : target),
      on_initial_request Demo.env Demo.state (mk2 (some 1) 0) none Demo.uas Demo.msg = .ok r ∧
      r.disposition = .Skip ∧ r.pre_target = some t ∧
      t.uri = some (.other "tel:+15551234") ∧
      t.paths =
        [PjsipUri.sip { secure := false, user := "", host := "as1.example.com", port := 0,
                        transport_param := "TCP", lr_param := 1 },
         PjsipUri.sip { secure := false, user := "odi_AAAAAAAAAA",
                        host := "sprout.example.com", port := 5058,
                        transport_param := "TCP", lr_param := 1 }] := by
  refine ⟨⟨rfl, rfl, rfl, rfl, rfl, (fun _ h => Option.noConfusion h), rfl⟩, ?_⟩
  obtain ⟨token, r, t, htok, hr, hd, ht, hu, _, hp⟩ :=
    on_initial_request_route_path Demo.env Demo.state (mk2 (some 1) 0) none Demo.uas Demo.msg 1
      Demo.chain Demo.ifc_ext _ rfl rfl rfl rfl rfl (fun _ h => Option.noConfusion h) rfl
  have hteq : token = "AAAAAAAAAA" := (Option.some.inj htok).symm
  subst hteq
  exact ⟨r, t, hr, hd, ht, hu, hp⟩

/-- The header value built by the code has the format of the interface
description. -/
theorem psu_string_eq_format (env : Env) (c : AsChain) :
    psu_string env c =
      served_user_header_format c._served_user (env.session_case_to_string c._session_case)
        c._session_case c._is_registered := by
  unfold psu_string served_user_header_format
  cases hsc : c._session_case <;> cases hr : c._is_registered <;>
    simp [String.append_assoc]

/-- A string without a NUL is its own C string. -/
theorem c_str_of_no_nul {str : String} (h : Char.ofNat 0 ∉ str.data) : c_str str = str := by
  have hl : str.data.takeWhile (fun ch => ch != Char.ofNat 0) = str.data := by
    rw [List.takeWhile_eq_self_iff]
    intro ch hch
    have hne : ch ≠ Char.ofNat 0 := fun e => h (e ▸ hch)
    simpa using hne
  unfold c_str
  rw [hl]

/-- Reading a list up to the first element that fails a test does not look behind a
failing element. -/
theorem takeWhile_append_of_fails {α : Type} (f : α → Bool) (xs ys : List α)
    (h : ∃ x, x ∈ xs ∧ f x = false) : (xs ++ ys).takeWhile f = xs.takeWhile f := by
  induction xs with
  | nil => obtain ⟨x, hx, _⟩ := h; cases hx
  | cons x xs ih =>
    obtain ⟨y, hy, hfy⟩ := h
    cases hfx : f x with
    | false => simp [List.takeWhile, hfx]
    | true =>
      have hyx : y ∈ xs := by
        rcases List.mem_cons.mp hy with e | hm
        · rw [e, hfx] at hfy; cases hfy
        · exact hm
      simp [List.takeWhile, hfx, ih ⟨y, hyx, hfy⟩]

/-- The C string of a text whose first part holds a NUL is the C string of that part. -/
theorem c_str_append_of_nul {a b : String} (h : Char.ofNat 0 ∈ a.data) :
    c_str (a ++ b) = c_str a := by
  unfold c_str
  rw [String.data_append, takeWhile_append_of_fails _ _ _ ⟨Char.ofNat 0, h, by simp⟩]

/-- The header format has no NUL when the served user and the label have none. -/
theorem served_user_header_format_no_nul (served_user label : String)
    (session_case : SessionCase) (is_registered : Bool)
    (hu : Char.ofNat 0 ∉ served_user.data) (hl : Char.ofNat 0 ∉ label.data) :
    Char.ofNat 0 ∉ (served_user_header_format served_user label session_case is_registered).data := by
  have h1 : Char.ofNat 0 ∉ "<".data := by decide
  have h2 : Char.ofNat 0 ∉ ">;sescase=".data := by decide
  have h3 : Char.ofNat 0 ∉ "".data := by decide
  have h4 : Char.ofNat 0 ∉ ";regstate=reg".data := by decide
  have h5 : Char.ofNat 0 ∉ ";regstate=unreg".data := by decide
  unfold served_user_header_format
  cases session_case <;> cases is_registered <;>
    simp only [String.data_append, List.mem_append, not_or, if_true, if_false,
      Bool.false_eq_true] <;>
    simp [h1, h2, h3, h4, h5, hu, hl]

/-- The header format cut at a NUL of the served user is `<` and the served user up
to that NUL. -/
theorem c_str_served_user_header_format (served_user label : String)
    (session_case : SessionCase) (is_registered : Bool)
    (hu : Char.ofNat 0 ∈ served_user.data) :
    c_str (served_user_header_format served_user label session_case is_registered) =
      c_str ("<" ++ served_user) := by
  have h : Char.ofNat 0 ∈ ("<" ++ served_user).data := by
    rw [String.data_append]
    exact List.mem_append_right _ hu
  unfold served_user_header_format
  rw [String.append_assoc, String.append_assoc, c_str_append_of_nul h]

/-- C6 as the code has it: on every matching step for an external application
server the header setter is applied to the headers of the message with the name
of the served-user header and the C string of
`<served_user>;sescase=<label of the session case>`, followed by `;regstate=reg`
when the chain is registered and `;regstate=unreg` when it is not, and by nothing
for the session case OriginatingCdiv whatever the registration flag; the value
ends before the first NUL of that text.  The message carries these headers when
the call returns (the AS address parses) and when it stops at the null URI (it
does not parse).  When neither the served user nor the label holds a NUL the
value is the whole text; when the served user holds one the value is `<` followed
by the served user up to that NUL.  With the label `orig` for Originating, served
user `sip:alice@example.com` unregistered gives
`<sip:alice@example.com>;sescase=orig;regstate=unreg`. -/
theorem on_initial_request_served_user_header (env : Env) (s : State) (self : AsChainLink)
    (call_services : Option CallServices) (uas_data : UASTransaction) (tdata : Msg)
    (p : Nat) (c : AsChain) (ifc : Ifc)
    (h_chain : self._as_chain = some p) (h_live : Map.find p s.heap = some c)
    (h_ifc : c._ifcs[self._index]? = some ifc)
    (h_tokens : c._odi_tokens.length = c.size)
    (h_filter : env.filter_matches ifc c._session_case c._is_registered tdata = true)
    (h_ext : ∀ cs, call_services = some cs → cs.is_mmtel ifc.as_invocation.server_name = false) :
    (∀ as_uri, env.uri_from_string ifc.as_invocation.server_name = some as_uri →
      ∃ r : StepResult,
        on_initial_request env s self call_services uas_data tdata = .ok r ∧
        r.msg.hdrs = env.set_generic_header tdata.hdrs env.STR_P_SERVED_USER
          (c_str (served_user_header_format c._served_user
            (env.session_case_to_string c._session_case) c._session_case c._is_registered))) ∧
    (env.uri_from_string ifc.as_invocation.server_name = none →
      ∃ cr : Crash,
        on_initial_request env s self call_services uas_data tdata = .error cr ∧
        cr.msg.hdrs = env.set_generic_header tdata.hdrs env.STR_P_SERVED_USER
          (c_str (served_user_header_format c._served_user
            (env.session_case_to_string c._session_case) c._session_case c._is_registered))) ∧
    (∀ (served_user label : String) (session_case : SessionCase) (is_registered : Bool),
      (Char.ofNat 0 ∉ served_user.data → Char.ofNat 0 ∉ label.data →
        c_str (served_user_header_format served_user label session_case is_registered) =
          served_user_header_format served_user label session_case is_registered) ∧
      (Char.ofNat 0 ∈ served_user.data →
        c_str (served_user_header_format served_user label session_case is_registered) =
          c_str ("<" ++ served_user))) ∧
    (∀ served_user label : String,
      served_user_header_format served_user label .Originating true =
        "<" ++ served_user ++ ">;sescase=" ++ label ++ ";regstate=reg" ∧
      served_user_header_format served_user label .Originating false =
        "<" ++ served_user ++ ">;sescase=" ++ label ++ ";regstate=unreg" ∧
      served_user_header_format served_user label .Terminating true =
        "<" ++ served_user ++ ">;sescase=" ++ label ++ ";regstate=reg" ∧
      served_user_header_format served_user label .Terminating false =
        "<" ++ served_user ++ ">;sescase=" ++ label ++ ";regstate=unreg" ∧
      ∀ is_registered, served_user_header_format served_user label .OriginatingCdiv is_registered =
        "<" ++ served_user ++ ">;sescase=" ++ label) ∧
    c_str (served_user_header_format "sip:alice@example.com" "orig" .Originating false) =
      "<sip:alice@example.com>;sescase=orig;regstate=unreg" := by
  obtain ⟨token, h_tok⟩ := token_of_ifc h_ifc h_tokens
  have heq := external_branch_eq uas_data h_chain h_live h_ifc h_tok
    h_filter h_ext
  refine ⟨?_, ?_, ?_, ?_, by decide⟩
  · intro as_uri hu
    rw [heq]
    simp [invoke_external_as, hu, psu_string_eq_format]
  · intro hu
    rw [heq]
    simp [invoke_external_as, hu, psu_string_eq_format]
  · intro served_user label session_case is_registered
    exact ⟨fun hu hl => c_str_of_no_nul
        (served_user_header_format_no_nul served_user label session_case is_registered hu hl),
      c_str_served_user_header_format served_user label session_case is_registered⟩
  · intro served_user label
    simp [served_user_header_format]

/-- C6 exercised on the first step of the demo chain: alice, originating,
unregistered. -/
theorem on_initial_request_served_user_header_witness :
    ((mk2 (some 1) 0)._as_chain = some 1 ∧ Map.find 1 Demo.state.heap = some Demo.chain ∧
      Demo.chain._ifcs[(mk2 (some 1) 0)._index]? = some Demo.ifc_ext ∧
      Demo.chain._odi_tokens.length = Demo.chain.size ∧
      Demo.env.filter_matches Demo.ifc_ext Demo.chain._session_case Demo.chain._is_registered
        Demo.msg = true ∧
      (∀ cs, (none : Option CallServices) = some cs →
        cs.is_mmtel Demo.ifc_ext.as_invocation.server_name = false)) ∧
    ∃ r : StepResult,
      on_initial_request Demo.env Demo.state (mk2 (some 1) 0) none Demo.uas Demo.msg = .ok r ∧
      r.msg.hdrs =
        [("Via", "SIP/2.0/TCP client.example.com"),
         ("P-Served-User", "<sip:alice@example.com>;sescase=orig;regstate=unreg")] := by
  refine ⟨⟨rfl, rfl, rfl, rfl, rfl, (fun _ h => Option.noConfusion h)⟩, ?_⟩
  obtain ⟨r, hr, hh⟩ :=
    (on_initial_request_served_user_header Demo.env Demo.state (mk2 (some 1) 0) none Demo.uas
      Demo.msg 1 Demo.chain Demo.ifc_ext rfl rfl rfl rfl rfl
      (fun _ h => Option.noConfusion h)).1 _ rfl
  refine ⟨r, hr, ?_⟩
  rw [hh]
  decide

/-- C6 as stated fails for a served user that holds a NUL: for the served user
`sip:al`, NUL, `ice@example.com` the step returns with the header value `<sip:al`,
which is not `<served_user>;sescase=orig;regstate=unreg`. -/
theorem on_initial_request_served_user_header_cut_at_nul :
    Demo.chain_nul._served_user = "sip:al\x00ice@example.com" ∧
    Map.find 1 Demo.state_nul.heap = some Demo.chain_nul ∧
    ∃ r : StepResult,
      on_initial_request Demo.env Demo.state_nul (mk2 (some 1) 0) none Demo.uas Demo.msg = .ok r ∧
      r.msg.hdrs =
        [("Via", "SIP/2.0/TCP client.example.com"), ("P-Served-User", "<sip:al")] ∧
      r.msg.hdrs ≠
        Demo.env.set_generic_header Demo.msg.hdrs Demo.env.STR_P_SERVED_USER
          ("<" ++ Demo.chain_nul._served_user ++ ">;sescase=" ++
            Demo.env.session_case_to_string Demo.chain_nul._session_case ++ ";regstate=unreg") :=
  ⟨rfl, rfl, _, rfl, by decide, by decide⟩

end AsChainLink

/-! ## The token table: `register_`, `unregister`, `lookup` -/

namespace AsChainTable

theorem register_fold_succ (crt : Nat → Nat → String) (p n : Nat)
    (acc : List String × List (String × AsChainLink)) :
    (List.range (n + 1)).foldl (register_step crt p) acc =
      register_step crt p ((List.range n).foldl (register_step crt p) acc) n := by
  rw [List.range_succ, List.foldl_append]
  rfl

/-- The loop of `register_` appends the generated tokens in order. -/
theorem register_fold_tokens (crt : Nat → Nat → String) (p n : Nat) (tokens : List String)
    (m : List (String × AsChainLink)) :
    ((List.range n).foldl (register_step crt p) (tokens, m)).1 =
      tokens ++ (List.range n).map (crt TOKEN_LENGTH) := by
  induction n with
  | zero => simp
  | succ n ih =>
    rw [register_fold_succ]
    simp [register_step, ih, List.range_succ]

theorem register_fold_find_succ (crt : Nat → Nat → String) (p n : Nat) (tokens : List String)
    (m : List (String × AsChainLink)) (k : String) :
    Map.find k ((List.range (n + 1)).foldl (register_step crt p) (tokens, m)).2 =
      if crt TOKEN_LENGTH n = k then some (AsChainLink.mk2 (some p) (n + 1))
      else Map.find k ((List.range n).foldl (register_step crt p) (tokens, m)).2 := by
  rw [register_fold_succ]
  simp [register_step, Map.find_assign, AsChainLink.mk2]

/-- A key that the generator does not produce keeps its mapping. -/
theorem register_fold_find_fresh (crt : Nat → Nat → String) (p n : Nat) (tokens : List String)
    (m : List (String × AsChainLink)) (k : String)
    (h : ∀ i, i < n → crt TOKEN_LENGTH i ≠ k) :
    Map.find k ((List.range n).foldl (register_step crt p) (tokens, m)).2 = Map.find k m := by
  induction n with
  | zero => simp
  | succ n ih =>
    rw [register_fold_find_succ]
    have h1 : crt TOKEN_LENGTH n ≠ k := h n (Nat.lt_succ_self n)
    simp only [h1, if_false]
    exact ih (fun i hi => h i (Nat.lt_succ_of_lt hi))

/-- A token that is generated for one step only maps to the step after it. -/
theorem register_fold_find_token (crt : Nat → Nat → String) (p n : Nat) (tokens : List String)
    (m : List (String × AsChainLink)) (i : Nat) (hi : i < n)
    (h : ∀ j, j < n → crt TOKEN_LENGTH j = crt TOKEN_LENGTH i → j = i) :
    Map.find (crt TOKEN_LENGTH i) ((List.range n).foldl (register_step crt p) (tokens, m)).2 =
      some (AsChainLink.mk2 (some p) (i + 1)) := by
  induction n with
  | zero => omega
  | succ n ih =>
    rw [register_fold_find_succ]
    by_cases hn : crt TOKEN_LENGTH n = crt TOKEN_LENGTH i
    · have : n = i := h n (Nat.lt_succ_self n) hn
      simp [hn, this]
    · have hin : i < n := by
        have : i ≠ n := fun e => hn (by rw [e])
        omega
      simp only [hn, if_false]
      exact ih hin (fun j hj => h j (Nat.lt_succ_of_lt hj))

/-- Distinct generator outputs give a duplicate-free token list. -/
theorem nodup_generated (crt : Nat → Nat → String) (n : Nat)
    (h : ∀ i j, i < n → j < n → crt TOKEN_LENGTH i = crt TOKEN_LENGTH j → i = j) :
    ((List.range n).map (crt TOKEN_LENGTH)).Nodup := by
  refine List.Nodup.map_on ?_ (List.nodup_range n)
  intro i hi j hj hij
  exact h i j (List.mem_range.mp hi) (List.mem_range.mp hj) hij

/-- A token that is not a key makes `lookup` return the unbound link and leave
the state alone. -/
theorem lookup_of_find_none {s : State} {token : String}
    (h : Map.find token s._t2c_map = none) :
    lookup s token = .ok (AsChainLink.empty, s) := by
  simp [lookup, h, AsChainLink.empty]

/-- On a live chain `register_` always returns: the tokens drawn, in order, and
the map after the assignments; the heap is not touched. -/
theorem register__eq {s : State} {p : Nat} {c : AsChain} (crt : Nat → Nat → String)
    (tokens : List String) (h_live : Map.find p s.heap = some c) :
    register_ crt s p tokens =
      .ok (tokens ++ (List.range c.size).map (crt TOKEN_LENGTH),
           { s with _t2c_map :=
               ((List.range c.size).foldl (register_step crt p) (tokens, s._t2c_map)).2 }) := by
  simp [register_, h_live, register_fold_tokens]

/-- C8 as the code has it: `register_` on a live chain never fails and never
draws again.  It appends the tokens exactly as the generator returns them and
assigns each to the map, leaving the heap alone.  Keys the generator does not
return keep their mapping.  If no generated token is already a key, every
mapping present before the call is still there.  If the generated tokens are
pairwise distinct, the appended tokens have no duplicate and the token of step
`i` maps to the link at index `i + 1` of the chain. -/
theorem register__as_drawn (crt : Nat → Nat → String) (s : State) (p : Nat) (c : AsChain)
    (tokens : List String) (h_live : Map.find p s.heap = some c) :
    ∃ s' : State,
      register_ crt s p tokens =
        .ok (tokens ++ (List.range c.size).map (crt TOKEN_LENGTH), s') ∧
      s'.heap = s.heap ∧
      (∀ k, (∀ i, i < c.size → crt TOKEN_LENGTH i ≠ k) →
        Map.find k s'._t2c_map = Map.find k s._t2c_map) ∧
      ((∀ i, i < c.size → Map.find (crt TOKEN_LENGTH i) s._t2c_map = none) →
        ∀ k v, Map.find k s._t2c_map = some v → Map.find k s'._t2c_map = some v) ∧
      ((∀ i j, i < c.size → j < c.size → crt TOKEN_LENGTH i = crt TOKEN_LENGTH j → i = j) →
        ((List.range c.size).map (crt TOKEN_LENGTH)).Nodup ∧
        ∀ i, i < c.size →
          Map.find (crt TOKEN_LENGTH i) s'._t2c_map = some (AsChainLink.mk2 (some p) (i + 1))) := by
  refine ⟨_, register__eq crt tokens h_live, rfl, ?_, ?_, ?_⟩
  · intro k hk
    exact register_fold_find_fresh crt p c.size tokens s._t2c_map k hk
  · intro hfresh k v hkv
    have hk : ∀ i, i < c.size → crt TOKEN_LENGTH i ≠ k := by
      intro i hi e
      have := hfresh i hi
      rw [e, hkv] at this
      cases this
    show Map.find k ((List.range c.size).foldl (register_step crt p) (tokens, s._t2c_map)).2 = _
    rw [register_fold_find_fresh crt p c.size tokens s._t2c_map k hk]
    exact hkv
  · intro hinj
    refine ⟨nodup_generated crt c.size hinj, ?_⟩
    intro i hi
    exact register_fold_find_token crt p c.size tokens s._t2c_map i hi
      (fun j hj e => hinj j i hj hi e)

/-- C8 exercised: registering the two-step demo chain with two new, different
tokens returns them and sets the heap aside. -/
theorem register__as_drawn_witness :
    Map.find 2 Demo.state2.heap = some Demo.chain2 ∧
    ∃ s' : State,
      register_ Demo.fair_generator Demo.state2 2 [] =
        .ok ([] ++ (List.range Demo.chain2.size).map (Demo.fair_generator TOKEN_LENGTH), s') ∧
      s'.heap = Demo.state2.heap :=
  ⟨rfl,
   match register__as_drawn Demo.fair_generator Demo.state2 2 Demo.chain2 [] rfl with
   | ⟨s', h1, h2, _⟩ => ⟨s', h1, h2⟩⟩

/-- The demo state is the one `create_as_chain` builds from the empty state. -/
theorem demo_state_created :
    AsChainLink.create_as_chain Demo.generator { heap := [], _t2c_map := [] } 1 .Originating
      "sip:alice@example.com" false 7
      [Demo.ifc_ext, Demo.ifc_skip, Demo.ifc_mmtel, Demo.ifc_bad] =
        .ok (AsChainLink.mk2 (some 1) 0, Demo.state) := by
  rfl

/-- C8 fails as stated: `state2` is the state in which the constructor of the
two-step chain at address `2` calls `register_`; with a generator that returns
the token `AAAAAAAAAA` twice, `register_` returns normally, the chain holds the
same token for both steps, and the key `AAAAAAAAAA`, which mapped to step 1 of
the chain at address `1` before the call, maps to step 2 of the chain at address
`2` after it. -/
theorem register__collision_overwrites :
    Demo.state2 = { Demo.state with heap := Map.assign 2 Demo.chain2 Demo.state.heap } ∧
    ∃ (tokens : List String) (s' : State),
      register_ Demo.stuck_generator Demo.state2 2 [] = .ok (tokens, s') ∧
      tokens = ["AAAAAAAAAA", "AAAAAAAAAA"] ∧ ¬ tokens.Nodup ∧
      Map.find "AAAAAAAAAA" Demo.state2._t2c_map = some (AsChainLink.mk2 (some 1) 1) ∧
      Map.find "AAAAAAAAAA" s'._t2c_map = some (AsChainLink.mk2 (some 2) 2) :=
  ⟨rfl, _, _, rfl, rfl, by decide, by decide, by decide⟩

/-- C9: for a live chain with a positive reference count `request_destroy`
returns, and in the state it leaves, as in every state with the same token map,
`lookup` of any token in the chain's token list returns the unbound link and
hands the state back as it got it: no reference count is incremented. -/
theorem lookup_after_request_destroy (s : State) (p : Nat) (c : AsChain)
    (h_live : Map.find p s.heap = some c) (h_refs : 1 ≤ c._refs) :
    ∃ s' : State,
      AsChain.request_destroy s p = .ok s' ∧
      ∀ token, token ∈ c._odi_tokens →
        ∀ s'' : State, s''._t2c_map = s'._t2c_map →
          lookup s'' token = .ok (AsChainLink.empty, s'') ∧
          AsChainLink.is_set AsChainLink.empty = false := by
  have hmap : ∀ token, token ∈ c._odi_tokens →
      Map.find token (unregister s c._odi_tokens)._t2c_map = none := by
    intro token ht
    simp [unregister, Map.find_foldl_erase, ht]
  have hheap : Map.find p (unregister s c._odi_tokens).heap = some c := h_live
  have hpd : AsChain.pre_decrement c._refs = c._refs - 1 := AsChain.pre_decrement_of_pos h_refs
  by_cases h1 : c._refs - 1 = 0
  · refine ⟨{ unregister s c._odi_tokens with
              heap := Map.erase p (unregister s c._odi_tokens).heap }, ?_, ?_⟩
    · simp [AsChain.request_destroy, h_live, AsChain.dec_ref, hheap, hpd, h1]
    · intro token ht s'' hs''
      exact ⟨lookup_of_find_none (by rw [hs'']; exact hmap token ht), rfl⟩
  · refine ⟨{ unregister s c._odi_tokens with
              heap := Map.assign p { c with _refs := c._refs - 1 }
                (unregister s c._odi_tokens).heap }, ?_, ?_⟩
    · have h2 : ¬ c._refs - 1 < 0 := by omega
      simp [AsChain.request_destroy, h_live, AsChain.dec_ref, hheap, hpd, h1, h2]
    · intro token ht s'' hs''
      exact ⟨lookup_of_find_none (by rw [hs'']; exact hmap token ht), rfl⟩

/-- C9 exercised on the demo chain: after `request_destroy` its second token is
unknown to `lookup`. -/
theorem lookup_after_request_destroy_witness :
    (Map.find 1 Demo.state.heap = some Demo.chain ∧ 1 ≤ Demo.chain._refs) ∧
    ∃ s' : State,
      AsChain.request_destroy Demo.state 1 = .ok s' ∧
      lookup s' "BBBBBBBBBB" = .ok (AsChainLink.empty, s') :=
  ⟨⟨rfl, by decide⟩,
   match lookup_after_request_destroy Demo.state 1 Demo.chain rfl (by decide) with
   | ⟨s', h1, h2⟩ => ⟨s', h1, (h2 "BBBBBBBBBB" (by decide) s' rfl).1⟩⟩

/-- C10: for every state and every token that is not a key of the token map,
`lookup` returns the unbound link (not set, complete, index 0) and the state it
was given: the map and the heap, hence every reference count, are unchanged, and
since the state is arbitrary no live chain is needed for the call to return. -/
theorem lookup_miss (s : State) (token : String)
    (h : Map.find token s._t2c_map = none) :
    lookup s token = .ok (AsChainLink.empty, s) ∧
    AsChainLink.is_set AsChainLink.empty = false ∧
    AsChainLink.complete s AsChainLink.empty = .ok true ∧
    AsChainLink.empty._index = 0 := by
  exact ⟨lookup_of_find_none h, rfl, rfl, rfl⟩

/-- C10 exercised on the demo state with a token that was never registered. -/
theorem lookup_miss_witness :
    Map.find "ZZZZZZZZZZ" Demo.state._t2c_map = none ∧
    lookup Demo.state "ZZZZZZZZZZ" = .ok (AsChainLink.empty, Demo.state) :=
  ⟨by decide, (lookup_miss Demo.state "ZZZZZZZZZZ" (by decide)).1⟩

/-! ### Lookup of a registered token -/

/-- Incrementing with `inc_ref` leaves the map alone and keeps every live chain live with the same
tokens and criteria. -/
theorem inc_ref_frame {s s' : State} {q : Nat} (h : AsChain.inc_ref s q = .ok s') :
    s'._t2c_map = s._t2c_map ∧
    ∀ a c, Map.find a s.heap = some c →
      ∃ c', Map.find a s'.heap = some c' ∧ c'._odi_tokens = c._odi_tokens ∧ c'.size = c.size := by
  unfold AsChain.inc_ref at h
  cases hq : Map.find q s.heap with
  | none => simp [hq] at h
  | some cq =>
    simp only [hq, Except.ok.injEq] at h
    subst h
    refine ⟨rfl, ?_⟩
    intro a c ha
    by_cases haq : q = a
    · subst haq
      rw [hq] at ha
      cases ha
      exact ⟨_, Map.find_assign_self _ _ _, rfl, rfl⟩
    · exact ⟨c, by simp [Map.find_assign_ne _ _ haq, ha], rfl, rfl⟩

/-- Decrementing with `dec_ref` leaves the map alone and keeps live, with the same tokens and
criteria, every chain other than one it brings to zero. -/
theorem dec_ref_frame {s s' : State} {q : Nat} (h : AsChain.dec_ref s q = .ok s') :
    s'._t2c_map = s._t2c_map ∧
    ∀ a c, Map.find a s.heap = some c → (a = q → 1 < c._refs) →
      ∃ c', Map.find a s'.heap = some c' ∧ c'._odi_tokens = c._odi_tokens ∧ c'.size = c.size := by
  unfold AsChain.dec_ref at h
  cases hq : Map.find q s.heap with
  | none => simp [hq] at h
  | some cq =>
    simp only [hq] at h
    by_cases h1 : AsChain.pre_decrement cq._refs < 0
    · simp [h1] at h
    · by_cases h2 : AsChain.pre_decrement cq._refs = 0
      · simp [h2] at h
        subst h
        refine ⟨rfl, ?_⟩
        intro a c ha hrefs
        by_cases haq : q = a
        · subst haq
          rw [hq] at ha
          cases ha
          have := hrefs rfl
          rw [AsChain.pre_decrement_of_pos (by omega)] at h2
          omega
        · exact ⟨c, by simp [Map.find_erase_ne _ haq, ha], rfl, rfl⟩
      · simp only [h1, h2, if_false, Except.ok.injEq] at h
        subst h
        refine ⟨rfl, ?_⟩
        intro a c ha _
        by_cases haq : q = a
        · subst haq
          rw [hq] at ha
          cases ha
          exact ⟨_, Map.find_assign_self _ _ _, rfl, rfl⟩
        · exact ⟨c, by simp [Map.find_assign_ne _ _ haq, ha], rfl, rfl⟩

/-- The state the constructor of `AsChain` leaves: the new chain, with the tokens
drawn, at `addr`, and the map after the assignments of `register_`. -/
theorem ctor_eq (crt : Nat → Nat → String) (s : State) (addr : Nat) (sc : SessionCase)
    (su : String) (reg : Bool) (trail : Nat) (ifcs : List Ifc) :
    AsChain.ctor crt s addr sc su reg trail ifcs =
      .ok { heap :=
              Map.assign addr
                { _refs := 2, _odi_tokens := (List.range ifcs.length).map (crt TOKEN_LENGTH),
                  _session_case := sc, _served_user := su, _is_registered := reg,
                  _trail := trail, _ifcs := ifcs }
                (Map.assign addr
                  { _refs := 2, _odi_tokens := [], _session_case := sc, _served_user := su,
                    _is_registered := reg, _trail := trail, _ifcs := ifcs } s.heap),
            _t2c_map :=
              ((List.range ifcs.length).foldl (register_step crt addr) ([], s._t2c_map)).2 } := by
  unfold AsChain.ctor
  simp only []
  rw [register__eq crt [] (Map.find_assign_self addr _ s.heap)]
  simp [AsChain.size]

/-- The constructor always returns and leaves the new chain live at `addr` with two
references, the criteria it was given and one token per step. -/
theorem ctor_one_token_per_step (crt : Nat → Nat → String) (s : State) (addr : Nat)
    (sc : SessionCase) (su : String) (reg : Bool) (trail : Nat) (ifcs : List Ifc) :
    ∃ (s1 : State) (c : AsChain),
      AsChain.ctor crt s addr sc su reg trail ifcs = .ok s1 ∧
      Map.find addr s1.heap = some c ∧ c._refs = 2 ∧ c._ifcs = ifcs ∧
      c._odi_tokens.length = c.size := by
  refine ⟨_, _, ctor_eq crt s addr sc su reg trail ifcs, Map.find_assign_self _ _ _, rfl, rfl, ?_⟩
  simp [AsChain.size]

/-- A chain that is live after `inc_ref` was live before, with the same tokens and
criteria. -/
theorem inc_ref_back {s s' : State} {q : Nat} (h : AsChain.inc_ref s q = .ok s')
    {a : Nat} {c' : AsChain} (ha : Map.find a s'.heap = some c') :
    ∃ c, Map.find a s.heap = some c ∧ c'._odi_tokens = c._odi_tokens ∧ c'._ifcs = c._ifcs := by
  unfold AsChain.inc_ref at h
  cases hq : Map.find q s.heap with
  | none => simp [hq] at h
  | some cq =>
    simp only [hq, Except.ok.injEq] at h
    subst h
    simp only [Map.find_assign] at ha
    by_cases haq : q = a
    · subst haq
      simp only [if_true, Option.some.injEq] at ha
      subst ha
      exact ⟨cq, hq, rfl, rfl⟩
    · simp only [haq, if_false] at ha
      exact ⟨c', ha, rfl, rfl⟩

/-- A chain that is live after `dec_ref` was live before, with the same tokens and
criteria. -/
theorem dec_ref_back {s s' : State} {q : Nat} (h : AsChain.dec_ref s q = .ok s')
    {a : Nat} {c' : AsChain} (ha : Map.find a s'.heap = some c') :
    ∃ c, Map.find a s.heap = some c ∧ c'._odi_tokens = c._odi_tokens ∧ c'._ifcs = c._ifcs := by
  unfold AsChain.dec_ref at h
  cases hq : Map.find q s.heap with
  | none => simp [hq] at h
  | some cq =>
    simp only [hq] at h
    by_cases h1 : AsChain.pre_decrement cq._refs < 0
    · simp [h1] at h
    · by_cases h2 : AsChain.pre_decrement cq._refs = 0
      · simp [h2] at h
        subst h
        simp only [Map.find_erase] at ha
        by_cases haq : q = a
        · simp [haq] at ha
        · simp only [haq, if_false] at ha
          exact ⟨c', ha, rfl, rfl⟩
      · simp only [h1, h2, if_false, Except.ok.injEq] at h
        subst h
        simp only [Map.find_assign] at ha
        by_cases haq : q = a
        · subst haq
          simp only [if_true, Option.some.injEq] at ha
          subst ha
          exact ⟨cq, hq, rfl, rfl⟩
        · simp only [haq, if_false] at ha
          exact ⟨c', ha, rfl, rfl⟩

/-- In every reachable state every live chain has one token per step. -/
theorem reachable_one_token_per_step {s : State} (hr : Reachable s) :
    ∀ p c, Map.find p s.heap = some c → c._odi_tokens.length = c.size := by
  induction hr with
  | init => intro p c h; simp [Map.find] at h
  | @create s s' crt addr sc su reg trail ifcs l _ _ hc ih =>
    intro p c hp
    unfold AsChainLink.create_as_chain at hc
    rw [ctor_eq] at hc
    simp only [Except.ok.injEq, Prod.mk.injEq] at hc
    rw [← hc.2] at hp
    simp only [Map.find_assign] at hp
    by_cases hap : addr = p
    · simp only [hap, if_true, Option.some.injEq] at hp
      subst hp
      simp [AsChain.size]
    · simp only [hap, if_false] at hp
      exact ih p c hp
  | @lookup s s' token l _ hl ih =>
    intro p c hp
    unfold lookup at hl
    cases hf : Map.find token s._t2c_map with
    | none =>
      simp only [hf, Except.ok.injEq, Prod.mk.injEq] at hl
      rw [← hl.2] at hp
      exact ih p c hp
    | some link =>
      simp only [hf] at hl
      cases hq : link._as_chain with
      | none => simp [hq] at hl
      | some q =>
        simp only [hq] at hl
        cases hi : AsChain.inc_ref s q with
        | error f => simp [hi] at hl
        | ok s2 =>
          simp only [hi, Except.ok.injEq, Prod.mk.injEq] at hl
          rw [← hl.2] at hp
          obtain ⟨c0, hc0, ht, hifc⟩ := inc_ref_back hi hp
          have := ih p c0 hc0
          simp only [AsChain.size] at this ⊢
          rw [ht, hifc]; exact this
  | @duplicate s s' l l' _ hd ih =>
    intro p c hp
    unfold AsChainLink.duplicate at hd
    cases hq : l._as_chain with
    | none =>
      simp only [hq, Except.ok.injEq, Prod.mk.injEq] at hd
      rw [← hd.2] at hp
      exact ih p c hp
    | some q =>
      simp only [hq] at hd
      cases hi : AsChain.inc_ref s q with
      | error f => simp [hi] at hd
      | ok s2 =>
        simp only [hi, Except.ok.injEq, Prod.mk.injEq] at hd
        rw [← hd.2] at hp
        obtain ⟨c0, hc0, ht, hifc⟩ := inc_ref_back hi hp
        have := ih p c0 hc0
        simp only [AsChain.size] at this ⊢
        rw [ht, hifc]; exact this
  | @release s s' l _ hrel ih =>
    intro p c hp
    unfold AsChainLink.release at hrel
    cases hq : l._as_chain with
    | none =>
      simp only [hq, Except.ok.injEq] at hrel
      rw [← hrel] at hp
      exact ih p c hp
    | some q =>
      simp only [hq] at hrel
      obtain ⟨c0, hc0, ht, hifc⟩ := dec_ref_back hrel hp
      have := ih p c0 hc0
      simp only [AsChain.size] at this ⊢
      rw [ht, hifc]; exact this
  | @request_destroy s s' q _ hrd ih =>
    intro p c hp
    unfold AsChain.request_destroy at hrd
    cases hq : Map.find q s.heap with
    | none => simp [hq] at hrd
    | some cq =>
      simp only [hq] at hrd
      obtain ⟨c0, hc0, ht, hifc⟩ := dec_ref_back hrd hp
      have hc0' : Map.find p s.heap = some c0 := hc0
      have := ih p c0 hc0'
      simp only [AsChain.size] at this ⊢
      rw [ht, hifc]; exact this

/-- The constructor registers the chain when the tokens drawn are pairwise
distinct. -/
theorem registered_of_ctor {crt : Nat → Nat → String} {s s1 : State} {addr : Nat}
    {sc : SessionCase} {su : String} {reg : Bool} {trail : Nat} {ifcs : List Ifc}
    (h : AsChain.ctor crt s addr sc su reg trail ifcs = .ok s1)
    (h_distinct : ∀ i j, i < ifcs.length → j < ifcs.length →
      crt TOKEN_LENGTH i = crt TOKEN_LENGTH j → i = j) :
    Registered addr ((List.range ifcs.length).map (crt TOKEN_LENGTH)) s1 := by
  rw [ctor_eq] at h
  simp only [Except.ok.injEq] at h
  subst h
  refine ⟨⟨_, Map.find_assign_self _ _ _, rfl, by simp [AsChain.size]⟩, ?_⟩
  intro i token hi
  have hlt : i < ifcs.length := by
    have := (List.getElem?_eq_some_iff.mp hi).1
    simpa using this
  have htok : token = crt TOKEN_LENGTH i := by
    have := (List.getElem?_eq_some_iff.mp hi).2
    simpa using this.symm
  subst htok
  exact register_fold_find_token crt addr ifcs.length [] s._t2c_map i hlt
    (fun j hj e => h_distinct j i hj hlt e)

/-- Registration survives every operation that leaves the chain undisturbed. -/
theorem registered_of_undisturbed {addr : Nat} {tokens : List String} {s0 s : State}
    (hu : Undisturbed addr tokens s0 s) (h0 : Registered addr tokens s0) :
    Registered addr tokens s := by
  induction hu with
  | start => exact h0
  | @lookup s s' token l _ hl ih =>
    unfold lookup at hl
    cases hf : Map.find token s._t2c_map with
    | none =>
      simp only [hf, Except.ok.injEq, Prod.mk.injEq] at hl
      rw [← hl.2]
      exact ih
    | some link =>
      simp only [hf] at hl
      cases hp : link._as_chain with
      | none => simp [hp] at hl
      | some q =>
        simp only [hp] at hl
        cases hi : AsChain.inc_ref s q with
        | error f => simp [hi] at hl
        | ok s2 =>
          simp only [hi, Except.ok.injEq, Prod.mk.injEq] at hl
          rw [← hl.2]
          obtain ⟨hmap, hheap⟩ := inc_ref_frame hi
          obtain ⟨⟨c, hc, htoks, hsize⟩, hT⟩ := ih
          obtain ⟨c', hc', ht', hs'⟩ := hheap addr c hc
          exact ⟨⟨c', hc', ht'.trans htoks, hs'.trans hsize⟩, by rw [hmap]; exact hT⟩
  | @duplicate s s' l l' _ hd ih =>
    unfold AsChainLink.duplicate at hd
    cases hp : l._as_chain with
    | none =>
      simp only [hp, Except.ok.injEq, Prod.mk.injEq] at hd
      rw [← hd.2]
      exact ih
    | some q =>
      simp only [hp] at hd
      cases hi : AsChain.inc_ref s q with
      | error f => simp [hi] at hd
      | ok s2 =>
        simp only [hi, Except.ok.injEq, Prod.mk.injEq] at hd
        rw [← hd.2]
        obtain ⟨hmap, hheap⟩ := inc_ref_frame hi
        obtain ⟨⟨c, hc, htoks, hsize⟩, hT⟩ := ih
        obtain ⟨c', hc', ht', hs'⟩ := hheap addr c hc
        exact ⟨⟨c', hc', ht'.trans htoks, hs'.trans hsize⟩, by rw [hmap]; exact hT⟩
  | @release s s' l _ hrefs hr ih =>
    unfold AsChainLink.release at hr
    cases hp : l._as_chain with
    | none =>
      simp only [hp, Except.ok.injEq] at hr
      rw [← hr]
      exact ih
    | some q =>
      simp only [hp] at hr
      obtain ⟨hmap, hheap⟩ := dec_ref_frame hr
      obtain ⟨⟨c, hc, htoks, hsize⟩, hT⟩ := ih
      obtain ⟨c', hc', ht', hs'⟩ := hheap addr c hc (fun e => hrefs c (by rw [hp, e]) hc)
      exact ⟨⟨c', hc', ht'.trans htoks, hs'.trans hsize⟩, by rw [hmap]; exact hT⟩
  | @create s s' crt addr' sc su reg trail ifcs l _ hne hfresh hc ih =>
    unfold AsChainLink.create_as_chain at hc
    rw [ctor_eq] at hc
    simp only [Except.ok.injEq, Prod.mk.injEq] at hc
    rw [← hc.2]
    obtain ⟨⟨c, hc1, htoks, hsize⟩, hT⟩ := ih
    refine ⟨⟨c, ?_, htoks, hsize⟩, ?_⟩
    · simp [Map.find_assign_ne _ _ hne, hc1]
    · intro i token hi
      have hmem : token ∈ tokens := List.mem_iff_getElem?.mpr ⟨i, hi⟩
      show Map.find token
        ((List.range ifcs.length).foldl (register_step crt addr') ([], s._t2c_map)).2 = _
      rw [register_fold_find_fresh crt addr' ifcs.length [] s._t2c_map token
        (fun j hj e => hfresh j hj (e ▸ hmem))]
      exact hT i token hi
  | @request_destroy s s' p c _ hne hlive hdisj hrd ih =>
    unfold AsChain.request_destroy at hrd
    simp only [hlive] at hrd
    obtain ⟨hmap, hheap⟩ := dec_ref_frame hrd
    obtain ⟨⟨c0, hc0, htoks, hsize⟩, hT⟩ := ih
    have hc0' : Map.find addr (unregister s c._odi_tokens).heap = some c0 := hc0
    obtain ⟨c', hc', ht', hs'⟩ := hheap addr c0 hc0' (fun e => absurd e.symm hne)
    refine ⟨⟨c', hc', ht'.trans htoks, hs'.trans hsize⟩, ?_⟩
    intro i token hi
    have hmem : token ∈ tokens := List.mem_iff_getElem?.mpr ⟨i, hi⟩
    have hnot : token ∉ c._odi_tokens := fun hin => hdisj token hin hmem
    rw [hmap]
    simp only [unregister, Map.find_foldl_erase, hnot, if_false]
    exact hT i token hi

/-- For a registered chain, `lookup` of the token of step `i` returns the link at
index `i + 1`, increments the chain's count and changes nothing else. -/
theorem lookup_of_registered {addr : Nat} {tokens : List String} {s : State}
    (h : Registered addr tokens s) {i : Nat} {token : String} (hi : tokens[i]? = some token) :
    ∃ c, Map.find addr s.heap = some c ∧ c._odi_tokens = tokens ∧ c.size = tokens.length ∧
      lookup s token =
        .ok (AsChainLink.mk2 (some addr) (i + 1),
             { heap := Map.assign addr { c with _refs := AsChain.pre_increment c._refs } s.heap,
               _t2c_map := s._t2c_map }) := by
  obtain ⟨⟨c, hc, htoks, hsize⟩, hT⟩ := h
  refine ⟨c, hc, htoks, hsize, ?_⟩
  simp [lookup, hT i token hi, AsChainLink.mk2, AsChain.inc_ref, hc]

/-- C7 as the code has it: `create_as_chain` with criteria `ifcs` and pairwise
distinct generated tokens returns the link at index 0 of the new chain at `addr`;
then, in every state reached by operations that leave this chain undisturbed (no
unregistration or freeing of it, no other chain created or destroyed with one of
its tokens), for every step `i` below the size of the chain, `lookup` of the
token generated for step `i` returns the bound link over the chain at `addr` at
index `i + 1`; the state it leaves has the same token map, the chain at `addr`
with its reference count incremented as an `int` is, that is increased by
exactly one when it was not INT_MAX and wrapped to INT_MIN when it was, and every
other chain as before. -/
theorem lookup_registered_token (crt : Nat → Nat → String) (s0 : State) (addr : Nat)
    (sc : SessionCase) (su : String) (reg : Bool) (trail : Nat) (ifcs : List Ifc)
    (h_distinct : ∀ i j, i < ifcs.length → j < ifcs.length →
      crt TOKEN_LENGTH i = crt TOKEN_LENGTH j → i = j) :
    ∃ s1 : State,
      AsChainLink.create_as_chain crt s0 addr sc su reg trail ifcs =
        .ok (AsChainLink.mk2 (some addr) 0, s1) ∧
      ∀ s2 : State, Undisturbed addr ((List.range ifcs.length).map (crt TOKEN_LENGTH)) s1 s2 →
        ∀ i, i < ifcs.length →
          ∃ (c : AsChain) (s3 : State),
            Map.find addr s2.heap = some c ∧ c.size = ifcs.length ∧
            c._odi_tokens[i]? = some (crt TOKEN_LENGTH i) ∧
            lookup s2 (crt TOKEN_LENGTH i) = .ok (AsChainLink.mk2 (some addr) (i + 1), s3) ∧
            AsChainLink.is_set (AsChainLink.mk2 (some addr) (i + 1)) = true ∧
            s3._t2c_map = s2._t2c_map ∧
            (c._refs ≠ AsChain.INT_MAX →
              Map.find addr s3.heap = some { c with _refs := c._refs + 1 }) ∧
            (c._refs = AsChain.INT_MAX →
              Map.find addr s3.heap = some { c with _refs := AsChain.INT_MIN }) ∧
            ∀ q, q ≠ addr → Map.find q s3.heap = Map.find q s2.heap := by
  cases hctor : AsChain.ctor crt s0 addr sc su reg trail ifcs with
  | error f => rw [ctor_eq] at hctor; cases hctor
  | ok s1 =>
    refine ⟨s1, by simp [AsChainLink.create_as_chain, hctor], ?_⟩
    intro s2 hu i hi
    have hreg := registered_of_undisturbed hu (registered_of_ctor hctor h_distinct)
    have hget : ((List.range ifcs.length).map (crt TOKEN_LENGTH))[i]? =
        some (crt TOKEN_LENGTH i) := by
      simp [List.getElem?_map, List.getElem?_range hi]
    obtain ⟨c, hc, htoks, hsize, hl⟩ := lookup_of_registered hreg hget
    refine ⟨c, _, hc, by simpa using hsize, by rw [htoks]; exact hget, hl, rfl, rfl,
      ?_, ?_, ?_⟩
    · intro hne
      rw [← AsChain.pre_increment_of_ne hne]
      exact Map.find_assign_self _ _ _
    · intro he
      rw [← AsChain.pre_increment_max, ← he]
      exact Map.find_assign_self _ _ _
    · intro q hq
      exact Map.find_assign_ne _ _ (fun e => hq e.symm)

/-- C7 exercised: a two-step chain is created at address `2` in the demo state with
the tokens `EEEEEEEEEE` and `FFFFFFFFFF`; after a lookup of the first token, the
lookup of the second returns the link at index 2 of the chain at address `2`. -/
theorem lookup_registered_token_witness :
    (∀ i j, i < [Demo.ifc_ext, Demo.ifc_skip].length → j < [Demo.ifc_ext, Demo.ifc_skip].length →
      Demo.fair_generator TOKEN_LENGTH i = Demo.fair_generator TOKEN_LENGTH j → i = j) ∧
    ∃ s1 s2 s3 : State,
      AsChainLink.create_as_chain Demo.fair_generator Demo.state 2 .Terminating
        "sip:bob@example.com" true 8 [Demo.ifc_ext, Demo.ifc_skip] =
          .ok (AsChainLink.mk2 (some 2) 0, s1) ∧
      lookup s1 "EEEEEEEEEE" = .ok (AsChainLink.mk2 (some 2) 1, s2) ∧
      lookup s2 (Demo.fair_generator TOKEN_LENGTH 1) = .ok (AsChainLink.mk2 (some 2) 2, s3) ∧
      s3._t2c_map = s2._t2c_map :=
  have hd : ∀ i j, i < [Demo.ifc_ext, Demo.ifc_skip].length →
      j < [Demo.ifc_ext, Demo.ifc_skip].length →
      Demo.fair_generator TOKEN_LENGTH i = Demo.fair_generator TOKEN_LENGTH j → i = j := by
    intro i j hi hj
    simp only [List.length_cons, List.length_nil] at hi hj
    interval_cases i <;> interval_cases j <;> simp [Demo.fair_generator]
  ⟨hd,
   match lookup_registered_token Demo.fair_generator Demo.state 2 .Terminating
       "sip:bob@example.com" true 8 [Demo.ifc_ext, Demo.ifc_skip] hd with
   | ⟨s1, h1, h2⟩ =>
     match h2 s1 Undisturbed.start 0 (by decide) with
     | ⟨_, s2, _, _, _, hl0, _, _, _, _, _⟩ =>
       match h2 s2 (Undisturbed.lookup Undisturbed.start hl0) 1 (by decide) with
       | ⟨_, s3, _, _, _, hl1, _, hm, _, _, _⟩ => ⟨s1, s2, s3, h1, hl0, hl1, hm⟩⟩

end AsChainTable

/-! ## Creation and ownership -/

namespace AsChainLink

open AsChainTable

/-- Every token drawn by `register_` is a key afterwards and maps to a link over
the chain being registered, at the index after a step for which it was drawn. -/
theorem register_fold_find_drawn (crt : Nat → Nat → String) (p n : Nat) (tokens : List String)
    (m : List (String × AsChainLink)) (i : Nat) (hi : i < n) :
    ∃ j, j < n ∧ crt TOKEN_LENGTH j = crt TOKEN_LENGTH i ∧
      Map.find (crt TOKEN_LENGTH i) ((List.range n).foldl (register_step crt p) (tokens, m)).2 =
        some (mk2 (some p) (j + 1)) := by
  induction n with
  | zero => omega
  | succ n ih =>
    rw [register_fold_find_succ]
    by_cases hn : crt TOKEN_LENGTH n = crt TOKEN_LENGTH i
    · exact ⟨n, Nat.lt_succ_self n, hn, by simp [hn]⟩
    · have hin : i < n := by
        have : i ≠ n := fun e => hn (by rw [e])
        omega
      obtain ⟨j, hj, hje, hf⟩ := ih hin
      exact ⟨j, Nat.lt_succ_of_lt hj, hje, by simp only [hn, if_false]; exact hf⟩

/-- C11: for every criteria list `ifcs`, of any length, `create_as_chain` returns
the bound link at index 0 over the chain it places at `addr`.  That chain has
reference count exactly 2 whatever the number of tokens, size `ifcs.length`, and
a token list of that same length holding the tokens drawn, in order.  Every one
of these tokens is a key of the map afterwards and maps to a link over this
chain; keys that were not drawn keep their mapping and other chains are as
before; when the tokens drawn are pairwise distinct the list has no duplicate and
the token of step `i` maps to index `i + 1`. -/
theorem create_as_chain_two_references (crt : Nat → Nat → String) (s : State) (addr : Nat)
    (sc : SessionCase) (su : String) (reg : Bool) (trail : Nat) (ifcs : List Ifc) :
    ∃ (s1 : State) (c : AsChain),
      create_as_chain crt s addr sc su reg trail ifcs = .ok (mk2 (some addr) 0, s1) ∧
      is_set (mk2 (some addr) 0) = true ∧ (mk2 (some addr) 0)._index = 0 ∧
      Map.find addr s1.heap = some c ∧ c._refs = 2 ∧ c.size = ifcs.length ∧
      c._odi_tokens = (List.range ifcs.length).map (crt TOKEN_LENGTH) ∧
      c._odi_tokens.length = ifcs.length ∧
      (∀ i, i < ifcs.length → ∃ j, j < ifcs.length ∧
        crt TOKEN_LENGTH j = crt TOKEN_LENGTH i ∧
        Map.find (crt TOKEN_LENGTH i) s1._t2c_map = some (mk2 (some addr) (j + 1))) ∧
      (∀ k, k ∉ c._odi_tokens → Map.find k s1._t2c_map = Map.find k s._t2c_map) ∧
      (∀ q, q ≠ addr → Map.find q s1.heap = Map.find q s.heap) ∧
      ((∀ i j, i < ifcs.length → j < ifcs.length →
          crt TOKEN_LENGTH i = crt TOKEN_LENGTH j → i = j) →
        c._odi_tokens.Nodup ∧
        ∀ i, i < ifcs.length →
          Map.find (crt TOKEN_LENGTH i) s1._t2c_map = some (mk2 (some addr) (i + 1))) := by
  refine ⟨{ heap :=
              Map.assign addr
                { _refs := 2, _odi_tokens := (List.range ifcs.length).map (crt TOKEN_LENGTH),
                  _session_case := sc, _served_user := su, _is_registered := reg,
                  _trail := trail, _ifcs := ifcs }
                (Map.assign addr
                  { _refs := 2, _odi_tokens := [], _session_case := sc, _served_user := su,
                    _is_registered := reg, _trail := trail, _ifcs := ifcs } s.heap),
            _t2c_map :=
              ((List.range ifcs.length).foldl (register_step crt addr) ([], s._t2c_map)).2 },
    { _refs := 2, _odi_tokens := (List.range ifcs.length).map (crt TOKEN_LENGTH),
      _session_case := sc, _served_user := su, _is_registered := reg,
      _trail := trail, _ifcs := ifcs },
    by simp [create_as_chain, ctor_eq], rfl, rfl, Map.find_assign_self _ _ _, rfl,
    rfl, rfl, by simp, ?_, ?_, ?_, ?_⟩
  · intro i hi
    exact register_fold_find_drawn crt addr ifcs.length [] s._t2c_map i hi
  · intro k hk
    refine register_fold_find_fresh crt addr ifcs.length [] s._t2c_map k ?_
    intro i hi e
    exact hk (List.mem_map.mpr ⟨i, List.mem_range.mpr hi, e⟩)
  · intro q hq
    have hne : addr ≠ q := fun e => hq e.symm
    simp [Map.find_assign_ne _ _ hne]
  · intro hd
    refine ⟨nodup_generated crt ifcs.length hd, ?_⟩
    intro i hi
    exact register_fold_find_token crt addr ifcs.length [] s._t2c_map i hi
      (fun j hj e => hd j i hj hi e)

/-- Assigning the value a key already has changes nothing. -/
theorem assign_of_find {κ α : Type} [DecidableEq κ] {k : κ} {v : α} {m : List (κ × α)}
    (h : Map.find k m = some v) : Map.assign k v m = m := by
  induction m with
  | nil => simp [Map.find] at h
  | cons kv m ih =>
    obtain ⟨k', v'⟩ := kv
    by_cases hk : k' = k
    · subst hk
      simp only [Map.find, if_true, Option.some.injEq] at h
      simp [Map.assign, h]
    · simp only [Map.find, hk, if_false] at h
      simp [Map.assign, hk, ih h]

/-- Of two assignments to one key the later one counts. -/
theorem assign_assign {κ α : Type} [DecidableEq κ] (k : κ) (v v' : α) (m : List (κ × α)) :
    Map.assign k v (Map.assign k v' m) = Map.assign k v m := by
  induction m with
  | nil => simp [Map.assign]
  | cons kv m ih =>
    obtain ⟨k', v₁⟩ := kv
    by_cases hk : k' = k
    · simp [Map.assign, hk]
    · simp [Map.assign, hk, ih]

/-- What `dec_ref` does to a live chain with a positive count: the chain is erased
when the count was 1 and keeps one reference less otherwise. -/
theorem dec_ref_eq {s : State} {p : Nat} {c : AsChain}
    (h_live : Map.find p s.heap = some c) (h_refs : 1 ≤ c._refs) :
    AsChain.dec_ref s p =
      .ok { s with heap :=
              if c._refs = 1 then Map.erase p s.heap
              else Map.assign p { c with _refs := c._refs - 1 } s.heap } := by
  have hpd : AsChain.pre_decrement c._refs = c._refs - 1 := AsChain.pre_decrement_of_pos h_refs
  have h1 : ¬ c._refs - 1 < 0 := by omega
  by_cases h2 : c._refs = 1
  · rw [h2] at hpd
    simp [AsChain.dec_ref, h_live, hpd, h2]
  · have h3 : ¬ c._refs - 1 = 0 := by omega
    simp [AsChain.dec_ref, h_live, hpd, h1, h2, h3]

/-- What `inc_ref` does to a live chain. -/
theorem inc_ref_eq {s : State} {p : Nat} {c : AsChain}
    (h_live : Map.find p s.heap = some c) :
    AsChain.inc_ref s p =
      .ok { s with heap :=
              Map.assign p { c with _refs := AsChain.pre_increment c._refs } s.heap } := by
  simp [AsChain.inc_ref, h_live]

/-- C14: for every link that is not complete, `next` returns the link built by the
constructor from the same chain pointer and the index plus one.  It is a read of
the argument link and of the size of the chain: the heap with every reference
count, the token map and the argument are inputs only and stay as they are. -/
theorem next_advances (s : State) (l : AsChainLink) (h : complete s l = .ok false) :
    ∃ l' : AsChainLink,
      next s l = .ok l' ∧ l'._as_chain = l._as_chain ∧ l'._index = l._index + 1 ∧
      is_set l' = true ∧ l' = mk2 l._as_chain (l._index + 1) := by
  refine ⟨mk2 l._as_chain (l._index + 1), by simp [next, h], rfl, rfl, ?_, rfl⟩
  cases hc : l._as_chain with
  | none => simp [complete, hc] at h
  | some p => simp [is_set, mk2]

/-- C14 exercised on the link at index 1 of the demo chain. -/
theorem next_advances_witness :
    complete Demo.state (mk2 (some 1) 1) = .ok false ∧
    ∃ l' : AsChainLink,
      next Demo.state (mk2 (some 1) 1) = .ok l' ∧ l'._as_chain = some 1 ∧ l'._index = 2 :=
  ⟨rfl,
   match next_advances Demo.state (mk2 (some 1) 1) rfl with
   | ⟨l', h1, h2, h3, _, _⟩ => ⟨l', h1, h2, h3⟩⟩

/-- A decrement gives back the state before an increment of a positive count, also
when the increment wrapped. -/
theorem dec_ref_after_inc_ref {s : State} {p : Nat} {c : AsChain}
    (hc : Map.find p s.heap = some c) (hrefs : 1 ≤ c._refs) :
    AsChain.dec_ref
      { s with heap := Map.assign p { c with _refs := AsChain.pre_increment c._refs } s.heap } p =
        .ok s := by
  have hpd := AsChain.pre_decrement_pre_increment hrefs
  have h1 : ¬ c._refs < 0 := by omega
  have h2 : ¬ c._refs = 0 := by omega
  have hback : ({ c with _refs := c._refs } : AsChain) = c := by
    cases c
    rfl
  have hs : ({ s with heap := s.heap } : State) = s := by
    cases s
    rfl
  unfold AsChain.dec_ref
  simp only [Map.find_assign_self, hpd, h1, h2, if_false, assign_assign]
  rw [hback, assign_of_find hc, hs]

/-- C15 as the code has it: `duplicate` on a link bound to a live chain returns the
link itself (same chain, same index) and a state in which that chain's count is
incremented as an `int` is, that is exactly one higher when it was not INT_MAX
and wrapped to INT_MIN when it was, the token map and every other chain being as
before; on an unbound link it returns the unbound link and the state unchanged.
When the count was at least 1, releasing the duplicate afterwards gives back the
state before the duplication, so the count is restored. -/
theorem duplicate_effect (s : State) (l : AsChainLink) :
    (l._as_chain = none → duplicate s l = .ok (l, s) ∧ is_set l = false) ∧
    (∀ p c, l._as_chain = some p → Map.find p s.heap = some c →
      ∃ s' : State,
        duplicate s l = .ok (l, s') ∧
        (c._refs ≠ AsChain.INT_MAX →
          Map.find p s'.heap = some { c with _refs := c._refs + 1 }) ∧
        (c._refs = AsChain.INT_MAX →
          Map.find p s'.heap = some { c with _refs := AsChain.INT_MIN }) ∧
        s'._t2c_map = s._t2c_map ∧
        (∀ q, q ≠ p → Map.find q s'.heap = Map.find q s.heap) ∧
        (1 ≤ c._refs → release s' l = .ok s)) := by
  refine ⟨?_, ?_⟩
  · intro h
    simp [duplicate, h, is_set]
  · intro p c hp hc
    refine ⟨{ s with heap :=
                Map.assign p { c with _refs := AsChain.pre_increment c._refs } s.heap },
      by simp only [duplicate, hp, inc_ref_eq hc], ?_, ?_, rfl, ?_, ?_⟩
    · intro hne
      rw [← AsChain.pre_increment_of_ne hne]
      exact Map.find_assign_self _ _ _
    · intro he
      rw [← AsChain.pre_increment_max, ← he]
      exact Map.find_assign_self _ _ _
    · intro q hq
      have hne : p ≠ q := fun e => hq e.symm
      simp [Map.find_assign_ne _ _ hne]
    · intro hrefs
      simp only [release, hp]
      exact dec_ref_after_inc_ref hc hrefs

/-- C16: `release` on an unbound link returns the state it was given.  On a link
bound to a live chain with count at least 1 it returns a state with the same token
map and the same other chains, in which the chain is destroyed exactly when its
count was 1 and otherwise stays live with its count decreased by exactly one.
The link is an input only. -/
theorem release_effect (s : State) (l : AsChainLink) :
    (l._as_chain = none → release s l = .ok s) ∧
    (∀ p c, l._as_chain = some p → Map.find p s.heap = some c → 1 ≤ c._refs →
      ∃ s' : State,
        release s l = .ok s' ∧
        s'._t2c_map = s._t2c_map ∧
        (Map.find p s'.heap = none ↔ c._refs = 1) ∧
        (c._refs ≠ 1 → Map.find p s'.heap = some { c with _refs := c._refs - 1 }) ∧
        ∀ q, q ≠ p → Map.find q s'.heap = Map.find q s.heap) := by
  refine ⟨?_, ?_⟩
  · intro h
    simp [release, h]
  · intro p c hp hc hrefs
    refine ⟨{ s with heap :=
                if c._refs = 1 then Map.erase p s.heap
                else Map.assign p { c with _refs := c._refs - 1 } s.heap },
      by simp only [release, hp]; exact dec_ref_eq hc hrefs, rfl, ?_, ?_, ?_⟩
    · by_cases h1 : c._refs = 1
      · simp [h1, Map.find_erase_self]
      · simp [h1, Map.find_assign_self]
    · intro h1
      simp [h1, Map.find_assign_self]
    · intro q hq
      have hne : p ≠ q := fun e => hq e.symm
      by_cases h1 : c._refs = 1
      · simp [h1, Map.find_erase_ne _ hne]
      · simp [h1, Map.find_assign_ne _ _ hne]

/-- C15 exercised: duplicating the link at index 1 of the demo chain gives count 3,
and releasing the duplicate gives the demo state back; the unbound link
duplicates to itself. -/
theorem duplicate_effect_witness :
    duplicate Demo.state AsChainLink.empty = .ok (AsChainLink.empty, Demo.state) ∧
    ∃ s' : State,
      duplicate Demo.state (mk2 (some 1) 1) = .ok (mk2 (some 1) 1, s') ∧
      Map.find 1 s'.heap = some { Demo.chain with _refs := 3 } ∧
      release s' (mk2 (some 1) 1) = .ok Demo.state :=
  ⟨((duplicate_effect Demo.state AsChainLink.empty).1 rfl).1,
   match (duplicate_effect Demo.state (mk2 (some 1) 1)).2 1 Demo.chain rfl rfl with
   | ⟨s', h1, h2, _, _, _, h6⟩ => ⟨s', h1, h2 (by decide), h6 (by decide)⟩⟩

/-- C16 exercised: releasing a link to the demo chain (count 2) leaves it live
with count 1; releasing the unbound link does nothing. -/
theorem release_effect_witness :
    release Demo.state AsChainLink.empty = .ok Demo.state ∧
    ∃ s' : State,
      release Demo.state (mk2 (some 1) 1) = .ok s' ∧
      s'._t2c_map = Demo.state._t2c_map ∧
      Map.find 1 s'.heap = some { Demo.chain with _refs := 1 } :=
  ⟨(release_effect Demo.state AsChainLink.empty).1 rfl,
   match (release_effect Demo.state (mk2 (some 1) 1)).2 1 Demo.chain rfl rfl (by decide) with
   | ⟨s', h1, h2, _, h4, _⟩ => ⟨s', h1, h2, h4 (by decide)⟩⟩

/-- C17 fails as stated for `duplicate`: the two demo links are bound to the same
chain at the same index and differ only in the stored default handling (true on
one, false on the other); their duplicates report different default handling,
each that of its source. -/
theorem duplicate_inherits_default_handling :
    Demo.link_continue._as_chain = Demo.link_reset._as_chain ∧
    Demo.link_continue._index = Demo.link_reset._index ∧
    ∃ (d1 d2 : AsChainLink) (s1 s2 : State),
      duplicate Demo.state Demo.link_continue = .ok (d1, s1) ∧
      duplicate Demo.state Demo.link_reset = .ok (d2, s2) ∧
      default_handling d1 = some true ∧ default_handling d2 = some false ∧
      default_handling d1 ≠ default_handling d2 :=
  ⟨rfl, rfl, _, _, _, _, rfl, rfl, rfl, rfl, by decide⟩

/-- C17 as the code has it: `duplicate` returns a copy of its source, so the
duplicate carries the default handling of the source, whether or not the source
is bound; `next` builds its result from the chain pointer and the index alone, so
on a link that is not complete it returns, and returns the same link whatever
default handling is stored on the source. -/
theorem derived_default_handling (s : State) (l : AsChainLink) :
    (∀ (d : AsChainLink) (s' : State), duplicate s l = .ok (d, s') →
      default_handling d = default_handling l) ∧
    (∀ p c, l._as_chain = some p → Map.find p s.heap = some c →
      ∃ s' : State, duplicate s l = .ok (l, s')) ∧
    (l._as_chain = none → duplicate s l = .ok (l, s)) ∧
    (complete s l = .ok false →
      ∀ flag : Option Bool,
        next s { l with _default_handling := flag } = .ok (mk2 l._as_chain (l._index + 1))) := by
  refine ⟨?_, ?_, ?_, ?_⟩
  · intro d s' h
    unfold duplicate at h
    cases hp : l._as_chain with
    | none =>
      simp only [hp, Except.ok.injEq, Prod.mk.injEq] at h
      rw [← h.1]
    | some p =>
      simp only [hp] at h
      cases hi : AsChain.inc_ref s p with
      | error f => simp [hi] at h
      | ok s2 =>
        simp only [hi, Except.ok.injEq, Prod.mk.injEq] at h
        rw [← h.1]
  · intro p c hp hc
    exact ⟨{ s with heap :=
               Map.assign p { c with _refs := AsChain.pre_increment c._refs } s.heap },
      by simp only [duplicate, hp, inc_ref_eq hc]⟩
  · intro h
    simp [duplicate, h]
  · intro h flag
    have h' : complete s { l with _default_handling := flag } = .ok false := h
    simp [next, h']

end AsChainLink

/-! ## The reference count under the ownership rules -/

namespace Ownership

open AsChainLink AsChainTable

theorem freed_by_of_live {addr : Nat} {s s' : State} {c : AsChain}
    (h : Map.find addr s'.heap = some c) : freed_by addr s s' = 0 := by
  simp [freed_by, h]

theorem freed_by_of_freed {addr : Nat} {s s' : State} {c : AsChain}
    (h : Map.find addr s.heap = some c) (h' : Map.find addr s'.heap = none) :
    freed_by addr s s' = 1 := by
  simp [freed_by, h, h']

theorem freed_by_of_gone {addr : Nat} {s s' : State}
    (h : Map.find addr s.heap = none) : freed_by addr s s' = 0 := by
  simp [freed_by, h]

/-- Incrementing the count of a live chain returns a state with the same map in
which the count of the chain is incremented. -/
theorem inc_ref_spec {s : State} {p : Nat} {c : AsChain}
    (h_live : Map.find p s.heap = some c) :
    ∃ s' : State, AsChain.inc_ref s p = .ok s' ∧ s'._t2c_map = s._t2c_map ∧
      Map.find p s'.heap = some { c with _refs := AsChain.pre_increment c._refs } :=
  ⟨_, inc_ref_eq h_live, rfl, Map.find_assign_self _ _ _⟩

/-- Decrementing the positive count of a live chain returns a state with the same
map in which the chain is gone if the count was 1 and has one reference less
otherwise. -/
theorem dec_ref_spec {s : State} {p : Nat} {c : AsChain}
    (h_live : Map.find p s.heap = some c) (h_refs : 1 ≤ c._refs) :
    ∃ s' : State, AsChain.dec_ref s p = .ok s' ∧ s'._t2c_map = s._t2c_map ∧
      (c._refs = 1 → Map.find p s'.heap = none) ∧
      (c._refs ≠ 1 → Map.find p s'.heap = some { c with _refs := c._refs - 1 }) := by
  refine ⟨_, dec_ref_eq h_live h_refs, rfl, ?_, ?_⟩
  · intro h1
    simp [h1, Map.find_erase_self]
  · intro h1
    simp [h1, Map.find_assign_self]

/-- An allowed operation on an accounted state returns, and the state it leaves is
accounted for by the updated bookkeeping. -/
theorem accounted_step {addr : Nat} {tokens : List String} {o : Ownership} {s : State}
    (op : ChainOp) (hacc : Accounted addr tokens o s)
    (hallow : o.allows addr tokens op = true)
    (hfit : ∀ o' s', step addr o s op = .ok (o', s') → o'.count ≤ AsChain.INT_MAX) :
    ∃ (o' : Ownership) (s' : State),
      step addr o s op = .ok (o', s') ∧ Accounted addr tokens o' s' := by
  obtain ⟨hfree, hlive, hreg, hunreg, hfrees⟩ := hacc
  have hup : ∀ n, ({ o with owned := o.owned + 1, frees := n } : Ownership).count =
      o.count + 1 := by
    intro n
    simp only [count]; split <;> push_cast <;> omega
  cases op with
  | duplicate l =>
    simp only [allows, Bool.and_eq_true, decide_eq_true_eq] at hallow
    obtain ⟨hl, hown⟩ := hallow
    have hpos : 0 < o.count := by unfold count; split <;> omega
    have hcount : o.count ≠ 0 := by omega
    obtain ⟨c, hc, hrefs, htoks⟩ := hlive hcount
    obtain ⟨s', hs', hmap, hfind⟩ := inc_ref_spec hc
    have hstep : step addr o s (.duplicate l) =
        .ok ({ o with owned := o.owned + 1, frees := o.frees + freed_by addr s s' }, s') := by
      simp only [step, duplicate, hl, hs']
    have hle := hfit _ _ hstep
    rw [hup] at hle
    have hne : c._refs ≠ AsChain.INT_MAX := by omega
    rw [AsChain.pre_increment_of_ne hne] at hfind
    refine ⟨{ o with owned := o.owned + 1, frees := o.frees + freed_by addr s s' }, s', ?hs, ?ha⟩
    case hs =>
      exact hstep
    case ha =>
      have h1 : ¬ (o.count + 1 = 0) := by omega
      refine ⟨?_, ?_, ?_, ?_, ?_⟩
      · intro h0; rw [hup] at h0; exact absurd h0 h1
      · intro _
        exact ⟨_, hfind, by rw [hup]; show c._refs + 1 = _; omega, htoks⟩
      · rw [hmap]; exact hreg
      · rw [hmap]; exact hunreg
      · rw [hup]
        simp only [freed_by_of_live hfind, h1, if_false, hfrees, hcount]
  | lookup token =>
    simp only [allows, decide_eq_true_eq] at hallow
    cases hd : o.destroy_requested with
    | true =>
      have hnone := hunreg hd token hallow
      have hfb : freed_by addr s s = 0 := by
        unfold freed_by
        cases Map.find addr s.heap <;> simp
      refine ⟨{ o with owned := o.owned, frees := o.frees + freed_by addr s s }, s, ?hs, ?ha⟩
      case hs =>
        simp [step, lookup_of_find_none hnone, AsChainLink.empty, is_set]
      case ha =>
        simp only [hfb, Nat.add_zero]
        exact ⟨hfree, hlive, hreg, hunreg, hfrees⟩
    | false =>
      obtain ⟨lt, hfindt, hlt⟩ := hreg hd token hallow
      have hcnt : o.count = (o.owned : Int) + 1 := by
        unfold count; rw [hd]; simp
      have hpos : 0 < o.count := by omega
      have hcount : o.count ≠ 0 := by omega
      obtain ⟨c, hc, hrefs, htoks⟩ := hlive hcount
      obtain ⟨s', hs', hmap, hfind⟩ := inc_ref_spec hc
      have hstep : step addr o s (.lookup token) =
          .ok ({ o with owned := o.owned + 1, frees := o.frees + freed_by addr s s' }, s') := by
        simp [step, lookup, hfindt, hlt, hs', is_set]
      have hle := hfit _ _ hstep
      rw [hup] at hle
      have hne : c._refs ≠ AsChain.INT_MAX := by omega
      rw [AsChain.pre_increment_of_ne hne] at hfind
      refine ⟨{ o with owned := o.owned + 1, frees := o.frees + freed_by addr s s' }, s', ?hs, ?ha⟩
      case hs =>
        exact hstep
      case ha =>
        have h1 : ¬ (o.count + 1 = 0) := by omega
        refine ⟨?_, ?_, ?_, ?_, ?_⟩
        · intro h0; rw [hup] at h0; exact absurd h0 h1
        · intro _
          exact ⟨_, hfind, by rw [hup]; show c._refs + 1 = _; omega, htoks⟩
        · rw [hmap]; exact hreg
        · rw [hmap]; exact hunreg
        · rw [hup]
          simp only [freed_by_of_live hfind, h1, if_false, hfrees, hcount]
  | release l =>
    simp only [allows, Bool.and_eq_true, decide_eq_true_eq] at hallow
    obtain ⟨hl, hown⟩ := hallow
    have hpos : 1 ≤ o.count := by unfold count; split <;> omega
    have hcount : o.count ≠ 0 := by omega
    obtain ⟨c, hc, hrefs, htoks⟩ := hlive hcount
    have hrefs1 : 1 ≤ c._refs := by omega
    have hdown : ∀ n, ({ o with owned := o.owned - 1, frees := n } : Ownership).count =
        o.count - 1 := by
      intro n
      simp only [count]; split <;> push_cast [Nat.cast_sub hown] <;> omega
    obtain ⟨s', hs', hmap, hgone, hkept⟩ := dec_ref_spec hc hrefs1
    refine ⟨{ o with owned := o.owned - 1, frees := o.frees + freed_by addr s s' }, s', ?hs, ?ha⟩
    case hs =>
      simp only [step, release, hl, hs']
    case ha =>
      by_cases h1 : c._refs = 1
      · have hz : o.count - 1 = 0 := by omega
        refine ⟨fun _ => hgone h1, ?_, ?_, ?_, ?_⟩
        · intro h; rw [hdown] at h; exact absurd hz h
        · rw [hmap]; exact hreg
        · rw [hmap]; exact hunreg
        · rw [hdown]
          simp only [freed_by_of_freed hc (hgone h1), hz, if_true, hfrees, hcount, if_false]
      · have hnz : ¬ (o.count - 1 = 0) := by omega
        refine ⟨?_, ?_, ?_, ?_, ?_⟩
        · intro h; rw [hdown] at h; exact absurd h hnz
        · intro _
          exact ⟨_, hkept h1, by rw [hdown]; show c._refs - 1 = _; omega, htoks⟩
        · rw [hmap]; exact hreg
        · rw [hmap]; exact hunreg
        · rw [hdown]
          simp only [freed_by_of_live (hkept h1), hnz, if_false, hfrees, hcount]
  | request_destroy =>
    simp only [allows, Bool.not_eq_true'] at hallow
    have hcnt : o.count = (o.owned : Int) + 1 := by
      unfold count; rw [hallow]; simp
    have hcount : o.count ≠ 0 := by omega
    obtain ⟨c, hc, hrefs, htoks⟩ := hlive hcount
    have hrefs1 : 1 ≤ c._refs := by omega
    have hc' : Map.find addr (unregister s c._odi_tokens).heap = some c := hc
    have hdown : ∀ n, ({ o with destroy_requested := true, frees := n } : Ownership).count =
        o.count - 1 := by
      intro n
      simp [count, hallow]
    obtain ⟨s', hs', hmap, hgone, hkept⟩ := dec_ref_spec hc' hrefs1
    have hmap' : ∀ t, t ∈ tokens → Map.find t s'._t2c_map = none := by
      intro t ht
      rw [hmap]
      simp [unregister, Map.find_foldl_erase, htoks, ht]
    refine ⟨{ o with destroy_requested := true, frees := o.frees + freed_by addr s s' }, s',
      ?hs, ?ha⟩
    case hs =>
      simp only [step, AsChain.request_destroy, hc, hs']
    case ha =>
      by_cases h1 : c._refs = 1
      · have hz : o.count - 1 = 0 := by omega
        refine ⟨fun _ => hgone h1, ?_, ?_, fun _ => hmap', ?_⟩
        · intro h; rw [hdown] at h; exact absurd hz h
        · intro h; cases h
        · rw [hdown]
          simp only [freed_by_of_freed hc (hgone h1), hz, if_true, hfrees, hcount, if_false]
      · have hnz : ¬ (o.count - 1 = 0) := by omega
        refine ⟨?_, ?_, ?_, fun _ => hmap', ?_⟩
        · intro h; rw [hdown] at h; exact absurd h hnz
        · intro _
          exact ⟨_, hkept h1, by rw [hdown]; show c._refs - 1 = _; omega, htoks⟩
        · intro h; cases h
        · rw [hdown]
          simp only [freed_by_of_live (hkept h1), hnz, if_false, hfrees, hcount]

/-- A sequence within `int` starts with a count within `int`. -/
theorem within_int_head {addr : Nat} {o : Ownership} {s : State} {ops : List ChainOp}
    (h : within_int addr o s ops = true) : o.count ≤ AsChain.INT_MAX := by
  cases ops with
  | nil => simpa [within_int] using h
  | cons op ops =>
    simp only [within_int, Bool.and_eq_true, decide_eq_true_eq] at h
    exact h.1

/-- A sequence that follows the rules and stays within `int` runs to the end from an
accounted state, and every state on the way is accounted. -/
theorem accounted_run {addr : Nat} {tokens : List String} (ops more : List ChainOp) :
    ∀ (o : Ownership) (s : State), Accounted addr tokens o s →
      follows addr tokens o s (ops ++ more) = true →
      within_int addr o s ops = true →
      ∃ (o' : Ownership) (s' : State),
        run addr o s ops = .ok (o', s') ∧ Accounted addr tokens o' s' := by
  induction ops with
  | nil => intro o s hacc _ _; exact ⟨o, s, rfl, hacc⟩
  | cons op ops ih =>
    intro o s hacc hf hw
    simp only [List.cons_append, follows, Bool.and_eq_true] at hf
    obtain ⟨hallow, hrest⟩ := hf
    simp only [within_int, Bool.and_eq_true, decide_eq_true_eq] at hw
    obtain ⟨_, hwrest⟩ := hw
    have hfit : ∀ o' s', step addr o s op = .ok (o', s') → o'.count ≤ AsChain.INT_MAX := by
      intro o' s' hstep
      rw [hstep] at hwrest
      exact within_int_head hwrest
    obtain ⟨o1, s1, hstep, hacc1⟩ := accounted_step op hacc hallow hfit
    rw [hstep] at hrest hwrest
    obtain ⟨o', s', hrun, hacc'⟩ := ih o1 s1 hacc1 hrest hwrest
    exact ⟨o', s', by simp only [run, hstep, hrun], hacc'⟩

/-- The state the constructor leaves is accounted for by one owned link and the
reference of the table, whatever tokens were drawn. -/
theorem accounted_of_ctor {crt : Nat → Nat → String} {s s1 : State} {addr : Nat}
    {sc : SessionCase} {su : String} {reg : Bool} {trail : Nat} {ifcs : List Ifc}
    (h : AsChain.ctor crt s addr sc su reg trail ifcs = .ok s1) :
    Accounted addr ((List.range ifcs.length).map (crt TOKEN_LENGTH))
      { owned := 1, destroy_requested := false, frees := 0 } s1 := by
  rw [ctor_eq] at h
  simp only [Except.ok.injEq] at h
  subst h
  refine ⟨?_, ?_, ?_, ?_, ?_⟩
  · intro h0; simp [count] at h0
  · intro _
    exact ⟨_, Map.find_assign_self _ _ _, by simp [count], rfl⟩
  · intro _ token hmem
    obtain ⟨i, hi, rfl⟩ := List.mem_map.mp hmem
    obtain ⟨j, _, _, hf⟩ :=
      register_fold_find_drawn crt addr ifcs.length [] s._t2c_map i (List.mem_range.mp hi)
    exact ⟨_, hf, rfl⟩
  · intro h0; cases h0
  · simp [count]

/-- C12 as the code has it: after `create_as_chain`, whatever tokens were drawn,
every sequence of duplicate, lookup, release and `request_destroy` operations on
the chain that follows the ownership rules, and in which the number of references
the rules account for never exceeds INT_MAX, runs without a fault, and after
every initial part of it: while the chain is live its reference count equals the
number of outstanding owned links plus one if `request_destroy` has not been
called, and is positive; the chain is freed exactly when that number is zero,
hence only when no owned link is outstanding and `request_destroy` has been
called; and the number of operations that freed the chain is one if it is freed
and zero if it is live. -/
theorem reference_count_invariant (crt : Nat → Nat → String) (s0 : State) (addr : Nat)
    (sc : SessionCase) (su : String) (reg : Bool) (trail : Nat) (ifcs : List Ifc) :
    ∃ s1 : State,
      AsChainLink.create_as_chain crt s0 addr sc su reg trail ifcs =
        .ok (AsChainLink.mk2 (some addr) 0, s1) ∧
      ∀ ops more : List ChainOp,
        follows addr ((List.range ifcs.length).map (crt TOKEN_LENGTH))
          { owned := 1, destroy_requested := false, frees := 0 } s1 (ops ++ more) = true →
        within_int addr { owned := 1, destroy_requested := false, frees := 0 } s1 ops = true →
        ∃ (o : Ownership) (s : State),
          run addr { owned := 1, destroy_requested := false, frees := 0 } s1 ops = .ok (o, s) ∧
          (∀ c, Map.find addr s.heap = some c →
            c._refs = (o.owned : Int) + (if o.destroy_requested then 0 else 1) ∧ 0 < c._refs) ∧
          (Map.find addr s.heap = none ↔
            (o.owned : Int) + (if o.destroy_requested then 0 else 1) = 0) ∧
          (Map.find addr s.heap = none → o.owned = 0 ∧ o.destroy_requested = true) ∧
          o.frees = (if Map.find addr s.heap = none then 1 else 0) := by
  cases hctor : AsChain.ctor crt s0 addr sc su reg trail ifcs with
  | error f => rw [ctor_eq] at hctor; cases hctor
  | ok s1 =>
    refine ⟨s1, by simp [AsChainLink.create_as_chain, hctor], ?_⟩
    intro ops more hf hw
    obtain ⟨o, s, hrun, hfree, hlive, _, _, hfrees⟩ :=
      accounted_run ops more _ s1 (accounted_of_ctor hctor) hf hw
    have hnn : 0 ≤ o.count := by unfold count; split <;> omega
    have hiff : Map.find addr s.heap = none ↔ o.count = 0 := by
      constructor
      · intro hn
        by_contra hne
        obtain ⟨c, hc, _⟩ := hlive hne
        rw [hn] at hc
        cases hc
      · exact hfree
    refine ⟨o, s, hrun, ?_, hiff, ?_, ?_⟩
    · intro c hc
      have hne : o.count ≠ 0 := by
        intro h0
        rw [hfree h0] at hc
        cases hc
      obtain ⟨c', hc', hrefs, _⟩ := hlive hne
      rw [hc] at hc'
      cases hc'
      exact ⟨hrefs, by omega⟩
    · intro hn
      have h0 := hiff.mp hn
      unfold count at h0
      cases hd : o.destroy_requested with
      | true => rw [hd] at h0; simp at h0; exact ⟨by omega, rfl⟩
      | false => rw [hd] at h0; simp at h0; omega
    · rw [hfrees]
      by_cases h0 : o.count = 0
      · simp [h0, hiff.mpr h0]
      · have : ¬ Map.find addr s.heap = none := fun hn => h0 (hiff.mp hn)
        simp [h0, this]

/-- C12 exercised on the demo session: the chain created at address `2` goes
through counts 3, 4, 3, 2, 1 (after `request_destroy`) and 0; it is freed by the
last release, once, with no owned link outstanding, and the final lookup finds
nothing. -/
theorem reference_count_invariant_witness :
    follows 2 ["EEEEEEEEEE", "FFFFFFFFFF"] { owned := 1, destroy_requested := false, frees := 0 }
      Demo.state3 (Demo.session ++ []) = true ∧
    within_int 2 { owned := 1, destroy_requested := false, frees := 0 } Demo.state3
      Demo.session = true ∧
    ∃ (o : Ownership) (s : State),
      AsChainLink.create_as_chain Demo.fair_generator Demo.state 2 .Terminating
        "sip:bob@example.com" true 8 [Demo.ifc_ext, Demo.ifc_skip] =
          .ok (AsChainLink.mk2 (some 2) 0, Demo.state3) ∧
      run 2 { owned := 1, destroy_requested := false, frees := 0 } Demo.state3 Demo.session =
        .ok (o, s) ∧
      Map.find 2 s.heap = none ∧ o.owned = 0 ∧ o.destroy_requested = true ∧ o.frees = 1 := by
  have hf : follows 2 ["EEEEEEEEEE", "FFFFFFFFFF"]
      { owned := 1, destroy_requested := false, frees := 0 } Demo.state3
      (Demo.session ++ []) = true := by decide
  have hw : within_int 2 { owned := 1, destroy_requested := false, frees := 0 } Demo.state3
      Demo.session = true := by decide
  obtain ⟨s1, h1, h2⟩ := reference_count_invariant Demo.fair_generator Demo.state 2
    .Terminating "sip:bob@example.com" true 8 [Demo.ifc_ext, Demo.ifc_skip]
  have hcreate : AsChainLink.create_as_chain Demo.fair_generator Demo.state 2 .Terminating
      "sip:bob@example.com" true 8 [Demo.ifc_ext, Demo.ifc_skip] =
        .ok (AsChainLink.mk2 (some 2) 0, Demo.state3) := by rfl
  have hs1 : s1 = Demo.state3 := by
    rw [hcreate] at h1
    simp only [Except.ok.injEq, Prod.mk.injEq] at h1
    exact h1.2.symm
  subst hs1
  obtain ⟨o, s, hrun, hlive, hiff, hnone, hfrees⟩ := h2 Demo.session [] hf hw
  have hgone : Map.find 2 s.heap = none := by
    have hr : run 2 { owned := 1, destroy_requested := false, frees := 0 } Demo.state3
        Demo.session =
        .ok ({ owned := 0, destroy_requested := true, frees := 1 },
             { heap := [(1, Demo.chain)], _t2c_map := Demo.state._t2c_map }) := by rfl
    rw [hr] at hrun
    simp only [Except.ok.injEq, Prod.mk.injEq] at hrun
    rw [← hrun.2]
    decide
  refine ⟨hf, hw, o, s, hcreate, hrun, hgone, (hnone hgone).1, (hnone hgone).2, ?_⟩
  rw [hfrees]
  simp [hgone]

end Ownership

/-! ## Trust boundaries -/

namespace TrustBoundary

/-- Deleting the two headers one after the other keeps exactly the headers that
carry neither name, in their order. -/
theorem strip_eq_filter (pani psu : String) (tdata : Msg) :
    delete_header (delete_header tdata pani) psu =
      { tdata with hdrs := tdata.hdrs.filter (fun h => h.1 ≠ pani ∧ h.1 ≠ psu) } := by
  simp only [delete_header, List.filter_filter]
  congr 1
  apply List.filter_congr
  intro h _
  by_cases h1 : h.1 = pani <;> by_cases h2 : h.1 = psu <;> simp [h1, h2]

/-- C18: for every trust boundary and message, `process_request` applies the
deletion of the P-Access-Network-Info header and then of the P-Served-User
header when `_strip_request` is set and returns the message as it is otherwise;
`process_response` does the same under `_strip_response`; and
`process_stateless_message` applies both deletions whatever the flags.  With
deletion by name removing the headers of that name, the stripped message keeps
its request URI and exactly those headers, in order, that carry neither name:
none with either name is left and no other header is removed. -/
theorem process_strips_trusted_headers (tb : TrustBoundary) (env : StripEnv) (tdata : Msg) :
    (process_request tb env tdata =
      if tb._strip_request = true then
        env.delete_header (env.delete_header tdata env.STR_P_A_N_I) env.STR_P_SERVED_USER
      else tdata) ∧
    (process_response tb env tdata =
      if tb._strip_response = true then
        env.delete_header (env.delete_header tdata env.STR_P_A_N_I) env.STR_P_SERVED_USER
      else tdata) ∧
    (process_stateless_message tb env tdata =
      env.delete_header (env.delete_header tdata env.STR_P_A_N_I) env.STR_P_SERVED_USER) ∧
    (env.delete_header = delete_header →
      ∃ stripped : Msg,
        proxy_strip_trusted env tdata = stripped ∧
        process_request tb env tdata = (if tb._strip_request = true then stripped else tdata) ∧
        process_response tb env tdata = (if tb._strip_response = true then stripped else tdata) ∧
        process_stateless_message tb env tdata = stripped ∧
        stripped.req_uri = tdata.req_uri ∧
        stripped.hdrs = tdata.hdrs.filter
          (fun h => h.1 ≠ env.STR_P_A_N_I ∧ h.1 ≠ env.STR_P_SERVED_USER) ∧
        (∀ h, h ∈ stripped.hdrs → h.1 ≠ env.STR_P_A_N_I ∧ h.1 ≠ env.STR_P_SERVED_USER) ∧
        (∀ h, h ∈ tdata.hdrs → h.1 ≠ env.STR_P_A_N_I → h.1 ≠ env.STR_P_SERVED_USER →
          h ∈ stripped.hdrs)) := by
  refine ⟨rfl, rfl, rfl, ?_⟩
  intro hdel
  have hstrip : proxy_strip_trusted env tdata =
      delete_header (delete_header tdata env.STR_P_A_N_I) env.STR_P_SERVED_USER := by
    unfold proxy_strip_trusted
    rw [hdel]
  rw [strip_eq_filter] at hstrip
  refine ⟨_, hstrip, by simp only [process_request, hstrip],
    by simp only [process_response, hstrip], by simp only [process_stateless_message, hstrip],
    rfl, rfl, ?_, ?_⟩
  · intro h hh
    have := (List.mem_filter.mp hh).2
    simpa using this
  · intro h hh h1 h2
    exact List.mem_filter.mpr ⟨hh, by simp [h1, h2]⟩

/-- C18 exercised on a message with four headers: the boundary towards an unknown
edge client removes the two trusted headers from a request and keeps `Via` and
`Contact`; the trusted boundary leaves the request as it is. -/
theorem process_strips_trusted_headers_witness :
    Demo.strip_env.delete_header = delete_header ∧
    (process_request UNKNOWN_EDGE_CLIENT Demo.strip_env Demo.msg_trusted).hdrs =
      [("Via", "SIP/2.0/TCP client.example.com"), ("Contact", "<sip:alice@client.example.com>")] ∧
    process_request TRUSTED Demo.strip_env Demo.msg_trusted = Demo.msg_trusted := by
  refine ⟨rfl, ?_, ?_⟩
  · obtain ⟨stripped, _, hreq, _, _, _, hh, _, _⟩ :=
      (process_strips_trusted_headers UNKNOWN_EDGE_CLIENT Demo.strip_env Demo.msg_trusted).2.2.2
        rfl
    rw [hreq]
    simp only [UNKNOWN_EDGE_CLIENT, ctor, if_true, hh]
    decide
  · rw [(process_strips_trusted_headers TRUSTED Demo.strip_env Demo.msg_trusted).1]
    rfl

/-- C19: the six named trust boundaries have these strip flags for requests and
responses: TRUSTED neither; INBOUND_EDGE_CLIENT responses only;
OUTBOUND_EDGE_CLIENT requests only; UNKNOWN_EDGE_CLIENT, INBOUND_TRUNK and
OUTBOUND_TRUNK both; and the description of each is its own name. -/
theorem named_boundaries :
    (TRUSTED._strip_request = false ∧ TRUSTED._strip_response = false ∧
      TRUSTED._description = "TRUSTED") ∧
    (INBOUND_EDGE_CLIENT._strip_request = false ∧ INBOUND_EDGE_CLIENT._strip_response = true ∧
      INBOUND_EDGE_CLIENT._description = "INBOUND_EDGE_CLIENT") ∧
    (OUTBOUND_EDGE_CLIENT._strip_request = true ∧ OUTBOUND_EDGE_CLIENT._strip_response = false ∧
      OUTBOUND_EDGE_CLIENT._description = "OUTBOUND_EDGE_CLIENT") ∧
    (UNKNOWN_EDGE_CLIENT._strip_request = true ∧ UNKNOWN_EDGE_CLIENT._strip_response = true ∧
      UNKNOWN_EDGE_CLIENT._description = "UNKNOWN_EDGE_CLIENT") ∧
    (INBOUND_TRUNK._strip_request = true ∧ INBOUND_TRUNK._strip_response = true ∧
      INBOUND_TRUNK._description = "INBOUND_TRUNK") ∧
    (OUTBOUND_TRUNK._strip_request = true ∧ OUTBOUND_TRUNK._strip_response = true ∧
      OUTBOUND_TRUNK._description = "OUTBOUND_TRUNK") :=
  ⟨⟨rfl, rfl, rfl⟩, ⟨rfl, rfl, rfl⟩, ⟨rfl, rfl, rfl⟩, ⟨rfl, rfl, rfl⟩, ⟨rfl, rfl, rfl⟩,
   ⟨rfl, rfl, rfl⟩⟩

end TrustBoundary

/-! ## Target matching -/

namespace AsChain

/-- C20: on a Terminating chain `matches_target` returns, and returns true exactly
when the served user of the chain is the same string as the canonical
terminating served user that `served_user_from_msg` extracts from the message;
on a chain of any other session case the assertion fails and no comparison
result is returned.  So a chain for `sip:alice@example.com` matches a message
whose extracted served user is `sip:alice@example.com` and does not match one
whose extracted served user is `sip:bob@example.com`. -/
theorem matches_target_iff (served_user_from_msg : SessionCase → Msg → String)
    (c : AsChain) (tdata : Msg) :
    (c._session_case = SessionCase.Terminating →
      ∃ b : Bool,
        matches_target served_user_from_msg c tdata = .ok b ∧
        (b = true ↔ c._served_user = served_user_from_msg SessionCase.Terminating tdata)) ∧
    (c._session_case ≠ SessionCase.Terminating →
      matches_target served_user_from_msg c tdata = .error Fault.assertion) ∧
    (c._session_case = SessionCase.Terminating → c._served_user = "sip:alice@example.com" →
      (served_user_from_msg SessionCase.Terminating tdata = "sip:alice@example.com" →
        matches_target served_user_from_msg c tdata = .ok true) ∧
      (served_user_from_msg SessionCase.Terminating tdata = "sip:bob@example.com" →
        matches_target served_user_from_msg c tdata = .ok false)) := by
  refine ⟨?_, ?_, ?_⟩
  · intro h
    exact ⟨decide (c._served_user = served_user_from_msg SessionCase.Terminating tdata),
      by simp only [matches_target, h, if_true], by simp⟩
  · intro h
    simp [matches_target, h]
  · intro h hu
    refine ⟨?_, ?_⟩
    · intro hm
      simp [matches_target, h, hu, hm]
    · intro hm
      simp [matches_target, h, hu, hm]

/-- C20 exercised: the terminating chain for alice matches the request to
`sip:alice@example.com;transport=TCP` and not the request to bob, and on the
originating demo chain the assertion fails. -/
theorem matches_target_iff_witness :
    (Demo.chain_term._session_case = SessionCase.Terminating ∧
      Demo.chain_term._served_user = "sip:alice@example.com" ∧
      Demo.served_user_from_msg SessionCase.Terminating Demo.msg_alice =
        "sip:alice@example.com" ∧
      Demo.served_user_from_msg SessionCase.Terminating Demo.msg_bob = "sip:bob@example.com" ∧
      Demo.chain._session_case ≠ SessionCase.Terminating) ∧
    matches_target Demo.served_user_from_msg Demo.chain_term Demo.msg_alice = .ok true ∧
    matches_target Demo.served_user_from_msg Demo.chain_term Demo.msg_bob = .ok false ∧
    matches_target Demo.served_user_from_msg Demo.chain Demo.msg_alice = .error Fault.assertion :=
  ⟨⟨rfl, rfl, by decide, by decide, by decide⟩,
   ((matches_target_iff Demo.served_user_from_msg Demo.chain_term Demo.msg_alice).2.2 rfl rfl).1
     (by decide),
   ((matches_target_iff Demo.served_user_from_msg Demo.chain_term Demo.msg_bob).2.2 rfl rfl).2
     (by decide),
   (matches_target_iff Demo.served_user_from_msg Demo.chain Demo.msg_alice).2.1 (by decide)⟩

end AsChain

/-! ## Malformed AS address, default handling and token bounds -/

namespace AsChainLink

/-- C21 fails on the code: the fourth step of the demo chain matches and names the
external application server `<bad>`, for which `uri_from_string` returns no URI.
`on_initial_request` does not return an error for the step: after storing the
default handling, setting the served-user header and filling in timeout and
request URI of the new target, it writes `lr_param` through the null URI. -/
theorem malformed_as_address_null_deref :
    Demo.chain._ifcs[(mk2 (some 1) 3)._index]? = some Demo.ifc_bad ∧
    Demo.env.filter_matches Demo.ifc_bad Demo.chain._session_case Demo.chain._is_registered
      Demo.msg = true ∧
    Demo.env.uri_from_string Demo.ifc_bad.as_invocation.server_name = none ∧
    on_initial_request Demo.env Demo.state (mk2 (some 1) 3) none Demo.uas Demo.msg =
      .error
        { fault := Fault.null_deref,
          link := { _as_chain := some 1, _index := 3, _default_handling := some false },
          msg := { Demo.msg with hdrs := Demo.msg.hdrs ++
            [("P-Served-User", "<sip:alice@example.com>;sescase=orig;regstate=unreg")] },
          as_target := some { target.default with
            liveness_timeout := AS_TIMEOUT_TERMINATE, uri := some Demo.msg.req_uri } } :=
  ⟨rfl, rfl, rfl, by rfl⟩

/-- C25: on a matching step for an external application server whose address
parses, `on_initial_request` returns `Skip` and the link it leaves is the link it
was called on with the default handling of the matched criterion stored on it:
`default_handling` reports that flag, chain pointer and index are as before (the
link is still at the step that issued the token), and the program state, with
every reference count and the token map, is unchanged.  `reset_default_handling`
on that link then makes `default_handling` report false and changes neither chain
pointer nor index. -/
theorem on_initial_request_stores_default_handling (env : Env) (s : State)
    (self : AsChainLink) (call_services : Option CallServices) (uas_data : UASTransaction)
    (tdata : Msg) (p : Nat) (c : AsChain) (ifc : Ifc) (as_uri : SipUri)
    (h_chain : self._as_chain = some p) (h_live : Map.find p s.heap = some c)
    (h_ifc : c._ifcs[self._index]? = some ifc)
    (h_tokens : c._odi_tokens.length = c.size)
    (h_filter : env.filter_matches ifc c._session_case c._is_registered tdata = true)
    (h_ext : ∀ cs, call_services = some cs → cs.is_mmtel ifc.as_invocation.server_name = false)
    (h_parse : env.uri_from_string ifc.as_invocation.server_name = some as_uri) :
    ∃ r : StepResult,
      on_initial_request env s self call_services uas_data tdata = .ok r ∧
      r.disposition = .Skip ∧
      default_handling r.link = some ifc.as_invocation.default_handling ∧
      r.link = { self with _default_handling := some ifc.as_invocation.default_handling } ∧
      r.link._as_chain = self._as_chain ∧ r.link._index = self._index ∧
      r.state = s ∧
      default_handling (reset_default_handling r.link) = some false ∧
      reset_default_handling r.link = { r.link with _default_handling := some false } ∧
      (reset_default_handling r.link)._as_chain = self._as_chain ∧
      (reset_default_handling r.link)._index = self._index := by
  obtain ⟨token, h_tok⟩ := token_of_ifc h_ifc h_tokens
  have heq := external_branch_eq uas_data h_chain h_live h_ifc h_tok h_filter h_ext
  rw [heq]
  simp [invoke_external_as, h_parse, default_handling, reset_default_handling]

/-- C25 exercised on the first step of the demo chain: the criterion's default
handling, continue, is on the link after the call, and false after the reset. -/
theorem on_initial_request_stores_default_handling_witness :
    ((mk2 (some 1) 0)._as_chain = some 1 ∧ Map.find 1 Demo.state.heap = some Demo.chain ∧
      Demo.chain._ifcs[(mk2 (some 1) 0)._index]? = some Demo.ifc_ext ∧
      Demo.chain._odi_tokens.length = Demo.chain.size ∧
      Demo.env.filter_matches Demo.ifc_ext Demo.chain._session_case Demo.chain._is_registered
        Demo.msg = true ∧
      (∀ cs, (none : Option CallServices) = some cs →
        cs.is_mmtel Demo.ifc_ext.as_invocation.server_name = false) ∧
      Demo.env.uri_from_string Demo.ifc_ext.as_invocation.server_name =
        some { secure := false, user := "", host := "as1.example.com", port := 0,
               transport_param := "TCP", lr_param := 0 }) ∧
    ∃ r : StepResult,
      on_initial_request Demo.env Demo.state (mk2 (some 1) 0) none Demo.uas Demo.msg = .ok r ∧
      r.disposition = .Skip ∧ default_handling r.link = some true ∧
      r.link._index = 0 ∧ r.state = Demo.state ∧
      default_handling (reset_default_handling r.link) = some false := by
  refine ⟨⟨rfl, rfl, rfl, rfl, rfl, (fun _ h => Option.noConfusion h), rfl⟩, ?_⟩
  obtain ⟨r, h1, h2, h3, _, _, h6, h7, h8, _, _, _⟩ :=
    on_initial_request_stores_default_handling Demo.env Demo.state (mk2 (some 1) 0) none
      Demo.uas Demo.msg 1 Demo.chain Demo.ifc_ext _ rfl rfl rfl rfl rfl
      (fun _ h => Option.noConfusion h) rfl
  exact ⟨r, h1, h2, h3, h6, h7, h8⟩

/-- The branch for an external application server never goes out of bounds: it
returns or stops at the null URI. -/
theorem invoke_external_as_fault {env : Env} {s : State} {self : AsChainLink} {c : AsChain}
    {a : AsInvocation} {odi : String} {uas_data : UASTransaction} {tdata : Msg} {cr : Crash}
    (h : invoke_external_as env s self c a odi uas_data tdata = .error cr) :
    cr.fault = Fault.null_deref := by
  unfold invoke_external_as at h
  cases hu : env.uri_from_string a.server_name with
  | none =>
    simp only [hu, Except.error.injEq] at h
    rw [← h]
  | some u => simp [hu] at h

/-- C26: in every reachable state every live chain holds exactly as many tokens as
it has steps, as does every chain when its constructor returns.  Hence for a
link to such a chain with index below the size the token at the index exists,
and when the criterion at the index matches, `on_initial_request` does not stop
out of bounds, whatever the environment, call services, transaction and
message. -/
theorem next_odi_token_in_bounds (s : State) (hr : Reachable s) (p : Nat) (c : AsChain)
    (h_live : Map.find p s.heap = some c) :
    c._odi_tokens.length = c.size ∧
    (∀ (crt : Nat → Nat → String) (s0 : State) (addr : Nat) (sc : SessionCase) (su : String)
        (reg : Bool) (trail : Nat) (ifcs : List Ifc),
      ∃ (s1 : State) (c1 : AsChain),
        AsChain.ctor crt s0 addr sc su reg trail ifcs = .ok s1 ∧
        Map.find addr s1.heap = some c1 ∧ c1._odi_tokens.length = c1.size) ∧
    ∀ self : AsChainLink, self._as_chain = some p → self._index < c.size →
      (∃ token, c._odi_tokens[self._index]? = some token) ∧
      ∀ (env : Env) (call_services : Option CallServices) (uas_data : UASTransaction)
          (tdata : Msg) (ifc : Ifc),
        c._ifcs[self._index]? = some ifc →
        env.filter_matches ifc c._session_case c._is_registered tdata = true →
        ∀ cr : Crash, on_initial_request env s self call_services uas_data tdata = .error cr →
          cr.fault ≠ Fault.out_of_bounds := by
  have hlen := AsChainTable.reachable_one_token_per_step hr p c h_live
  refine ⟨hlen, ?_, ?_⟩
  · intro crt s0 addr sc su reg trail ifcs
    obtain ⟨s1, c1, h1, h2, _, _, h5⟩ :=
      AsChainTable.ctor_one_token_per_step crt s0 addr sc su reg trail ifcs
    exact ⟨s1, c1, h1, h2, h5⟩
  · intro self h_chain hidx
    have hlt : self._index < c._odi_tokens.length := by rw [hlen]; exact hidx
    refine ⟨⟨_, List.getElem?_eq_getElem hlt⟩, ?_⟩
    intro env call_services uas_data tdata ifc h_ifc h_filter cr hcr
    have h_tok : c._odi_tokens[self._index]? = some c._odi_tokens[self._index] :=
      List.getElem?_eq_getElem hlt
    cases hcs : call_services with
    | none =>
      have heq := external_branch_eq uas_data h_chain h_live h_ifc h_tok h_filter
        (fun cs (h : (none : Option CallServices) = some cs) => Option.noConfusion h)
      rw [hcs, heq] at hcr
      rw [invoke_external_as_fault hcr]
      decide
    | some cs =>
      by_cases hm : cs.is_mmtel ifc.as_invocation.server_name = true
      · rw [hcs, internal_branch_eq h_chain h_live h_ifc h_tok h_filter hm] at hcr
        cases hcr
      · have hm' : cs.is_mmtel ifc.as_invocation.server_name = false := by
          simpa using hm
        have heq := external_branch_eq uas_data h_chain h_live h_ifc h_tok h_filter
          (fun cs' (h : some cs = some cs') => by cases h; exact hm')
        rw [hcs, heq] at hcr
        rw [invoke_external_as_fault hcr]
        decide

/-- C26 exercised on the demo state, which is reachable by one `create_as_chain`:
the chain has four tokens for four steps, and the link at the last step has its
token. -/
theorem next_odi_token_in_bounds_witness :
    (Reachable Demo.state ∧ Map.find 1 Demo.state.heap = some Demo.chain) ∧
    Demo.chain._odi_tokens.length = Demo.chain.size ∧
    ∃ token, Demo.chain._odi_tokens[(mk2 (some 1) 3)._index]? = some token :=
  have hr : Reachable Demo.state :=
    Reachable.create Reachable.init rfl AsChainTable.demo_state_created
  ⟨⟨hr, rfl⟩,
   (next_odi_token_in_bounds Demo.state hr 1 Demo.chain rfl).1,
   ((next_odi_token_in_bounds Demo.state hr 1 Demo.chain rfl).2.2 (mk2 (some 1) 3) rfl
      (by decide)).1⟩

end AsChainLink

/-! ## Unregistration -/

namespace AsChainTable

/-- Erasing a key keeps the entries under every other key, in order. -/
theorem erase_eq_filter {κ α : Type} [DecidableEq κ] (k : κ) (m : List (κ × α)) :
    Map.erase k m = m.filter (fun kv => decide (kv.1 ≠ k)) := by
  induction m with
  | nil => rfl
  | cons kv m ih =>
    obtain ⟨k', v⟩ := kv
    by_cases h : k' = k
    · simp [Map.erase, h, ih]
    · simp [Map.erase, h, ih]

/-- Erasing a list of keys keeps the entries under the keys that are not listed. -/
theorem foldl_erase_eq_filter {κ α : Type} [DecidableEq κ] (ks : List κ) (m : List (κ × α)) :
    ks.foldl (fun m k => Map.erase k m) m = m.filter (fun kv => decide (kv.1 ∉ ks)) := by
  induction ks generalizing m with
  | nil => simp
  | cons k ks ih =>
    rw [List.foldl_cons, ih, erase_eq_filter, List.filter_filter]
    apply List.filter_congr
    intro kv _
    by_cases h1 : kv.1 = k <;> by_cases h2 : kv.1 ∈ ks <;> simp [h1, h2]

/-- A key without a value is the key of no entry. -/
theorem not_key_of_find_none {κ α : Type} [DecidableEq κ] {k : κ} {m : List (κ × α)}
    (h : Map.find k m = none) : ∀ kv, kv ∈ m → kv.1 ≠ k := by
  induction m with
  | nil => intro kv hkv; cases hkv
  | cons e m ih =>
    obtain ⟨k', v⟩ := e
    by_cases hk : k' = k
    · simp [Map.find, hk] at h
    · simp only [Map.find, hk, if_false] at h
      intro kv hkv
      cases hkv with
      | head => exact hk
      | tail _ hm => exact ih h kv hm

/-- C23: for every state and token list, `unregister` leaves the heap, hence
every reference count, as it is; in the map it removes the entries of exactly
the listed tokens and keeps all other entries in their order, so a listed token
has no mapping afterwards and every other token keeps its mapping; when none of
the listed tokens is present the state is unchanged; and unregistering the same
list a second time changes nothing more. -/
theorem unregister_effect (s : State) (tokens : List String) :
    (unregister s tokens).heap = s.heap ∧
    (unregister s tokens)._t2c_map =
      s._t2c_map.filter (fun kv => decide (kv.1 ∉ tokens)) ∧
    (∀ k, Map.find k (unregister s tokens)._t2c_map =
      if k ∈ tokens then none else Map.find k s._t2c_map) ∧
    ((∀ t, t ∈ tokens → Map.find t s._t2c_map = none) → unregister s tokens = s) ∧
    unregister (unregister s tokens) tokens = unregister s tokens := by
  have hmap : (unregister s tokens)._t2c_map =
      s._t2c_map.filter (fun kv => decide (kv.1 ∉ tokens)) :=
    foldl_erase_eq_filter tokens s._t2c_map
  refine ⟨rfl, hmap, ?_, ?_, ?_⟩
  · intro k
    exact Map.find_foldl_erase tokens k s._t2c_map
  · intro habsent
    have hall : s._t2c_map.filter (fun kv => decide (kv.1 ∉ tokens)) = s._t2c_map := by
      apply List.filter_eq_self.mpr
      intro kv hkv
      have : kv.1 ∉ tokens := fun hin => not_key_of_find_none (habsent kv.1 hin) kv hkv rfl
      simpa using this
    cases s with
    | mk heap map =>
      simp only [unregister, State.mk.injEq, true_and]
      exact (foldl_erase_eq_filter tokens map).trans hall
  · have h2 : (unregister (unregister s tokens) tokens)._t2c_map =
        (unregister s tokens)._t2c_map := by
      rw [show (unregister (unregister s tokens) tokens)._t2c_map =
        (unregister s tokens)._t2c_map.filter (fun kv => decide (kv.1 ∉ tokens)) from
          foldl_erase_eq_filter tokens _, hmap, List.filter_filter]
      apply List.filter_congr
      intro kv _
      simp
    show ({ heap := s.heap, _t2c_map := (unregister (unregister s tokens) tokens)._t2c_map }
      : State) = { heap := s.heap, _t2c_map := (unregister s tokens)._t2c_map }
    rw [h2]

/-- C23 exercised on the demo state: unregistering a present and an absent token
removes the present one only, and doing it again changes nothing. -/
theorem unregister_effect_witness :
    (unregister Demo.state ["BBBBBBBBBB", "ZZZZZZZZZZ"])._t2c_map =
      [("AAAAAAAAAA", AsChainLink.mk2 (some 1) 1), ("CCCCCCCCCC", AsChainLink.mk2 (some 1) 3),
       ("DDDDDDDDDD", AsChainLink.mk2 (some 1) 4)] ∧
    unregister Demo.state ["ZZZZZZZZZZ"] = Demo.state ∧
    unregister (unregister Demo.state ["BBBBBBBBBB", "ZZZZZZZZZZ"]) ["BBBBBBBBBB", "ZZZZZZZZZZ"] =
      unregister Demo.state ["BBBBBBBBBB", "ZZZZZZZZZZ"] :=
  ⟨by decide,
   (unregister_effect Demo.state ["ZZZZZZZZZZ"]).2.2.2.1 (by decide),
   (unregister_effect Demo.state ["BBBBBBBBBB", "ZZZZZZZZZZ"]).2.2.2.2⟩

end AsChainTable

/-! ## Range of the index -/

namespace AsChainTable

/-- Operations that leave the chain undisturbed keep it live with its tokens and
criteria, and keep the mapping of each of its tokens. -/
theorem undisturbed_frame {addr : Nat} {tokens : List String} {s1 s : State}
    (hu : Undisturbed addr tokens s1 s) {c1 : AsChain} (hc1 : Map.find addr s1.heap = some c1) :
    (∃ c, Map.find addr s.heap = some c ∧ c._odi_tokens = c1._odi_tokens ∧ c.size = c1.size) ∧
    ∀ token, token ∈ tokens → Map.find token s._t2c_map = Map.find token s1._t2c_map := by
  induction hu with
  | start => exact ⟨⟨c1, hc1, rfl, rfl⟩, fun _ _ => rfl⟩
  | @lookup s s' token l _ hl ih =>
    unfold lookup at hl
    cases hf : Map.find token s._t2c_map with
    | none =>
      simp only [hf, Except.ok.injEq, Prod.mk.injEq] at hl
      rw [← hl.2]
      exact ih
    | some link =>
      simp only [hf] at hl
      cases hp : link._as_chain with
      | none => simp [hp] at hl
      | some q =>
        simp only [hp] at hl
        cases hi : AsChain.inc_ref s q with
        | error f => simp [hi] at hl
        | ok s2 =>
          simp only [hi, Except.ok.injEq, Prod.mk.injEq] at hl
          rw [← hl.2]
          obtain ⟨hmap, hheap⟩ := inc_ref_frame hi
          obtain ⟨⟨c, hc, htoks, hsize⟩, hT⟩ := ih
          obtain ⟨c', hc', ht', hs'⟩ := hheap addr c hc
          exact ⟨⟨c', hc', ht'.trans htoks, hs'.trans hsize⟩, by rw [hmap]; exact hT⟩
  | @duplicate s s' l l' _ hd ih =>
    unfold AsChainLink.duplicate at hd
    cases hp : l._as_chain with
    | none =>
      simp only [hp, Except.ok.injEq, Prod.mk.injEq] at hd
      rw [← hd.2]
      exact ih
    | some q =>
      simp only [hp] at hd
      cases hi : AsChain.inc_ref s q with
      | error f => simp [hi] at hd
      | ok s2 =>
        simp only [hi, Except.ok.injEq, Prod.mk.injEq] at hd
        rw [← hd.2]
        obtain ⟨hmap, hheap⟩ := inc_ref_frame hi
        obtain ⟨⟨c, hc, htoks, hsize⟩, hT⟩ := ih
        obtain ⟨c', hc', ht', hs'⟩ := hheap addr c hc
        exact ⟨⟨c', hc', ht'.trans htoks, hs'.trans hsize⟩, by rw [hmap]; exact hT⟩
  | @release s s' l _ hrefs hr ih =>
    unfold AsChainLink.release at hr
    cases hp : l._as_chain with
    | none =>
      simp only [hp, Except.ok.injEq] at hr
      rw [← hr]
      exact ih
    | some q =>
      simp only [hp] at hr
      obtain ⟨hmap, hheap⟩ := dec_ref_frame hr
      obtain ⟨⟨c, hc, htoks, hsize⟩, hT⟩ := ih
      obtain ⟨c', hc', ht', hs'⟩ := hheap addr c hc (fun e => hrefs c (by rw [hp, e]) hc)
      exact ⟨⟨c', hc', ht'.trans htoks, hs'.trans hsize⟩, by rw [hmap]; exact hT⟩
  | @create s s' crt addr' sc su reg trail ifcs l _ hne hfresh hc ih =>
    unfold AsChainLink.create_as_chain at hc
    rw [ctor_eq] at hc
    simp only [Except.ok.injEq, Prod.mk.injEq] at hc
    rw [← hc.2]
    obtain ⟨⟨c, hc0, htoks, hsize⟩, hT⟩ := ih
    refine ⟨⟨c, ?_, htoks, hsize⟩, ?_⟩
    · simp [Map.find_assign_ne _ _ hne, hc0]
    · intro token hmem
      show Map.find token
        ((List.range ifcs.length).foldl (register_step crt addr') ([], s._t2c_map)).2 = _
      rw [register_fold_find_fresh crt addr' ifcs.length [] s._t2c_map token
        (fun j hj e => hfresh j hj (e ▸ hmem))]
      exact hT token hmem
  | @request_destroy s s' p c _ hne hlive hdisj hrd ih =>
    unfold AsChain.request_destroy at hrd
    simp only [hlive] at hrd
    obtain ⟨hmap, hheap⟩ := dec_ref_frame hrd
    obtain ⟨⟨c0, hc0, htoks, hsize⟩, hT⟩ := ih
    have hc0' : Map.find addr (unregister s c._odi_tokens).heap = some c0 := hc0
    obtain ⟨c', hc', ht', hs'⟩ := hheap addr c0 hc0' (fun e => absurd e.symm hne)
    refine ⟨⟨c', hc', ht'.trans htoks, hs'.trans hsize⟩, ?_⟩
    intro token hmem
    have hnot : token ∉ c._odi_tokens := fun hin => hdisj token hin hmem
    rw [hmap]
    simp only [unregister, Map.find_foldl_erase, hnot, if_false]
    exact hT token hmem

/-- Every derived link is bound to the chain and has an index that does not
exceed the size of the chain, provided that at the start the chain was live and
each of its tokens mapped to a link over it with an index within its size. -/
theorem derived_index_le {addr : Nat} {tokens : List String} {s1 : State} {l : AsChainLink}
    {c1 : AsChain} (hc1 : Map.find addr s1.heap = some c1)
    (hmap : ∀ token, token ∈ tokens → ∃ j, j < c1.size ∧
      Map.find token s1._t2c_map = some (AsChainLink.mk2 (some addr) (j + 1)))
    (hd : Derived addr tokens s1 l) :
    l._as_chain = some addr ∧ l._index ≤ c1.size := by
  induction hd with
  | created => exact ⟨rfl, Nat.zero_le _⟩
  | @next s l l' hu _ hn ih =>
    obtain ⟨hchain, hle⟩ := ih
    obtain ⟨⟨c, hc, _, hsize⟩, _⟩ := undisturbed_frame hu hc1
    unfold AsChainLink.next at hn
    have hcomp : AsChainLink.complete s l = .ok (decide (l._index = c.size)) := by
      simp [AsChainLink.complete, hchain, hc]
    rw [hcomp] at hn
    by_cases hidx : l._index = c.size
    · simp [hidx] at hn
    · simp only [hidx, decide_False, Except.ok.injEq] at hn
      rw [← hn]
      refine ⟨hchain, ?_⟩
      show l._index + 1 ≤ c1.size
      rw [hsize] at hidx
      omega
  | @duplicate s s' l l' _ _ hdup ih =>
    unfold AsChainLink.duplicate at hdup
    cases hp : l._as_chain with
    | none =>
      simp only [hp, Except.ok.injEq, Prod.mk.injEq] at hdup
      rw [← hdup.1]; exact ih
    | some q =>
      simp only [hp] at hdup
      cases hi : AsChain.inc_ref s q with
      | error f => simp [hi] at hdup
      | ok s2 =>
        simp only [hi, Except.ok.injEq, Prod.mk.injEq] at hdup
        rw [← hdup.1]; exact ih
  | @lookup s s' token l hu hmem hl =>
    obtain ⟨⟨c, hc, _, _⟩, hT⟩ := undisturbed_frame hu hc1
    obtain ⟨j, hj, hf⟩ := hmap token hmem
    have hfs : Map.find token s._t2c_map = some (AsChainLink.mk2 (some addr) (j + 1)) := by
      rw [hT token hmem]
      exact hf
    simp only [lookup, hfs, AsChainLink.mk2, AsChain.inc_ref, hc, Except.ok.injEq,
      Prod.mk.injEq] at hl
    rw [← hl.1]
    exact ⟨rfl, hj⟩

/-- C24: after `create_as_chain` with `n` criteria, whatever tokens were drawn,
every link derived from the creator's link by `next` on a link that is not
complete, by `duplicate` and by `lookup` of one of the chain's tokens, while the
chain is registered, is bound to the chain and has index at most `n`; every link
that `register_` stored under a token of the chain has index between 1 and `n`;
and for a chain with at least one step the lookup of the last step's token
returns a bound link with index `n`, which is complete. -/
theorem derived_index_in_range (crt : Nat → Nat → String) (s0 : State) (addr : Nat)
    (sc : SessionCase) (su : String) (reg : Bool) (trail : Nat) (ifcs : List Ifc) :
    ∃ s1 : State,
      AsChainLink.create_as_chain crt s0 addr sc su reg trail ifcs =
        .ok (AsChainLink.mk2 (some addr) 0, s1) ∧
      (∀ l, Derived addr ((List.range ifcs.length).map (crt TOKEN_LENGTH)) s1 l →
        l._as_chain = some addr ∧ 0 ≤ l._index ∧ l._index ≤ ifcs.length) ∧
      (∀ i, i < ifcs.length →
        ∃ l, Map.find (crt TOKEN_LENGTH i) s1._t2c_map = some l ∧
          l._as_chain = some addr ∧ 1 ≤ l._index ∧ l._index ≤ ifcs.length) ∧
      (0 < ifcs.length →
        ∀ s2, Undisturbed addr ((List.range ifcs.length).map (crt TOKEN_LENGTH)) s1 s2 →
          ∃ (l : AsChainLink) (s3 : State),
            lookup s2 (crt TOKEN_LENGTH (ifcs.length - 1)) = .ok (l, s3) ∧
            AsChainLink.is_set l = true ∧ l._index = ifcs.length ∧
            AsChainLink.complete s3 l = .ok true) := by
  obtain ⟨s1, c1, hctor, hc1, _, hifcs, _⟩ :=
    ctor_one_token_per_step crt s0 addr sc su reg trail ifcs
  have hsize1 : c1.size = ifcs.length := by simp [AsChain.size, hifcs]
  have hs1 : s1._t2c_map =
      ((List.range ifcs.length).foldl (register_step crt addr) ([], s0._t2c_map)).2 := by
    rw [ctor_eq] at hctor
    simp only [Except.ok.injEq] at hctor
    rw [← hctor]
  have hdrawn : ∀ i, i < ifcs.length → ∃ j, j < c1.size ∧
      Map.find (crt TOKEN_LENGTH i) s1._t2c_map =
        some (AsChainLink.mk2 (some addr) (j + 1)) := by
    intro i hi
    obtain ⟨j, hj, _, hf⟩ :=
      AsChainLink.register_fold_find_drawn crt addr ifcs.length [] s0._t2c_map i hi
    exact ⟨j, by omega, by rw [hs1]; exact hf⟩
  have hmap : ∀ token, token ∈ (List.range ifcs.length).map (crt TOKEN_LENGTH) →
      ∃ j, j < c1.size ∧
        Map.find token s1._t2c_map = some (AsChainLink.mk2 (some addr) (j + 1)) := by
    intro token hmem
    obtain ⟨i, hi, rfl⟩ := List.mem_map.mp hmem
    exact hdrawn i (List.mem_range.mp hi)
  refine ⟨s1, by simp [AsChainLink.create_as_chain, hctor], ?_, ?_, ?_⟩
  · intro l hd
    obtain ⟨h1, h2⟩ := derived_index_le hc1 hmap hd
    exact ⟨h1, Nat.zero_le _, by omega⟩
  · intro i hi
    obtain ⟨j, hj, hf⟩ := hdrawn i hi
    exact ⟨_, hf, rfl, Nat.le_add_left 1 j, by show j + 1 ≤ ifcs.length; omega⟩
  · intro hpos s2 hu
    have hlast : ifcs.length - 1 < ifcs.length := by omega
    have hn : ifcs.length - 1 + 1 = ifcs.length := by omega
    have hmem : crt TOKEN_LENGTH (ifcs.length - 1) ∈
        (List.range ifcs.length).map (crt TOKEN_LENGTH) :=
      List.mem_map.mpr ⟨_, List.mem_range.mpr hlast, rfl⟩
    obtain ⟨⟨c, hc, _, hsize⟩, hT⟩ := undisturbed_frame hu hc1
    have hf1 : Map.find (crt TOKEN_LENGTH (ifcs.length - 1)) s1._t2c_map =
        some (AsChainLink.mk2 (some addr) ifcs.length) := by
      rw [hs1]
      have h := register_fold_find_succ crt addr (ifcs.length - 1) [] s0._t2c_map
        (crt TOKEN_LENGTH (ifcs.length - 1))
      rw [hn] at h
      simpa using h
    have hf2 : Map.find (crt TOKEN_LENGTH (ifcs.length - 1)) s2._t2c_map =
        some (AsChainLink.mk2 (some addr) ifcs.length) := by
      rw [hT _ hmem]
      exact hf1
    refine ⟨AsChainLink.mk2 (some addr) ifcs.length,
      { s2 with heap := Map.assign addr { c with _refs := AsChain.pre_increment c._refs } s2.heap },
      by simp [lookup, hf2, AsChainLink.mk2, AsChain.inc_ref, hc], rfl, rfl, ?_⟩
    simp [AsChainLink.complete, AsChainLink.mk2, Map.find_assign_self, AsChain.size]
    have := hsize.trans hsize1
    simpa [AsChain.size] using this.symm

/-- C24 exercised: for the two-step chain created at address `2` in the demo
state, the link `next` derives from the creator's link has index 1, and the
lookup of the last token `FFFFFFFFFF` returns a link with index 2 that is
complete; and for a two-step chain created there with the same token
`AAAAAAAAAA` drawn twice, the lookup of that token returns a link with index 2
that is complete. -/
theorem derived_index_in_range_witness :
    (∃ (s1 s3 : State) (l : AsChainLink),
      AsChainLink.create_as_chain Demo.fair_generator Demo.state 2 .Terminating
        "sip:bob@example.com" true 8 [Demo.ifc_ext, Demo.ifc_skip] =
          .ok (AsChainLink.mk2 (some 2) 0, s1) ∧
      (∀ l', AsChainLink.next s1 (AsChainLink.mk2 (some 2) 0) = .ok l' → l'._index ≤ 2) ∧
      lookup s1 "FFFFFFFFFF" = .ok (l, s3) ∧ l._index = 2 ∧
      AsChainLink.complete s3 l = .ok true) ∧
    ∃ (s1 s3 : State) (l : AsChainLink),
      AsChainLink.create_as_chain Demo.stuck_generator Demo.state 2 .Terminating
        "sip:bob@example.com" true 8 [Demo.ifc_ext, Demo.ifc_skip] =
          .ok (AsChainLink.mk2 (some 2) 0, s1) ∧
      lookup s1 "AAAAAAAAAA" = .ok (l, s3) ∧ l._as_chain = some 2 ∧ l._index = 2 ∧
      AsChainLink.complete s3 l = .ok true := by
  constructor
  · obtain ⟨s1, h1, h2, _, h4⟩ := derived_index_in_range Demo.fair_generator Demo.state 2
      .Terminating "sip:bob@example.com" true 8 [Demo.ifc_ext, Demo.ifc_skip]
    obtain ⟨l, s3, hl, _, hidx, hc⟩ := h4 (by decide) s1 Undisturbed.start
    refine ⟨s1, s3, l, h1, ?_, hl, hidx, hc⟩
    intro l' hn
    exact (h2 l' (Derived.next Undisturbed.start Derived.created hn)).2.2
  · obtain ⟨s1, h1, h2, _, h4⟩ := derived_index_in_range Demo.stuck_generator Demo.state 2
      .Terminating "sip:bob@example.com" true 8 [Demo.ifc_ext, Demo.ifc_skip]
    obtain ⟨l, s3, hl, _, hidx, hc⟩ := h4 (by decide) s1 Undisturbed.start
    have hd := (h2 l (Derived.lookup Undisturbed.start (by decide) hl)).1
    exact ⟨s1, s3, l, h1, hl, hd, hidx, hc⟩

end AsChainTable

/-! ## The lock of the table -/

namespace AsChainTable

/-- Run alone from a free lock, the statements of `lookup` do what `lookup` does. -/
theorem lookup_stmts_alone (s : State) (token : String) :
    run_schedule token 0
        { shared := { state := s, locked := false }, lpc := .lock, dpc := .lock }
        [.looker, .looker, .looker, .looker, .looker] =
      match lookup s token with
      | .error f => .error f
      | .ok (l, s') =>
        .ok { shared := { state := s', locked := false }, lpc := .done l, dpc := .lock } := by
  cases hf : Map.find token s._t2c_map with
  | none =>
    simp [run_schedule, sched_step, lookup_stmt, lookup, hf, AsChainLink.mk2]
  | some link =>
    cases hp : link._as_chain with
    | none => simp [run_schedule, sched_step, lookup_stmt, lookup, hf, hp]
    | some q =>
      cases hi : AsChain.inc_ref s q with
      | error f => simp [run_schedule, sched_step, lookup_stmt, lookup, hf, hp, hi]
      | ok s' =>
        have hmap : s'._t2c_map = s._t2c_map := (inc_ref_frame hi).1
        simp [run_schedule, sched_step, lookup_stmt, lookup, hf, hp, hi, hmap]

/-- C22 fails on the code: `lookup` releases the lock before it reads the stored
link that it returns.  In the demo state, after the first four statements of
`lookup` for the token `AAAAAAAAAA` (lock, find, increment, unlock) the lock is
free and the return statement, which reads the map node through the iterator, is
still to come; `request_destroy` of the chain then runs from start to end and
erases the node; the return statement of `lookup` then reads an erased node.  The
increment itself was made under the lock on a live chain: its count went from 2
to 3. -/
theorem lookup_reads_entry_after_unlock :
    (∃ cfg : Config,
      run_schedule "AAAAAAAAAA" 1 Demo.config [.looker, .looker, .looker, .looker] = .ok cfg ∧
      cfg.lpc = LookupPc.return_second ∧ cfg.shared.locked = false ∧
      (Map.find 1 cfg.shared.state.heap).map (fun c => c._refs) = some 3) ∧
    (∃ cfg : Config,
      run_schedule "AAAAAAAAAA" 1 Demo.config
        [.looker, .looker, .looker, .looker, .destroyer, .destroyer, .destroyer, .destroyer] =
          .ok cfg ∧
      cfg.lpc = LookupPc.return_second ∧ cfg.dpc = DestroyPc.done ∧
      Map.find "AAAAAAAAAA" cfg.shared.state._t2c_map = none) ∧
    run_schedule "AAAAAAAAAA" 1 Demo.config Demo.racing_schedule = .error Fault.dangling :=
  ⟨⟨_, rfl, rfl, rfl, by decide⟩, ⟨_, rfl, rfl, rfl, by decide⟩, by rfl⟩

end AsChainTable

/-! ## The end of the range of `int` -/

namespace AsChainTable

open AsChainLink

/-- Duplicating a link to a live chain `n` times, while the count stays within
`int`, leaves the chain undisturbed with `n` references more. -/
theorem undisturbed_duplicates {addr : Nat} {tokens : List String} {s0 : State}
    (l : AsChainLink) (hl : l._as_chain = some addr) :
    ∀ (n : Nat) (s : State) (c : AsChain), Undisturbed addr tokens s0 s →
      Map.find addr s.heap = some c → c._refs + (n : Int) ≤ AsChain.INT_MAX →
      Undisturbed addr tokens s0
        { s with heap := Map.assign addr { c with _refs := c._refs + (n : Int) } s.heap } := by
  intro n
  induction n with
  | zero =>
    intro s c hu hc _
    have hc0 : ({ c with _refs := c._refs + ((0 : Nat) : Int) } : AsChain) = c := by
      cases c
      simp
    have hs : ({ s with heap := s.heap } : State) = s := by
      cases s
      rfl
    rw [hc0, assign_of_find hc, hs]
    exact hu
  | succ n ih =>
    intro s c hu hc hb
    have hne : c._refs ≠ AsChain.INT_MAX := by
      intro e
      rw [e] at hb
      push_cast at hb
      omega
    have hd : AsChainLink.duplicate s l =
        .ok (l, { s with heap := Map.assign addr { c with _refs := c._refs + 1 } s.heap }) := by
      simp [AsChainLink.duplicate, hl, AsChain.inc_ref, hc, AsChain.pre_increment_of_ne hne]
    have hb1 : ({ c with _refs := c._refs + 1 } : AsChain)._refs + (n : Int) ≤ AsChain.INT_MAX := by
      show c._refs + 1 + (n : Int) ≤ AsChain.INT_MAX
      push_cast at hb
      omega
    have h := ih _ { c with _refs := c._refs + 1 } (Undisturbed.duplicate hu hd)
      (Map.find_assign_self _ _ _) hb1
    have e : c._refs + 1 + (n : Int) = c._refs + ((n + 1 : Nat) : Int) := by
      push_cast
      omega
    simp only [assign_assign, e] at h
    exact h

/-- The demo chain reaches the count INT_MAX undisturbed: by 2147483645 duplicates
of the link of its creator. -/
theorem demo_state_max_undisturbed :
    Undisturbed 1 ["AAAAAAAAAA", "BBBBBBBBBB", "CCCCCCCCCC", "DDDDDDDDDD"] Demo.state
      Demo.state_max :=
  undisturbed_duplicates (AsChainLink.mk2 (some 1) 0) rfl 2147483645 Demo.state Demo.chain
    Undisturbed.start rfl (by decide)

/-- C7 as stated fails at the end of the range of `int`: the chain of the demo
state is created with four pairwise distinct tokens; after 2147483645 duplicates
of the link of its creator, which leave it undisturbed, its count is 2147483647,
and the lookup of its first token returns the link at index 1 and leaves the
count at -2147483648, not at one more. -/
theorem lookup_registered_token_wraps :
    (∀ i j, i < 4 → j < 4 →
      Demo.generator TOKEN_LENGTH i = Demo.generator TOKEN_LENGTH j → i = j) ∧
    AsChainLink.create_as_chain Demo.generator { heap := [], _t2c_map := [] } 1 .Originating
      "sip:alice@example.com" false 7
      [Demo.ifc_ext, Demo.ifc_skip, Demo.ifc_mmtel, Demo.ifc_bad] =
        .ok (AsChainLink.mk2 (some 1) 0, Demo.state) ∧
    Undisturbed 1 ["AAAAAAAAAA", "BBBBBBBBBB", "CCCCCCCCCC", "DDDDDDDDDD"] Demo.state
      Demo.state_max ∧
    Map.find 1 Demo.state_max.heap = some Demo.chain_max ∧
    Demo.chain_max._refs = 2147483647 ∧
    lookup Demo.state_max "AAAAAAAAAA" = .ok (AsChainLink.mk2 (some 1) 1, Demo.state_min) ∧
    Map.find 1 Demo.state_min.heap = some { Demo.chain_max with _refs := -2147483648 } ∧
    Map.find 1 Demo.state_min.heap ≠
      some { Demo.chain_max with _refs := Demo.chain_max._refs + 1 } := by
  refine ⟨?_, demo_state_created, demo_state_max_undisturbed, rfl, rfl, rfl, rfl, by decide⟩
  intro i j hi hj
  interval_cases i <;> interval_cases j <;> simp [Demo.generator]

end AsChainTable

namespace AsChainLink

/-- C15 as stated fails at the end of the range of `int`: the demo chain has the
count 2147483647 after 2147483645 duplicates of the link of its creator, and one
more `duplicate` returns the link and leaves the count at -2147483648, not at one
more. -/
theorem duplicate_wraps_at_int_max :
    Undisturbed 1 ["AAAAAAAAAA", "BBBBBBBBBB", "CCCCCCCCCC", "DDDDDDDDDD"] Demo.state
      Demo.state_max ∧
    (mk2 (some 1) 0)._as_chain = some 1 ∧
    Map.find 1 Demo.state_max.heap = some Demo.chain_max ∧
    Demo.chain_max._refs = 2147483647 ∧
    duplicate Demo.state_max (mk2 (some 1) 0) = .ok (mk2 (some 1) 0, Demo.state_min) ∧
    Map.find 1 Demo.state_min.heap = some { Demo.chain_max with _refs := -2147483648 } ∧
    Map.find 1 Demo.state_min.heap ≠
      some { Demo.chain_max with _refs := Demo.chain_max._refs + 1 } :=
  ⟨AsChainTable.demo_state_max_undisturbed, rfl, rfl, rfl, rfl, rfl, by decide⟩

end AsChainLink

namespace Ownership

open AsChainLink AsChainTable

/-- Duplicating a link the rules allow, `n` times up to the count INT_MAX and once
more, follows the rules and leaves the chain with the count INT_MIN. -/
theorem run_duplicates_wrap {addr : Nat} {tokens : List String}
    (l : AsChainLink) (hl : l._as_chain = some addr) :
    ∀ (n : Nat) (o : Ownership) (s : State) (c : AsChain),
      Map.find addr s.heap = some c → 0 < o.owned → c._refs + (n : Int) = AsChain.INT_MAX →
      follows addr tokens o s (List.replicate (n + 1) (.duplicate l)) = true ∧
      run addr o s (List.replicate (n + 1) (.duplicate l)) =
        .ok ({ o with owned := o.owned + (n + 1) },
             { s with heap := Map.assign addr { c with _refs := AsChain.INT_MIN } s.heap }) := by
  intro n
  induction n with
  | zero =>
    intro o s c hc hown hmax
    have he : c._refs = AsChain.INT_MAX := by simpa using hmax
    have hfb : freed_by addr s
        { s with heap := Map.assign addr { c with _refs := AsChain.INT_MIN } s.heap } = 0 :=
      freed_by_of_live (Map.find_assign_self _ _ _)
    have hstep : step addr o s (.duplicate l) =
        .ok ({ o with owned := o.owned + 1 },
             { s with heap := Map.assign addr { c with _refs := AsChain.INT_MIN } s.heap }) := by
      simp only [step, duplicate, hl, inc_ref_eq hc, he, AsChain.pre_increment_max, hfb,
        Nat.add_zero]
    constructor
    · simp [List.replicate, follows, allows, hl, hown, hstep]
    · simp [List.replicate, run, hstep]
  | succ n ih =>
    intro o s c hc hown hmax
    have hne : c._refs ≠ AsChain.INT_MAX := by
      intro e
      rw [e] at hmax
      push_cast at hmax
      omega
    have hfb : freed_by addr s
        { s with heap := Map.assign addr { c with _refs := c._refs + 1 } s.heap } = 0 :=
      freed_by_of_live (Map.find_assign_self _ _ _)
    have hstep : step addr o s (.duplicate l) =
        .ok ({ o with owned := o.owned + 1 },
             { s with heap := Map.assign addr { c with _refs := c._refs + 1 } s.heap }) := by
      simp only [step, duplicate, hl, inc_ref_eq hc, AsChain.pre_increment_of_ne hne, hfb,
        Nat.add_zero]
    have hmax1 : ({ c with _refs := c._refs + 1 } : AsChain)._refs + (n : Int) =
        AsChain.INT_MAX := by
      show c._refs + 1 + (n : Int) = AsChain.INT_MAX
      push_cast at hmax
      omega
    obtain ⟨hf, hr⟩ := ih { o with owned := o.owned + 1 }
      { s with heap := Map.assign addr { c with _refs := c._refs + 1 } s.heap }
      { c with _refs := c._refs + 1 } (Map.find_assign_self _ _ _) (Nat.succ_pos _) hmax1
    have hassoc : o.owned + 1 + (n + 1) = o.owned + (n + 1 + 1) := by omega
    simp only [assign_assign, hassoc] at hr
    have hallow : o.allows addr tokens (.duplicate l) = true := by
      simp [allows, hl, hown]
    constructor
    · show (o.allows addr tokens (.duplicate l) &&
        match step addr o s (.duplicate l) with
        | .error _ => true
        | .ok (o', s') => follows addr tokens o' s' (List.replicate (n + 1) (.duplicate l))) = true
      rw [hstep, hallow]
      exact hf
    · show (match step addr o s (.duplicate l) with
        | .error f => Except.error f
        | .ok (o', s') => run addr o' s' (List.replicate (n + 1) (.duplicate l))) = _
      rw [hstep]
      exact hr

/-- C12 as stated fails at the end of the range of `int`: after the creation of the
demo chain, 2147483646 duplicates of the link of its creator follow the ownership
rules and run without a fault; 2147483647 owned links are then outstanding and
`request_destroy` has not been called, yet the chain is live with the reference
count -2147483648, which is negative and is not the number of owned links plus
one. -/
theorem reference_count_wraps :
    AsChainLink.create_as_chain Demo.generator { heap := [], _t2c_map := [] } 1 .Originating
      "sip:alice@example.com" false 7
      [Demo.ifc_ext, Demo.ifc_skip, Demo.ifc_mmtel, Demo.ifc_bad] =
        .ok (AsChainLink.mk2 (some 1) 0, Demo.state) ∧
    follows 1 ["AAAAAAAAAA", "BBBBBBBBBB", "CCCCCCCCCC", "DDDDDDDDDD"]
      { owned := 1, destroy_requested := false, frees := 0 } Demo.state
      (List.replicate 2147483646 (.duplicate (AsChainLink.mk2 (some 1) 0))) = true ∧
    run 1 { owned := 1, destroy_requested := false, frees := 0 } Demo.state
      (List.replicate 2147483646 (.duplicate (AsChainLink.mk2 (some 1) 0))) =
        .ok ({ owned := 2147483647, destroy_requested := false, frees := 0 }, Demo.state_min) ∧
    Map.find 1 Demo.state_min.heap = some Demo.chain_min ∧
    Demo.chain_min._refs = -2147483648 ∧ Demo.chain_min._refs < 0 ∧
    Demo.chain_min._refs ≠ ((2147483647 : Nat) : Int) + 1 :=
  have h := run_duplicates_wrap (AsChainLink.mk2 (some 1) 0) rfl 2147483645
    { owned := 1, destroy_requested := false, frees := 0 } Demo.state Demo.chain rfl
    (by decide) (by decide)
  ⟨demo_state_created, h.1, h.2, rfl, rfl, by decide, by decide⟩

end Ownership

end Sprout
